import Mathlib

/-!
Service binding retriever.

A shallow embedding of `pkg/controller/servicebindingrequest/retriever.go`.

Go strings are modelled as lists of runes (`Str`), byte slices as lists of
naturals below 256 (`Bytes`), `interface{}` trees decoded from JSON as `Value`,
and Go maps as association lists whose list order is the order in which a
`range` statement visits the entries.  A Go call can end in three ways, kept
apart by `Outcome`: a normal return, a returned `error`, or a run-time panic.
-/

namespace servicebindingrequest

/-- Go `string`, as its sequence of runes. -/
abbrev Str := List Char

/-- Go `[]byte`; every element is below 256. -/
abbrev Bytes := List Nat

/-- Go `map[string]T`: at most one entry per key is ever looked up (the first). -/
abbrev GoMap (α : Type) := List (Str × α)

/-- An `interface{}` tree as produced by the JSON decoder of the API machinery
(numbers are `int64`; floating point numbers are not modelled). -/
inductive Value where
  | null : Value
  | bool (b : Bool) : Value
  | num (n : Int) : Value
  | str (s : Str) : Value
  | list (xs : List Value) : Value
  | map (kvs : List (Str × Value)) : Value

mutual
/-- Equality of decoded JSON values is decidable. -/
def Value.decEq : (a b : Value) → Decidable (a = b)
  | .null, .null => isTrue rfl
  | .bool a, .bool b =>
    if h : a = b then isTrue (by rw [h]) else isFalse (by intro e; cases e; exact h rfl)
  | .num a, .num b =>
    if h : a = b then isTrue (by rw [h]) else isFalse (by intro e; cases e; exact h rfl)
  | .str a, .str b =>
    if h : a = b then isTrue (by rw [h]) else isFalse (by intro e; cases e; exact h rfl)
  | .list a, .list b =>
    match Value.decEqList a b with
    | isTrue h => isTrue (by rw [h])
    | isFalse h => isFalse (by intro e; cases e; exact h rfl)
  | .map a, .map b =>
    match Value.decEqFields a b with
    | isTrue h => isTrue (by rw [h])
    | isFalse h => isFalse (by intro e; cases e; exact h rfl)
  | .null, .bool _ | .null, .num _ | .null, .str _ | .null, .list _ | .null, .map _
  | .bool _, .null | .bool _, .num _ | .bool _, .str _ | .bool _, .list _ | .bool _, .map _
  | .num _, .null | .num _, .bool _ | .num _, .str _ | .num _, .list _ | .num _, .map _
  | .str _, .null | .str _, .bool _ | .str _, .num _ | .str _, .list _ | .str _, .map _
  | .list _, .null | .list _, .bool _ | .list _, .num _ | .list _, .str _ | .list _, .map _
  | .map _, .null | .map _, .bool _ | .map _, .num _ | .map _, .str _ | .map _, .list _ =>
    isFalse (by intro e; cases e)
/-- Equality of slices of values is decidable. -/
def Value.decEqList : (a b : List Value) → Decidable (a = b)
  | [], [] => isTrue rfl
  | [], _ :: _ => isFalse (by intro e; cases e)
  | _ :: _, [] => isFalse (by intro e; cases e)
  | x :: xs, y :: ys =>
    match Value.decEq x y, Value.decEqList xs ys with
    | isTrue h, isTrue t => isTrue (by rw [h, t])
    | isFalse h, _ => isFalse (by intro e; cases e; exact h rfl)
    | _, isFalse t => isFalse (by intro e; cases e; exact t rfl)
/-- Equality of map entries is decidable. -/
def Value.decEqFields : (a b : List (Str × Value)) → Decidable (a = b)
  | [], [] => isTrue rfl
  | [], _ :: _ => isFalse (by intro e; cases e)
  | _ :: _, [] => isFalse (by intro e; cases e)
  | (k, x) :: xs, (l, y) :: ys =>
    if hk : k = l then
      match Value.decEq x y, Value.decEqFields xs ys with
      | isTrue h, isTrue t => isTrue (by rw [hk, h, t])
      | isFalse h, _ => isFalse (by intro e; cases e; exact h rfl)
      | _, isFalse t => isFalse (by intro e; cases e; exact t rfl)
    else isFalse (by intro e; cases e; exact hk rfl)
end

instance : DecidableEq Value := Value.decEq

/-- Reason carried by an API status error (`k8s.io/apimachinery/pkg/api/errors`). -/
inductive StatusReason where
  | notFound
  | alreadyExists
  | conflict
  | other (code : Nat)
  deriving DecidableEq, Repr

/-- Go `error` values that the retriever can return. -/
inductive GoError where
  /-- Built by `fmt.Errorf`. -/
  | errorf (msg : Str)
  /-- Returned by the API client. -/
  | status (reason : StatusReason)
  /-- Returned by `unstructured.NestedMap` when the field is not a map. -/
  | accessor (field : Str)
  /-- The `base64.CorruptInputError`; the embedding does not compute the offset and reports 0. -/
  | corruptInput (offset : Nat)
  deriving DecidableEq, Repr

/-- Run-time panics that the retriever can raise. -/
inductive GoPanic where
  /-- An unchecked type assertion `x.(T)` on a value that is not a `T`. -/
  | typeAssertion
  /-- An index expression out of range. -/
  | indexOutOfRange
  /-- The recursion budget of the embedding ran out (never happens, see
  `getNestedValueFuel_enough`). -/
  | outOfFuel
  deriving DecidableEq, Repr

deriving instance DecidableEq for Except

/-- How a Go call ends. -/
inductive Outcome (α : Type) where
  | ok (a : α)
  | error (e : GoError)
  | panic (p : GoPanic)
  deriving DecidableEq, Repr

/-! ## `strings` -/

/-- The `strings.HasPrefix` function. -/
def HasPrefix (s pre : Str) : Bool := pre.isPrefixOf s

/-- The `strings.Index` function, counting runes: position of the first occurrence. -/
def Index : Str → Str → Option Nat
  | [], sub => if sub.isEmpty then some 0 else none
  | c :: cs, sub =>
    if sub.isPrefixOf (c :: cs) then some 0
    else match Index cs sub with
      | some i => some (i + 1)
      | none => none

/-- The `strings.Contains` function. -/
def Contains (s sub : Str) : Bool := (Index s sub).isSome

/-- The call `strings.SplitN(s, sep, 2)` for a non-empty separator. -/
def SplitN2 (s sep : Str) : List Str :=
  match Index s sep with
  | none => [s]
  | some m => [s.take m, s.drop (m + sep.length)]

/-- Worker of `ReplaceAll`: `skip` runes of a match just replaced are still to be dropped. -/
def replaceFrom (old new : Str) : Nat → Str → Str
  | _, [] => []
  | skip + 1, _ :: cs => replaceFrom old new skip cs
  | 0, c :: cs =>
    if old.isPrefixOf (c :: cs) then new ++ replaceFrom old new (old.length - 1) cs
    else c :: replaceFrom old new 0 cs

/-- The `strings.ReplaceAll` function: every non-overlapping occurrence of `old`, scanning from
the left, is replaced by `new`; an empty `old` matches before every rune and at the end. -/
def ReplaceAll (s old new : Str) : Str :=
  if old.isEmpty then new ++ s.flatMap (fun c => c :: new)
  else replaceFrom old new 0 s

/-- The `unicode.ToUpper` function on the ASCII range (other runes are left alone). -/
def toUpperRune (c : Char) : Char := c.toUpper

/-- The `strings.ToUpper` function: rune-wise upper-casing. -/
def ToUpper (s : Str) : Str := s.map toUpperRune

/-! ## Go maps -/

/-- Map index expression `m[k]` with the comma-ok result. -/
def lookup {α : Type} (k : Str) : GoMap α → Option α
  | [] => none
  | (k', v) :: rest => if k' = k then some v else lookup k rest

/-- Map assignment `m[k] = v`. -/
def assign {α : Type} (k : Str) (v : α) : GoMap α → GoMap α
  | [] => [(k, v)]
  | (k', v') :: rest => if k' = k then (k, v) :: rest else (k', v') :: assign k v rest

/-! ## `fmt` -/

/-- Byte-wise string order, used by `fmt` to print maps in key order. -/
def strLt : Str → Str → Bool
  | [], [] => false
  | [], _ :: _ => true
  | _ :: _, [] => false
  | a :: as, b :: bs =>
    if a.toNat < b.toNat then true
    else if b.toNat < a.toNat then false
    else strLt as bs

/-- Insertion into a key-sorted list. -/
def insertByKey (k : Str) (v : Str) : List (Str × Str) → List (Str × Str)
  | [] => [(k, v)]
  | (k', v') :: rest =>
    if strLt k k' then (k, v) :: (k', v') :: rest else (k', v') :: insertByKey k v rest

/-- Sort by key. -/
def sortByKey : List (Str × Str) → List (Str × Str)
  | [] => []
  | (k, v) :: rest => insertByKey k v (sortByKey rest)

/-- The `strings.Join` function. -/
def Join : List Str → Str → Str
  | [], _ => []
  | [s], _ => s
  | s :: t :: rest, sep => s ++ sep ++ Join (t :: rest) sep

mutual
/-- The rendering `fmt.Sprintf("%v", value)` of a decoded JSON value. -/
def render : Value → Str
  | .null => "<nil>".toList
  | .bool b => if b then "true".toList else "false".toList
  | .num n => (toString n).toList
  | .str s => s
  | .list xs => "[".toList ++ Join (renderList xs) " ".toList ++ "]".toList
  | .map kvs =>
    "map[".toList
      ++ Join ((sortByKey (renderFields kvs)).map (fun p => p.1 ++ ":".toList ++ p.2)) " ".toList
      ++ "]".toList
/-- Rendering of the elements of a slice. -/
def renderList : List Value → List Str
  | [] => []
  | v :: vs => render v :: renderList vs
/-- Rendering of the entries of a map. -/
def renderFields : List (Str × Value) → List (Str × Str)
  | [] => []
  | (k, v) :: rest => (k, render v) :: renderFields rest
end

/-! ## Path resolution -/

/-- The function `getNestedValue` with an explicit recursion budget. -/
def getNestedValueFuel : Nat → Str → Value → Outcome Str
  | 0, _, _ => .panic .outOfFuel
  | fuel + 1, key, sectionMap =>
    if !Contains key ".".toList then
      match sectionMap with
      | .map m =>
        match lookup key m with
        | none => .error (.errorf ("Can't find key '".toList ++ key ++ "'".toList))
        | some value => .ok (render value)
      | _ => .panic .typeAssertion
    else
      match SplitN2 key ".".toList with
      | [a0, a1] =>
        match sectionMap with
        | .map m =>
          match lookup a0 m with
          | none =>
            .error (.errorf ("Can't find '".toList ++ render (.list [.str a0, .str a1])
              ++ "' section in CR".toList))
          | some newSectionMap =>
            match newSectionMap with
            | .map _ => getNestedValueFuel fuel a1 newSectionMap
            | _ => .panic .typeAssertion
        | _ => .panic .typeAssertion
      | _ => .panic .indexOutOfRange

/-- The method `getNestedValue`: retrieve a value from a dotted key path. -/
def getNestedValue (key : Str) (sectionMap : Value) : Outcome Str :=
  getNestedValueFuel (key.length + 1) key sectionMap
/-! ## Bytes and `encoding/base64` -/

/-- UTF-8 encoding of one rune. -/
def utf8Rune (c : Char) : Bytes :=
  let n := c.toNat
  if n < 0x80 then [n]
  else if n < 0x800 then [0xC0 + n / 0x40, 0x80 + n % 0x40]
  else if n < 0x10000 then [0xE0 + n / 0x1000, 0x80 + (n / 0x40) % 0x40, 0x80 + n % 0x40]
  else [0xF0 + n / 0x40000, 0x80 + (n / 0x1000) % 0x40, 0x80 + (n / 0x40) % 0x40, 0x80 + n % 0x40]

/-- The conversion `[]byte(s)`. -/
def toBytes (s : Str) : Bytes := s.flatMap utf8Rune

/-- Value of a rune in the standard base64 alphabet. -/
def sextet (c : Char) : Option Nat :=
  let n := c.toNat
  if 'A'.toNat ≤ n ∧ n ≤ 'Z'.toNat then some (n - 'A'.toNat)
  else if 'a'.toNat ≤ n ∧ n ≤ 'z'.toNat then some (n - 'a'.toNat + 26)
  else if '0'.toNat ≤ n ∧ n ≤ '9'.toNat then some (n - '0'.toNat + 52)
  else if c = '+' then some 62
  else if c = '/' then some 63
  else none

/-- Rune of a value below 64 in the standard base64 alphabet. -/
def alphabet (n : Nat) : Char :=
  if n < 26 then Char.ofNat ('A'.toNat + n)
  else if n < 52 then Char.ofNat ('a'.toNat + (n - 26))
  else if n < 62 then Char.ofNat ('0'.toNat + (n - 52))
  else if n = 62 then '+'
  else '/'

/-- Decoding of padded quanta, once carriage returns and line feeds are dropped. The budget
counts quanta. -/
def decodeQuanta : Nat → Str → Option Bytes
  | _, [] => some []
  | 0, _ :: _ => none
  | fuel + 1, a :: b :: c :: d :: rest =>
    match sextet a, sextet b with
    | some x, some y =>
      if c = '=' then
        if d = '=' ∧ rest.isEmpty then some [(x * 4 + y / 16) % 256] else none
      else match sextet c with
        | none => none
        | some z =>
          if d = '=' then
            if rest.isEmpty then some [(x * 4 + y / 16) % 256, (y * 16 + z / 4) % 256] else none
          else match sextet d, decodeQuanta fuel rest with
            | some w, some more =>
              some ((x * 4 + y / 16) % 256 :: (y * 16 + z / 4) % 256 :: (z * 64 + w) % 256 :: more)
            | _, _ => none
    | _, _ => none
  | _ + 1, _ => none

/-- The call `base64.StdEncoding.DecodeString(s)`: line breaks are ignored, padding is
mandatory, trailing bits are not checked. -/
def DecodeString (s : Str) : Except GoError Bytes :=
  let t := s.filter (fun c => c != '\n' && c != '\r')
  match decodeQuanta t.length t with
  | some bs => .ok bs
  | none => .error (.corruptInput 0)

/-- The call `base64.StdEncoding.EncodeToString(b)`. -/
def EncodeToString : Bytes → Str
  | [] => []
  | [x] => [alphabet (x / 4), alphabet (x % 4 * 16), '=', '=']
  | [x, y] => [alphabet (x / 4), alphabet (x % 4 * 16 + y / 16), alphabet (y % 16 * 4), '=']
  | x :: y :: z :: rest =>
    alphabet (x / 4) :: alphabet (x % 4 * 16 + y / 16) :: alphabet (y % 16 * 4 + z / 64)
      :: alphabet (z % 64) :: EncodeToString rest

/-! ## The API machinery -/

/-- The content `u.Object` of an `unstructured.Unstructured`. -/
abbrev Object := GoMap Value

/-- The accessor `GetKind` of an unstructured object. -/
def GetKind (obj : Object) : Str :=
  match lookup "kind".toList obj with
  | some (.str s) => s
  | _ => []

/-- The accessor `GetName` of an unstructured object. -/
def GetName (obj : Object) : Str :=
  match lookup "metadata".toList obj with
  | some (.map m) =>
    match lookup "name".toList m with
    | some (.str s) => s
    | _ => []
  | _ => []

/-- The call `unstructured.NestedMap(obj, field)`: the map under `field`, whether the field is
there, and an accessor error when it is there but is no map. -/
def NestedMap (obj : Object) (field : Str) : Except GoError (Option Object) :=
  match lookup field obj with
  | none => .ok none
  | some (.map m) => .ok (some m)
  | some _ => .error (.accessor field)

/-- The predicate `errors.IsAlreadyExists`. -/
def IsAlreadyExists (e : GoError) : Bool := e = .status .alreadyExists

/-- The two resources the retriever addresses (`schema.GroupVersionResource`). -/
inductive Resource where
  | secrets
  | configmaps
  deriving DecidableEq, Repr

/-- A request sent through the API client. -/
inductive Request where
  | get (res : Resource) (ns name : Str)
  | create (res : Resource) (ns : Str) (obj : Object)
  | update (res : Resource) (ns : Str) (obj : Object)
  deriving DecidableEq

/-- Whether a request writes to the cluster. -/
def Request.isWrite : Request → Bool
  | .get _ _ _ => false
  | .create _ _ _ => true
  | .update _ _ _ => true

/-- The `dynamic.Interface` client, as far as the retriever uses it, over a cluster state `W`.
Reading leaves the cluster as it is; creating and updating return the new cluster. -/
structure Client (W : Type) where
  Get : W → Resource → Str → Str → Except GoError Object
  Create : W → Resource → Str → Object → Except GoError Object × W
  Update : W → Resource → Str → Object → Except GoError Object × W

/-- An olm `SpecDescriptor` or `StatusDescriptor`, as far as the retriever reads it. -/
structure Descriptor where
  Path : Str
  XDescriptors : List Str
  deriving DecidableEq

/-- The olm `CRDDescription`, as far as the retriever reads it. -/
structure CRDDescription where
  SpecDescriptors : List Descriptor
  StatusDescriptors : List Descriptor
  deriving DecidableEq

/-- Modelled from the spec: the type `Plan` is declared outside `retriever.go`; it carries the
custom resource instance, the namespace and name of the aggregate, and the descriptor schema
with its two ordered sequences of field descriptors. -/
structure Plan where
  Ns : Str
  Name : Str
  CRDDescription : CRDDescription
  CR : Object
  deriving DecidableEq

/-! ## The retriever -/

/-- The struct `Retriever`. The logger and the request context take no part in what is computed
and are left out. Two fields are added to observe the client: `world` is the cluster state the
client talks to, and `requests` lists the requests issued so far, oldest first. -/
structure Retriever (W : Type) where
  data : GoMap Bytes
  objects : List Object
  client : Client W
  plan : Plan
  volumeKeys : List Str
  bindingPrefix : Str
  world : W
  requests : List Request

/-- The constant `basePrefix`. -/
def basePrefix : Str := "binding:env:object".toList
/-- The constant `secretPrefix`. -/
def secretPrefix : Str := basePrefix ++ ":secret".toList
/-- The constant `configMapPrefix`. -/
def configMapPrefix : Str := basePrefix ++ ":configmap".toList
/-- The constant `attributePrefix`. -/
def attributePrefix : Str := "binding:env:attribute".toList
/-- The constant `volumeMountSecretPrefix`. -/
def volumeMountSecretPrefix : Str := "binding:volumemount:secret".toList

variable {W : Type}

/-- The method `getCRKey`: retrieve a key in a section of the CR object of the plan. -/
def Retriever.getCRKey (r : Retriever W) (sectionName : Str) (key : Str) : Outcome Str :=
  match lookup sectionName r.plan.CR with
  | none =>
    .error (.errorf ("Can't find '".toList ++ sectionName ++ "' section in CR named '".toList
      ++ GetName r.plan.CR ++ "'".toList))
  | some sectionMap => getNestedValue key sectionMap

/-- The method `extractSecretItemName`. -/
def Retriever.extractSecretItemName (_r : Retriever W) (xDescriptor : Str) : Str :=
  ReplaceAll xDescriptor (secretPrefix ++ ":".toList) []

/-- The method `extractConfigMapItemName`. -/
def Retriever.extractConfigMapItemName (_r : Retriever W) (xDescriptor : Str) : Str :=
  ReplaceAll xDescriptor (configMapPrefix ++ ":".toList) []

/-- The aggregate key that `store` computes from a key (the body of `store` up to the call of
`strings.ToUpper`). -/
def Retriever.storeKey (r : Retriever W) (key : Str) : Str :=
  let key := ReplaceAll key ":".toList "_".toList
  let key := ReplaceAll key ".".toList "_".toList
  let key :=
    if r.bindingPrefix.isEmpty then GetKind r.plan.CR ++ "_".toList ++ key
    else r.bindingPrefix ++ "_".toList ++ GetKind r.plan.CR ++ "_".toList ++ key
  ToUpper key

/-- The method `store`: store key and value, formatting the key like an environment variable. -/
def Retriever.store (r : Retriever W) (key : Str) (value : Bytes) : Retriever W :=
  { r with data := assign (r.storeKey key) value r.data }

/-- An API request is recorded before it is sent. -/
def Retriever.record (r : Retriever W) (req : Request) : Retriever W :=
  { r with requests := r.requests ++ [req] }

/-- A `for ... range` loop whose body may return an error (or panic): the entries are visited
in list order and the first body that does not end normally ends the loop with its outcome. -/
def forEach {α : Type} (body : α → Retriever W → Outcome Unit × Retriever W) :
    List α → Retriever W → Outcome Unit × Retriever W
  | [], r => (.ok (), r)
  | x :: xs, r =>
    match body x r with
    | (.ok (), r) => forEach body xs r
    | failed => failed

/-- The body of the loop `for k, v := range data` of `readSecret`. -/
def Retriever.secretEntry (kv : Str × Value) (r : Retriever W) : Outcome Unit × Retriever W :=
  match kv.2 with
  | .str value =>
    match DecodeString value with
    | .error e => (.error e, r)
    | .ok data => (.ok (), r.store ("secret_".toList ++ kv.1) data)
  | _ => (.panic .typeAssertion, r)

/-- The loop `for k, v := range data` of `readSecret`, visiting the entries in list order. -/
def Retriever.rangeSecretData (data : GoMap Value) (r : Retriever W) :
    Outcome Unit × Retriever W :=
  forEach Retriever.secretEntry data r

/-- The method `readSecret`: read a secret from the namespace of the plan. -/
def Retriever.readSecret (r : Retriever W) (name : Str) (_items : List Str) :
    Outcome Unit × Retriever W :=
  let r := r.record (.get .secrets r.plan.Ns name)
  match r.client.Get r.world .secrets r.plan.Ns name with
  | .error e => (.error e, r)
  | .ok u =>
    match NestedMap u "data".toList with
    | .error e => (.error e, r)
    | .ok none => (.error (.errorf "could not find 'data' in secret".toList), r)
    | .ok (some data) =>
      match Retriever.rangeSecretData data r with
      | (.ok (), r) => (.ok (), { r with objects := r.objects ++ [u] })
      | failed => failed

/-- The body of the loop `for k, v := range data` of `readConfigMap`. -/
def Retriever.configMapEntry (kv : Str × Value) (r : Retriever W) :
    Outcome Unit × Retriever W :=
  match kv.2 with
  | .str value => (.ok (), r.store ("configMap_".toList ++ kv.1) (toBytes value))
  | _ => (.panic .typeAssertion, r)

/-- The loop `for k, v := range data` of `readConfigMap`, visiting the entries in list order. -/
def Retriever.rangeConfigMapData (data : GoMap Value) (r : Retriever W) :
    Outcome Unit × Retriever W :=
  forEach Retriever.configMapEntry data r

/-- The method `readConfigMap`: read a config map from the namespace of the plan. -/
def Retriever.readConfigMap (r : Retriever W) (name : Str) (_items : List Str) :
    Outcome Unit × Retriever W :=
  let r := r.record (.get .configmaps r.plan.Ns name)
  match r.client.Get r.world .configmaps r.plan.Ns name with
  | .error e => (.error e, r)
  | .ok u =>
    match NestedMap u "data".toList with
    | .error e => (.error e, r)
    | .ok none => (.error (.errorf "could not find 'data' in secret".toList), r)
    | .ok (some data) =>
      match Retriever.rangeConfigMapData data r with
      | (.ok (), r) => (.ok (), { r with objects := r.objects ++ [u] })
      | failed => failed

/-- The statement `m[name] = append(m[name], item)` on a map of string slices. -/
def appendItem (name item : Str) (m : GoMap (List Str)) : GoMap (List Str) :=
  assign name ((lookup name m).getD [] ++ [item]) m

/-- The two maps local to one call of `read`: secret name to items, config map name to items. -/
structure Pending where
  secrets : GoMap (List Str)
  configMaps : GoMap (List Str)
  deriving DecidableEq

/-- The `if` chain in the loop of `read`: what one x-descriptor does with the value found at
the path. -/
def Retriever.classify (r : Retriever W) (path pathValue xDescriptor : Str) (acc : Pending) :
    Pending × Retriever W :=
  if HasPrefix xDescriptor secretPrefix then
    ({ acc with secrets := appendItem pathValue (r.extractSecretItemName xDescriptor) acc.secrets },
      r)
  else if HasPrefix xDescriptor configMapPrefix then
    ({ acc with
        configMaps := appendItem pathValue (r.extractConfigMapItemName xDescriptor) acc.configMaps },
      r)
  else if HasPrefix xDescriptor volumeMountSecretPrefix then
    ({ acc with secrets := appendItem pathValue (r.extractSecretItemName xDescriptor) acc.secrets },
      { r with volumeKeys := r.volumeKeys ++ [pathValue] })
  else if HasPrefix xDescriptor attributePrefix then
    (acc, r.store path (toBytes pathValue))
  else (acc, r)

/-- The loop `for _, xDescriptor := range xDescriptors` of `read`. -/
def Retriever.inspect (place path : Str) :
    List Str → Pending → Retriever W → Outcome Pending × Retriever W
  | [], acc, r => (.ok acc, r)
  | xDescriptor :: rest, acc, r =>
    match r.getCRKey place path with
    | .error e => (.error e, r)
    | .panic p => (.panic p, r)
    | .ok pathValue =>
      let step := r.classify path pathValue xDescriptor acc
      Retriever.inspect place path rest step.1 step.2

/-- The loop `for name, items := range secrets` of `read`. -/
def Retriever.readSecrets (secrets : GoMap (List Str)) (r : Retriever W) :
    Outcome Unit × Retriever W :=
  forEach (fun entry r => r.readSecret entry.1 entry.2) secrets r

/-- The loop `for name, items := range configMaps` of `read`. -/
def Retriever.readConfigMaps (configMaps : GoMap (List Str)) (r : Retriever W) :
    Outcome Unit × Retriever W :=
  forEach (fun entry r => r.readConfigMap entry.1 entry.2) configMaps r

/-- The method `read`: read attributes from the CR, parsing the x-descriptors in order to
either read CR data directly or read items from a secret or a config map. -/
def Retriever.read (r : Retriever W) (place path : Str) (xDescriptors : List Str) :
    Outcome Unit × Retriever W :=
  match Retriever.inspect place path xDescriptors ⟨[], []⟩ r with
  | (.error e, r) => (.error e, r)
  | (.panic p, r) => (.panic p, r)
  | (.ok acc, r) =>
    match Retriever.readSecrets acc.secrets r with
    | (.ok (), r) => Retriever.readConfigMaps acc.configMaps r
    | failed => failed

/-- The conversion of the `corev1.Secret` built by `saveDataOnSecret` to unstructured content,
followed by `SetGroupVersionKind`: byte values become base64 text, empty fields tagged
`omitempty` are left out. -/
def secretToUnstructured (name ns : Str) (data : GoMap Bytes) : Object :=
  let meta : Object :=
    (if name.isEmpty then [] else [("name".toList, Value.str name)])
      ++ (if ns.isEmpty then [] else [("namespace".toList, Value.str ns)])
      ++ [("creationTimestamp".toList, Value.null)]
  [("kind".toList, Value.str "Secret".toList), ("apiVersion".toList, Value.str "v1".toList),
    ("metadata".toList, Value.map meta)]
    ++ (if data.isEmpty then []
        else [("data".toList, Value.map (data.map (fun kv => (kv.1, Value.str (EncodeToString kv.2)))))])

/-- The method `saveDataOnSecret`: create or update the secret that stores the data collected. -/
def Retriever.saveDataOnSecret (r : Retriever W) : Outcome Unit × Retriever W :=
  let u := secretToUnstructured r.plan.Name r.plan.Ns r.data
  let r := r.record (.create .secrets r.plan.Ns u)
  let created := r.client.Create r.world .secrets r.plan.Ns u
  let r := { r with world := created.2 }
  let fatal : Option GoError :=
    match created.1 with
    | .error e => if !IsAlreadyExists e then some e else none
    | .ok _ => none
  match fatal with
  | some e => (.error e, r)
  | none =>
    let r := r.record (.update .secrets r.plan.Ns u)
    let updated := r.client.Update r.world .secrets r.plan.Ns u
    let r := { r with world := updated.2 }
    match updated.1 with
    | .error e => (.error e, r)
    | .ok _ => (.ok (), { r with objects := r.objects ++ [u] })

/-- The loops over the spec descriptors and over the status descriptors of `Retrieve`. -/
def Retriever.readDescriptors (place : Str) (descriptors : List Descriptor) (r : Retriever W) :
    Outcome Unit × Retriever W :=
  forEach (fun d r => r.read place d.Path d.XDescriptors) descriptors r

/-- The method `Retrieve`: loop over and read the data pointed at by the references of the
plan, then save it on the intermediary secret; returns the objects in use. -/
def Retriever.Retrieve (r : Retriever W) : Outcome (List Object) × Retriever W :=
  match Retriever.readDescriptors "spec".toList r.plan.CRDDescription.SpecDescriptors r with
  | (.error e, r) => (.error e, r)
  | (.panic p, r) => (.panic p, r)
  | (.ok (), r) =>
    match Retriever.readDescriptors "status".toList r.plan.CRDDescription.StatusDescriptors r with
    | (.error e, r) => (.error e, r)
    | (.panic p, r) => (.panic p, r)
    | (.ok (), r) =>
      match r.saveDataOnSecret with
      | (.error e, r) => (.error e, r)
      | (.panic p, r) => (.panic p, r)
      | (.ok (), r) => (.ok r.objects, r)

/-- The function `NewRetriever`, for a client talking to the cluster state `world`. -/
def NewRetriever (client : Client W) (world : W) (plan : Plan) (bindingPrefix : Str) :
    Retriever W :=
  { data := [], objects := [], client := client, plan := plan, volumeKeys := [],
    bindingPrefix := bindingPrefix, world := world, requests := [] }

/-! ## A cluster -/

/-- A cluster holding secrets and config maps by namespace and name. -/
structure Cluster where
  secrets : List ((Str × Str) × Object)
  configMaps : List ((Str × Str) × Object)
  deriving DecidableEq

/-- The object stored under a namespace and a name. -/
def findObject (ns name : Str) : List ((Str × Str) × Object) → Option Object
  | [] => none
  | (k, o) :: rest => if k = (ns, name) then some o else findObject ns name rest

/-- Replace the object stored under a namespace and a name, or add it. -/
def putObject (ns name : Str) (o : Object) :
    List ((Str × Str) × Object) → List ((Str × Str) × Object)
  | [] => [((ns, name), o)]
  | (k, o') :: rest =>
    if k = (ns, name) then (k, o) :: rest else (k, o') :: putObject ns name o rest

/-- The objects of one resource. -/
def Cluster.objectsOf (c : Cluster) : Resource → List ((Str × Str) × Object)
  | .secrets => c.secrets
  | .configmaps => c.configMaps

/-- Store an object of one resource. -/
def Cluster.put (c : Cluster) (res : Resource) (ns : Str) (o : Object) : Cluster :=
  match res with
  | .secrets => { c with secrets := putObject ns (GetName o) o c.secrets }
  | .configmaps => { c with configMaps := putObject ns (GetName o) o c.configMaps }

/-- A fault-free API server: `Get` fails with not-found on a missing object, `Create` with
already-exists on an existing one, `Update` with not-found on a missing one. -/
def kube : Client Cluster where
  Get c res ns name :=
    match findObject ns name (c.objectsOf res) with
    | some o => .ok o
    | none => .error (.status .notFound)
  Create c res ns o :=
    match findObject ns (GetName o) (c.objectsOf res) with
    | some _ => (.error (.status .alreadyExists), c)
    | none => (.ok o, c.put res ns o)
  Update c res ns o :=
    match findObject ns (GetName o) (c.objectsOf res) with
    | some _ => (.ok o, c.put res ns o)
    | none => (.error (.status .notFound), c)

/-! ## Specification-side definitions -/

/-- The dot-separated segments of a path, as the specification speaks of them
(`strings.Split(p, ".")`). -/
def segments : Str → List Str
  | [] => [[]]
  | c :: cs =>
    if c = '.' then [] :: segments cs
    else match segments cs with
      | [] => [[c]]
      | s :: ss => (c :: s) :: ss

/-- Where following a list of segments from the root of a tree ends. -/
inductive Walk where
  /-- Every segment was found; the value reached. -/
  | leaf (v : Value)
  /-- The first segment that its mapping does not hold, and the segments after it. -/
  | missing (seg : Str) (rest : List Str)
  /-- A segment had to be looked up in a value that is not a mapping. -/
  | notMapping
  deriving DecidableEq

/-- Follow each segment in turn from the root of a tree. -/
def follow : List Str → Value → Walk
  | [], v => .leaf v
  | seg :: rest, .map m =>
    match lookup seg m with
    | none => .missing seg rest
    | some v => follow rest v
  | _ :: _, _ => .notMapping

/-- Whether a value is a mapping, that is, whether `v.(map[string]interface{})` succeeds. -/
def Value.isMap : Value → Bool
  | .map _ => true
  | _ => false

/-- What `getNestedValue` returns, read off the walk along the segments of the key. -/
def resolved : Walk → Outcome Str
  | .leaf v => .ok (render v)
  | .missing seg [] => .error (.errorf ("Can't find key '".toList ++ seg ++ "'".toList))
  | .missing seg (r :: rest) =>
    .error (.errorf ("Can't find '".toList
      ++ render (.list [.str seg, .str (Join (r :: rest) ['.'])]) ++ "' section in CR".toList))
  | .notMapping => .panic .typeAssertion

/-- A raw key with every `:` and every `.` replaced by `_`, as the specification words it. -/
def underscored (k : Str) : Str :=
  k.map (fun c => if c = ':' ∨ c = '.' then '_' else c)

/-- The aggregate key as the specification words it: the kind, or the binding prefix and the
kind, joined by `_` in front of the underscored raw key, the whole upper-cased. -/
def aggregateKey (bindingPrefix kind rawKey : Str) : Str :=
  if bindingPrefix = [] then ToUpper (kind ++ ['_'] ++ underscored rawKey)
  else ToUpper (bindingPrefix ++ ['_'] ++ kind ++ ['_'] ++ underscored rawKey)

/-- Where an aggregate entry comes from. -/
inductive SourceKind where
  | secret
  | configMap
  | attribute
  deriving DecidableEq, Repr

/-- The sub-prefix that `readSecret` and `readConfigMap` put in front of an item key before
they call `store`; attributes have none. -/
def SourceKind.subPrefix : SourceKind → Str
  | .secret => "secret_".toList
  | .configMap => "configMap_".toList
  | .attribute => []

/-- A custom resource of a given kind and content of its `spec` section. -/
def customResource (kind : Str) (spec : Object) : Object :=
  [("kind".toList, .str kind), ("spec".toList, .map spec)]

/-- A plan for a custom resource, with the aggregate `binding` in namespace `ns`. -/
def planFor (cr : Object) (specDescriptors : List Descriptor) : Plan :=
  { Ns := "ns".toList, Name := "binding".toList, CR := cr,
    CRDDescription := { SpecDescriptors := specDescriptors, StatusDescriptors := [] } }

/-- A retriever for a custom resource of a given kind, on an empty cluster. -/
def retrieverOfKind (bindingPrefix kind : Str) : Retriever Cluster :=
  NewRetriever kube ⟨[], []⟩ (planFor (customResource kind []) []) bindingPrefix

/-- The same retriever, talking to another cluster state. -/
def Retriever.onWorld (r : Retriever W) (w : W) : Retriever W := { r with world := w }

/-- A request is answered alike in two cluster states: a get returns the same. -/
def agrees (client : Client W) (w w' : W) : Request → Prop
  | .get res ns name => client.Get w' res ns name = client.Get w res ns name
  | _ => True

/-- A step from `r` to `r'` that only reads: plan, binding prefix, client and cluster are the
same, and the requests issued in between are no writes. -/
def ReadOnly (r r' : Retriever W) : Prop :=
  r'.plan = r.plan ∧ r'.bindingPrefix = r.bindingPrefix ∧ r'.client = r.client
    ∧ r'.world = r.world
    ∧ ∃ l, r'.requests = r.requests ++ l ∧ ∀ q ∈ l, q.isWrite = false

/-- A step from `r` to `r'` that only changes the aggregate data. -/
def OnlyData (r r' : Retriever W) : Prop :=
  r'.plan = r.plan ∧ r'.bindingPrefix = r.bindingPrefix ∧ r'.client = r.client
    ∧ r'.world = r.world ∧ r'.requests = r.requests ∧ r'.objects = r.objects
    ∧ r'.volumeKeys = r.volumeKeys

/-- A secret named `db-creds` in namespace `ns`, with the given `data` entries. -/
def clusterWithSecret (data : GoMap Value) : Cluster :=
  { secrets := [(("ns".toList, "db-creds".toList), [("data".toList, .map data)])],
    configMaps := [] }

/-- A retriever for kind `Db`, without binding prefix, on a cluster with the secret
`db-creds`. -/
def retrieverWithSecret (data : GoMap Value) : Retriever Cluster :=
  NewRetriever kube (clusterWithSecret data) (planFor (customResource "Db".toList []) []) []

/-- What an entry of the data of a secret writes, when its body ends normally. -/
def secretWrite (kv : Str × Value) : Option (Str × Bytes) :=
  match kv.2 with
  | .str value =>
    match DecodeString value with
    | .ok b => some ("secret_".toList ++ kv.1, b)
    | .error _ => none
  | _ => none

/-- What an entry of the data of a config map writes, when its body ends normally. -/
def configMapWrite (kv : Str × Value) : Option (Str × Bytes) :=
  match kv.2 with
  | .str value => some ("configMap_".toList ++ kv.1, toBytes value)
  | _ => none


/-- A step from `r` to `r'` that sends no request and touches no object: only the aggregate
data and the volume keys may differ. -/
def Quiet (r r' : Retriever W) : Prop :=
  r'.plan = r.plan ∧ r'.bindingPrefix = r.bindingPrefix ∧ r'.client = r.client
    ∧ r'.world = r.world ∧ r'.requests = r.requests ∧ r'.objects = r.objects

/-- Reading the descriptors of a section fails with `e`: the descriptors before some descriptor
`d` are read normally and reading `d` returns the error `e`. -/
def readFails (place : Str) (descriptors : List Descriptor) (r : Retriever W) (e : GoError) :
    Prop :=
  ∃ pre d post, descriptors = pre ++ d :: post
    ∧ (Retriever.readDescriptors place pre r).1 = .ok ()
    ∧ ((Retriever.readDescriptors place pre r).2.read place d.Path d.XDescriptors).1 = .error e

/-- Whether the loop body of `read` takes the secret action or the volume mount action on a
marker, that is, whether it adds an item to the secret accumulator. -/
def fetchesSecret (xDescriptor : Str) : Bool :=
  HasPrefix xDescriptor secretPrefix
    || (!HasPrefix xDescriptor configMapPrefix && HasPrefix xDescriptor volumeMountSecretPrefix)

/-- Whether the loop body of `read` takes the config map action on a marker. -/
def fetchesConfigMap (xDescriptor : Str) : Bool :=
  !HasPrefix xDescriptor secretPrefix && HasPrefix xDescriptor configMapPrefix

/-- Scenario C: a custom resource whose `spec` has a `host` but no `missingField`, read through
one descriptor for `host` and one for `missingField`, on a cluster that already holds an
aggregate `binding`. -/
def retrieverMissingField : Retriever Cluster :=
  NewRetriever kube
    { secrets := [(("ns".toList, "binding".toList),
        secretToUnstructured "binding".toList "ns".toList [("DB_OLD".toList, [1])])],
      configMaps := [] }
    (planFor (customResource "Db".toList [("host".toList, .str "db.local".toList)])
      [⟨"host".toList, ["binding:env:attribute".toList]⟩,
        ⟨"missingField".toList, ["binding:env:object:secret:password".toList]⟩])
    []

/-- An accumulator of `read` that is empty or holds the one name `n`. -/
def single (n : Str) (m : GoMap (List Str)) : Prop := m = [] ∨ ∃ items, m = [(n, items)]

/-- A custom resource whose `spec` names the secret `db-creds` in two fields, read through one
descriptor per field, each with a secret marker; the secret holds a password and a user. -/
def retrieverTwoReferences : Retriever Cluster :=
  NewRetriever kube
    (clusterWithSecret [("password".toList, .str "czNjcjN0".toList),
      ("user".toList, .str "eA==".toList)])
    (planFor
      (customResource "Db".toList
        [("credentials".toList, .str "db-creds".toList),
          ("adminCredentials".toList, .str "db-creds".toList)])
      [⟨"credentials".toList, ["binding:env:object:secret:password".toList]⟩,
        ⟨"adminCredentials".toList, ["binding:env:object:secret:user".toList]⟩])
    []

/-- The two reading loops of `Retrieve`, spec descriptors first, then status descriptors. -/
def Retriever.readPhase (r : Retriever W) : Outcome Unit × Retriever W :=
  match Retriever.readDescriptors "spec".toList r.plan.CRDDescription.SpecDescriptors r with
  | (.ok (), r) =>
    Retriever.readDescriptors "status".toList r.plan.CRDDescription.StatusDescriptors r
  | failed => failed

/-- A function on retrievers runs alike on the cluster state `w'` when every request it issues
(or finds issued) is answered alike there. -/
def Sim {α : Type} (w' : W) (f : Retriever W → Outcome α × Retriever W) : Prop :=
  ∀ r, (∀ q ∈ (f r).2.requests, agrees r.client r.world w' q) →
    f (r.onWorld w') = ((f r).1, (f r).2.onWorld w')

/-- The aggregate resource of a plan, as the cluster holds it. -/
def aggregateOf (c : Cluster) (plan : Plan) : Option Object :=
  findObject plan.Ns plan.Name c.secrets

/-- The `data` field of the aggregate resource of a plan, as the cluster holds it. -/
def aggregateData (c : Cluster) (plan : Plan) : Option Value :=
  match aggregateOf c plan with
  | some o => lookup "data".toList o
  | none => none

/-- A plan whose custom resource names, as its secret, the aggregate `binding` itself. -/
def planSelfReference : Plan :=
  planFor (customResource "Db".toList [("secretName".toList, .str "binding".toList)])
    [⟨"secretName".toList, ["binding:env:object:secret:password".toList]⟩]

/-- A cluster in which the secret `binding` exists, with a password. -/
def clusterSelfReference : Cluster :=
  { secrets := [(("ns".toList, "binding".toList),
      [("data".toList, .map [("password".toList, .str "eA==".toList)])])],
    configMaps := [] }

/-- The cluster `c1` is the cluster `c` with the secret `u` stored under a namespace and a name,
and nothing else changed. -/
def publishedIn (c c1 : Cluster) (ns name : Str) (u : Object) : Prop :=
  findObject ns name c1.secrets = some u
    ∧ (∀ ns' name', (ns', name') ≠ (ns, name) →
        findObject ns' name' c1.secrets = findObject ns' name' c.secrets)
    ∧ c1.configMaps = c.configMaps

/-- The four actions that the loop body of `read` can take on a marker. -/
inductive Action where
  | secret
  | configMap
  | volumeMount
  | attribute
  deriving DecidableEq, Repr

/-- The marker prefix that selects an action. -/
def Action.marker : Action → Str
  | .secret => secretPrefix
  | .configMap => configMapPrefix
  | .volumeMount => volumeMountSecretPrefix
  | .attribute => attributePrefix

/-- The order in which `read` tests the four prefixes. -/
def codeOrder : List Action := [.secret, .configMap, .volumeMount, .attribute]

/-- The action chosen for a marker when the prefixes are tested in a given order: the first
whose prefix the marker starts with. -/
def firstMatch (order : List Action) (m : Str) : Option Action :=
  order.find? (fun a => HasPrefix m a.marker)

/-- What the loop body of `read` does once an action is chosen (or none). -/
def Retriever.perform (r : Retriever W) (path pathValue xDescriptor : Str) (acc : Pending) :
    Option Action → Pending × Retriever W
  | some .secret =>
    ({ acc with secrets := appendItem pathValue (r.extractSecretItemName xDescriptor) acc.secrets },
      r)
  | some .configMap =>
    ({ acc with
        configMaps := appendItem pathValue (r.extractConfigMapItemName xDescriptor) acc.configMaps },
      r)
  | some .volumeMount =>
    ({ acc with secrets := appendItem pathValue (r.extractSecretItemName xDescriptor) acc.secrets },
      { r with volumeKeys := r.volumeKeys ++ [pathValue] })
  | some .attribute => (acc, r.store path (toBytes pathValue))
  | none => (acc, r)

/-- Every value of a `data` mapping is text. -/
def allText (data : GoMap Value) : Prop := ∀ k v, (k, v) ∈ data → ∃ s, v = .str s

/-- A secret `db-creds` whose `data` holds a number under `port`, and a config map
`db-config` whose `data` holds a nested mapping under `pool`. -/
def clusterWrongShape : Cluster :=
  { secrets := [(("ns".toList, "db-creds".toList),
      [("data".toList, .map [("port".toList, .num 5432)])])],
    configMaps := [(("ns".toList, "db-config".toList),
      [("data".toList, .map [("pool".toList, .map [("size".toList, .str "4".toList)])])])] }

/-- A retriever whose plan reads the secret `db-creds` of `clusterWrongShape`. -/
def retrieverWrongShape : Retriever Cluster :=
  NewRetriever kube clusterWrongShape
    (planFor (customResource "Db".toList [("credentials".toList, .str "db-creds".toList)])
      [⟨"credentials".toList, ["binding:env:object:secret:port".toList]⟩])
    []

/-- The outcome of a reader once the resource is fetched: it depends on the `data` field, and,
when that is a mapping, on the outcome of the loop over its entries. -/
def readerOutcome (u : Object) (loop : GoMap Value → Outcome Unit) : Outcome Unit :=
  match lookup "data".toList u with
  | none => .error (.errorf "could not find 'data' in secret".toList)
  | some (.map data) => loop data
  | some _ => .error (.accessor "data".toList)

/-- Scenario D: the secret `db-creds` exists but has no `data` field. -/
def retrieverNoData : Retriever Cluster :=
  NewRetriever kube
    { secrets := [(("ns".toList, "db-creds".toList), [("kind".toList, .str "Secret".toList)])],
      configMaps := [] }
    (planFor (customResource "Db".toList [("credentials".toList, .str "db-creds".toList)])
      [⟨"credentials".toList, ["binding:env:object:secret:password".toList]⟩])
    []

/-- A get request and the object that the client returns for it in a cluster state. -/
def answered (client : Client W) (w : W) (q : Request) (o : Object) : Prop :=
  ∃ res ns name, q = .get res ns name ∧ client.Get w res ns name = .ok o

/-- A step from `r` to `r'` that only fetches: plan, binding prefix, client and cluster are the
same, and the objects appended are, one for one and in order, the objects returned for the get
requests issued in between. -/
def Fetched (r r' : Retriever W) : Prop :=
  r'.plan = r.plan ∧ r'.bindingPrefix = r.bindingPrefix ∧ r'.client = r.client
    ∧ r'.world = r.world
    ∧ ∃ gets objs, r'.requests = r.requests ++ gets ∧ r'.objects = r.objects ++ objs
        ∧ List.Forall₂ (answered r.client r.world) gets objs

/-! ## Path resolution: `getNestedValue` -/

theorem segments_ne_nil (s : Str) : segments s ≠ [] := by
  cases s with
  | nil => simp [segments]
  | cons c cs =>
    simp only [segments]
    split
    · simp
    · split <;> simp

theorem index_dot_cons (c : Char) (cs : Str) :
    Index (c :: cs) ['.'] =
      if c = '.' then some 0
      else match Index cs ['.'] with
        | some i => some (i + 1)
        | none => none := by
  by_cases h : c = '.'
  · subst h
    simp [Index, List.isPrefixOf]
  · have h' : ('.' == c) = false := by
      simp only [beq_eq_false_iff_ne, ne_eq]
      exact fun e => h e.symm
    simp [Index, List.isPrefixOf, h, h']

/-- The first dot of a key splits its segments into the head and the segments of the rest. -/
theorem index_dot_segments (key : Str) :
    match Index key ['.'] with
    | none => segments key = [key]
    | some m => segments key = key.take m :: segments (key.drop (m + 1)) ∧ m < key.length := by
  induction key with
  | nil => simp [Index, segments]
  | cons c cs ih =>
    rw [index_dot_cons]
    by_cases h : c = '.'
    · simp [h, segments]
    · simp only [h, if_false]
      cases hi : Index cs ['.'] with
      | none =>
        rw [hi] at ih
        simp only at ih ⊢
        simp [segments, h, ih]
      | some m =>
        rw [hi] at ih
        simp only at ih ⊢
        obtain ⟨hs, hm⟩ := ih
        simp [segments, h, hs, hm]

theorem join_segments (s : Str) : Join (segments s) ['.'] = s := by
  induction s with
  | nil => simp [segments, Join]
  | cons c cs ih =>
    simp only [segments]
    by_cases h : c = '.'
    · simp only [h, if_true]
      cases hs : segments cs with
      | nil => exact absurd hs (segments_ne_nil cs)
      | cons a as =>
        rw [hs] at ih
        simp [Join, ih]
    · simp only [h, if_false]
      cases hs : segments cs with
      | nil => exact absurd hs (segments_ne_nil cs)
      | cons a as =>
        rw [hs] at ih
        simp only
        cases as with
        | nil => simp [Join] at ih ⊢; exact ih
        | cons b bs => simp [Join] at ih ⊢; exact ih

theorem getNestedValueFuel_enough (fuel : Nat) :
    ∀ (key : Str) (t : Value), key.length < fuel →
      getNestedValueFuel fuel key t = resolved (follow (segments key) t) := by
  induction fuel with
  | zero => intro key t h; omega
  | succ n ih =>
    intro key t hlen
    have hseg := index_dot_segments key
    have hne := segments_ne_nil key
    cases hi : Index key ['.'] with
    | none =>
      rw [hi] at hseg
      simp only at hseg
      have hc : Contains key ".".toList = false := by
        show (Index key ['.']).isSome = false
        rw [hi]; rfl
      cases t with
      | map m =>
        simp only [getNestedValueFuel, hc, hseg, follow]
        cases lookup key m <;> simp [resolved, follow]
      | _ =>
        have hc2 : Contains key ['.'] = false := hc
        simp [getNestedValueFuel, hc2, hseg, follow, resolved]
    | some m =>
      rw [hi] at hseg
      simp only at hseg
      obtain ⟨hs, hm⟩ := hseg
      have hc : Contains key ".".toList = true := by
        show (Index key ['.']).isSome = true
        rw [hi]; rfl
      have hsplit : SplitN2 key ".".toList = [key.take m, key.drop (m + 1)] := by
        show (match Index key ['.'] with
          | none => [key]
          | some m => [key.take m, key.drop (m + [ '.' ].length)]) = _
        rw [hi]; rfl
      have hne2 := segments_ne_nil (key.drop (m + 1))
      cases t with
      | map mp =>
        simp only [getNestedValueFuel, hc, hsplit, hs, follow]
        cases hl : lookup (key.take m) mp with
        | none =>
          cases hr : segments (key.drop (m + 1)) with
          | nil => exact absurd hr hne2
          | cons a as =>
            simp only [resolved]
            rw [← hr, join_segments]
            simp
        | some v =>
          have hlen2 : (key.drop (m + 1)).length < n := by
            simp only [List.length_drop]
            omega
          cases v with
          | map mv =>
            simp only [Bool.not_true, Bool.false_eq_true, if_false]
            exact ih _ _ hlen2
          | _ =>
            cases hr : segments (key.drop (m + 1)) with
            | nil => exact absurd hr hne2
            | cons a as => simp [follow, resolved]
      | _ =>
        have hc2 : Contains key ['.'] = true := hc
        have hsplit2 : SplitN2 key ['.'] = [key.take m, key.drop (m + 1)] := hsplit
        simp [getNestedValueFuel, hc2, hsplit2, hs, follow, resolved]

theorem getNestedValue_eq_resolved (key : Str) (t : Value) :
    getNestedValue key t = resolved (follow (segments key) t) :=
  getNestedValueFuel_enough (key.length + 1) key t (Nat.lt_succ_self _)

/-- The error of a dotted key whose head is missing prints the whole two-element slice made by
`strings.SplitN`, head and rest, not the head alone. -/
theorem getNestedValue_missing_head_message :
    getNestedValue "db.host".toList (.map [("cache".toList, .map [])])
      = .error (.errorf "Can't find '[db host]' section in CR".toList) := by
  decide

/-- C1, as stated, fails: for the path `db.host` and the tree `{db: "x"}` the head segment is
bound to a string, and `getNestedValue` neither returns the rendering of a leaf nor fails with
an error: it panics on the type assertion. -/
theorem getNestedValue_neither_leaf_nor_error :
    ¬ ((∃ v, follow (segments "db.host".toList) (.map [("db".toList, .str "x".toList)]) = .leaf v
          ∧ getNestedValue "db.host".toList (.map [("db".toList, .str "x".toList)])
            = .ok (render v))
        ∨ (∃ e, getNestedValue "db.host".toList (.map [("db".toList, .str "x".toList)])
            = .error e)) := by
  have h : getNestedValue "db.host".toList (.map [("db".toList, .str "x".toList)])
      = .panic .typeAssertion := by decide
  rw [h]
  rintro (⟨v, _, hv⟩ | ⟨e, he⟩)
  · cases hv
  · cases he

/-- C1 (amended): for every dotted path and every tree, when every value that a segment is
looked up in is a mapping, `getNestedValue` returns the rendering of the leaf reached by
following each dot-separated segment from the root, or, at the first segment that its mapping
does not hold, fails with an error, which names exactly that segment when it is the last one
of the path; when a segment has to be looked up in a value that is not a mapping, the call
panics on the type assertion. -/
theorem getNestedValue_follows_segments (key : Str) (t : Value) :
    match follow (segments key) t with
    | .leaf v => getNestedValue key t = .ok (render v)
    | .missing seg rest =>
      ∃ e, getNestedValue key t = .error e
        ∧ (rest = [] → e = .errorf ("Can't find key '".toList ++ seg ++ "'".toList))
    | .notMapping => getNestedValue key t = .panic .typeAssertion := by
  rw [getNestedValue_eq_resolved]
  cases follow (segments key) t with
  | leaf v => rfl
  | missing seg rest =>
    cases rest with
    | nil => exact ⟨_, rfl, fun _ => rfl⟩
    | cons a as => exact ⟨_, rfl, fun h => absurd h (List.cons_ne_nil _ _)⟩
  | notMapping => rfl

/-- Witness for C1: in `{host: "db.local", db: {port: 5432}}` the path `db.port` reaches the
leaf `5432`. -/
theorem getNestedValue_follows_segments_witness :
    getNestedValue "db.port".toList
        (.map [("host".toList, .str "db.local".toList),
          ("db".toList, .map [("port".toList, .num 5432)])])
      = .ok "5432".toList :=
  getNestedValue_follows_segments "db.port".toList
    (.map [("host".toList, .str "db.local".toList),
      ("db".toList, .map [("port".toList, .num 5432)])])

/-- C10, as stated, fails: with the head segment `a` bound to the number 5, and with a section
that is a sequence, `getNestedValue` panics instead of returning an error. -/
theorem getNestedValue_panics_on_non_mapping :
    getNestedValue "a.b".toList (.map [("a".toList, .num 5)]) = .panic .typeAssertion
      ∧ getNestedValue "a".toList (.list []) = .panic .typeAssertion
      ∧ ¬ ∃ e, getNestedValue "a.b".toList (.map [("a".toList, .num 5)]) = .error e := by
  refine ⟨by decide, by decide, ?_⟩
  have h : getNestedValue "a.b".toList (.map [("a".toList, .num 5)])
      = .panic .typeAssertion := by decide
  rw [h]
  rintro ⟨e, he⟩
  cases he

/-- C10 (amended): `getNestedValue` panics on its unchecked type assertion whenever the section
value is not a mapping, and whenever the path has more than one segment and its head is bound,
in the current mapping, to a value that is not a mapping; on every tree in which no segment has
to be looked up in a non-mapping it is total and returns either a value or an error. -/
theorem getNestedValue_total_on_mappings (key : Str) (t : Value) :
    (t.isMap = false → getNestedValue key t = .panic .typeAssertion)
      ∧ (∀ head rest m v, segments key = head :: rest → rest ≠ [] → t = .map m →
          lookup head m = some v → v.isMap = false →
          getNestedValue key t = .panic .typeAssertion)
      ∧ (follow (segments key) t ≠ .notMapping →
          (∃ s, getNestedValue key t = .ok s) ∨ (∃ e, getNestedValue key t = .error e)) := by
  rw [getNestedValue_eq_resolved]
  refine ⟨?_, ?_, ?_⟩
  · intro ht
    cases hs : segments key with
    | nil => exact absurd hs (segments_ne_nil key)
    | cons a as => cases t <;> simp_all [follow, resolved, Value.isMap]
  · intro head rest m v hs hrest ht hl hv
    subst ht
    rw [hs]
    cases rest with
    | nil => exact absurd rfl hrest
    | cons a as =>
      simp only [follow, hl]
      cases v <;> simp_all [follow, resolved, Value.isMap]
  · intro h
    cases hf : follow (segments key) t with
    | leaf v => exact Or.inl ⟨_, rfl⟩
    | missing seg rest =>
      cases rest with
      | nil => exact Or.inr ⟨_, rfl⟩
      | cons a as => exact Or.inr ⟨_, rfl⟩
    | notMapping => exact absurd hf h

/-- Witness for C10: the tree `{spec: {host: "db.local"}}` has only mappings above `host`, so
`spec.host` resolves to a value. -/
theorem getNestedValue_total_on_mappings_witness :
    follow (segments "spec.host".toList)
        (.map [("spec".toList, .map [("host".toList, .str "db.local".toList)])]) ≠ .notMapping
      ∧ ((∃ s, getNestedValue "spec.host".toList
            (.map [("spec".toList, .map [("host".toList, .str "db.local".toList)])]) = .ok s)
        ∨ (∃ e, getNestedValue "spec.host".toList
            (.map [("spec".toList, .map [("host".toList, .str "db.local".toList)])]) = .error e)) :=
  ⟨by decide,
    (getNestedValue_total_on_mappings "spec.host".toList
      (.map [("spec".toList, .map [("host".toList, .str "db.local".toList)])])).2.2 (by decide)⟩

/-! ## Key naming: `store` -/

theorem replaceFrom_single (c d : Char) (s : Str) :
    replaceFrom [c] [d] 0 s = s.map (fun x => if x = c then d else x) := by
  induction s with
  | nil => rfl
  | cons x xs ih =>
    by_cases h : x = c
    · subst h
      simp [replaceFrom, List.isPrefixOf, ih]
    · have h' : (c == x) = false := by
        simp only [beq_eq_false_iff_ne, ne_eq]
        exact fun e => h e.symm
      simp [replaceFrom, List.isPrefixOf, h, h', ih]

theorem ReplaceAll_single (c d : Char) (s : Str) :
    ReplaceAll s [c] [d] = s.map (fun x => if x = c then d else x) := by
  simp [ReplaceAll, replaceFrom_single]

theorem ReplaceAll_colon_dot (s : Str) :
    ReplaceAll (ReplaceAll s ":".toList "_".toList) ".".toList "_".toList = underscored s := by
  show ReplaceAll (ReplaceAll s [':'] ['_']) ['.'] ['_'] = underscored s
  rw [ReplaceAll_single, ReplaceAll_single, underscored, List.map_map]
  apply List.map_congr_left
  intro x _
  by_cases h1 : x = ':'
  · subst h1; decide
  · by_cases h2 : x = '.'
    · subst h2; decide
    · simp [h1, h2]

theorem storeKey_eq_aggregateKey (r : Retriever W) (key : Str) :
    r.storeKey key = aggregateKey r.bindingPrefix (GetKind r.plan.CR) key := by
  unfold Retriever.storeKey aggregateKey
  simp only [ReplaceAll_colon_dot]
  cases r.bindingPrefix with
  | nil => rfl
  | cons b bs => simp

theorem lookup_assign_self {α : Type} (k : Str) (v : α) (m : GoMap α) :
    lookup k (assign k v m) = some v := by
  induction m with
  | nil => simp [assign, lookup]
  | cons p rest ih =>
    obtain ⟨k', v'⟩ := p
    by_cases h : k' = k
    · simp [assign, lookup, h]
    · simp [assign, lookup, h, ih]

theorem lookup_assign_other {α : Type} (k k' : Str) (v : α) (m : GoMap α) (h : k' ≠ k) :
    lookup k' (assign k v m) = lookup k' m := by
  induction m with
  | nil => simp [assign, lookup, Ne.symm h]
  | cons p rest ih =>
    obtain ⟨k₀, v₀⟩ := p
    by_cases h0 : k₀ = k
    · subst h0
      simp [assign, lookup, Ne.symm h]
    · by_cases h1 : k₀ = k'
      · subst h1
        simp [assign, lookup, h0]
      · simp [assign, lookup, h0, h1, ih]

/-- C2: for every raw key, CR kind and binding prefix, `store` writes the value under exactly
the aggregate key `upper(K_k')` when the binding prefix is empty and `upper(B_K_k')` otherwise,
where `k'` is the raw key with every `:` and every `.` replaced by `_`: that key then holds the
value, every other key holds what it held, and nothing else of the retriever changes. -/
theorem store_writes_aggregateKey (r : Retriever W) (k : Str) (v : Bytes) :
    lookup (aggregateKey r.bindingPrefix (GetKind r.plan.CR) k) (r.store k v).data = some v
      ∧ (∀ other, other ≠ aggregateKey r.bindingPrefix (GetKind r.plan.CR) k →
          lookup other (r.store k v).data = lookup other r.data)
      ∧ r.store k v
          = { r with data := assign (aggregateKey r.bindingPrefix (GetKind r.plan.CR) k) v r.data }
      ∧ aggregateKey [] (GetKind r.plan.CR) k
          = ToUpper (GetKind r.plan.CR ++ "_".toList ++ underscored k)
      ∧ (r.bindingPrefix ≠ [] →
          aggregateKey r.bindingPrefix (GetKind r.plan.CR) k
            = ToUpper (r.bindingPrefix ++ "_".toList ++ GetKind r.plan.CR ++ "_".toList
                ++ underscored k)) := by
  refine ⟨?_, ?_, ?_, ?_, ?_⟩
  · simp only [Retriever.store, storeKey_eq_aggregateKey]
    exact lookup_assign_self _ _ _
  · intro other h
    simp only [Retriever.store, storeKey_eq_aggregateKey]
    exact lookup_assign_other _ _ _ _ h
  · simp only [Retriever.store, storeKey_eq_aggregateKey]
  · rfl
  · intro h
    simp only [aggregateKey, h, if_false]
    rfl

/-- Witness for C2 (scenario B): a retriever for kind `Database` with binding prefix `myapp`
stores the raw key `db.host:port` under `MYAPP_DATABASE_DB_HOST_PORT`. -/
theorem store_writes_aggregateKey_witness :
    (retrieverOfKind "myapp".toList "Database".toList).bindingPrefix ≠ []
      ∧ aggregateKey "myapp".toList "Database".toList "db.host:port".toList
          = "MYAPP_DATABASE_DB_HOST_PORT".toList
      ∧ lookup "MYAPP_DATABASE_DB_HOST_PORT".toList
          ((retrieverOfKind "myapp".toList "Database".toList).store "db.host:port".toList
            [1, 2]).data = some [1, 2] :=
  ⟨by decide,
    ((store_writes_aggregateKey (retrieverOfKind "myapp".toList "Database".toList)
      "db.host:port".toList [1, 2]).2.2.2.2 (by decide)).trans (by decide),
    (store_writes_aggregateKey (retrieverOfKind "myapp".toList "Database".toList)
      "db.host:port".toList [1, 2]).1⟩

/-- C3, as stated, fails: equal aggregate keys come from tuples that differ in more than letter
case. The raw keys `host.name` and `host_name` of one source, prefix and kind collide; so do
kind `a_b` without binding prefix and kind `b` with binding prefix `a`; and so do the secret
item `x` and the attribute path `secret_x`. -/
theorem storeKey_collisions :
    ((retrieverOfKind [] "Db".toList).storeKey
          (SourceKind.subPrefix .attribute ++ "host.name".toList)
        = (retrieverOfKind [] "Db".toList).storeKey
          (SourceKind.subPrefix .attribute ++ "host_name".toList)
      ∧ ToUpper "host.name".toList ≠ ToUpper "host_name".toList)
    ∧ ((retrieverOfKind [] "a_b".toList).storeKey
          (SourceKind.subPrefix .attribute ++ "c".toList)
        = (retrieverOfKind "a".toList "b".toList).storeKey
          (SourceKind.subPrefix .attribute ++ "c".toList)
      ∧ ToUpper "a_b".toList ≠ ToUpper "b".toList
      ∧ ToUpper ([] : Str) ≠ ToUpper "a".toList)
    ∧ ((retrieverOfKind [] "Db".toList).storeKey (SourceKind.subPrefix .secret ++ "x".toList)
        = (retrieverOfKind [] "Db".toList).storeKey
          (SourceKind.subPrefix .attribute ++ "secret_x".toList)
      ∧ SourceKind.secret ≠ SourceKind.attribute
      ∧ ToUpper "x".toList ≠ ToUpper "secret_x".toList) := by
  decide

/-- C3 (amended): key naming is injective up to case and up to the replacement of `:` and `.`
by `_`, among tuples that agree on source kind, binding prefix and CR kind: if `store` computes
the same aggregate key for two raw keys of one source kind in retrievers with the same binding
prefix and CR kind, then the two raw keys, with every `:` and `.` replaced by `_`, are equal
ignoring letter case. -/
theorem storeKey_injective_up_to_case (r r' : Retriever W) (src : SourceKind) (k k' : Str)
    (hbp : r.bindingPrefix = r'.bindingPrefix)
    (hkind : GetKind r.plan.CR = GetKind r'.plan.CR)
    (hkey : r.storeKey (src.subPrefix ++ k) = r'.storeKey (src.subPrefix ++ k')) :
    ToUpper (underscored k) = ToUpper (underscored k') := by
  rw [storeKey_eq_aggregateKey, storeKey_eq_aggregateKey, ← hbp, ← hkind] at hkey
  unfold aggregateKey at hkey
  have hu : ∀ a b : Str, underscored (a ++ b) = underscored a ++ underscored b := by
    intro a b; simp [underscored]
  have hup : ∀ a b : Str, ToUpper (a ++ b) = ToUpper a ++ ToUpper b := by
    intro a b; simp [ToUpper]
  split at hkey
  · simp only [hu, hup, List.append_assoc] at hkey
    exact List.append_cancel_left (List.append_cancel_left (List.append_cancel_left hkey))
  · simp only [hu, hup, List.append_assoc] at hkey
    exact List.append_cancel_left (List.append_cancel_left (List.append_cancel_left
      (List.append_cancel_left (List.append_cancel_left hkey))))

/-- Witness for C3: for kind `Db` and prefix `app`, the secret items `user.name` and
`USER:NAME` get the same aggregate key, and they are equal up to case once underscored. -/
theorem storeKey_injective_up_to_case_witness :
    (retrieverOfKind "app".toList "Db".toList).storeKey
        (SourceKind.subPrefix .secret ++ "user.name".toList)
      = (retrieverOfKind "app".toList "Db".toList).storeKey
        (SourceKind.subPrefix .secret ++ "USER:NAME".toList)
    ∧ ToUpper (underscored "user.name".toList) = ToUpper (underscored "USER:NAME".toList) :=
  ⟨by decide,
    storeKey_injective_up_to_case (retrieverOfKind "app".toList "Db".toList)
      (retrieverOfKind "app".toList "Db".toList) .secret "user.name".toList "USER:NAME".toList
      rfl rfl (by decide)⟩

/-! ## Classification of x-descriptors: the loop body of `read` -/

theorem lookup_appendItem_self (name item : Str) (m : GoMap (List Str)) :
    lookup name (appendItem name item m) = some ((lookup name m).getD [] ++ [item]) :=
  lookup_assign_self _ _ _

theorem lookup_appendItem_other (name other item : Str) (m : GoMap (List Str))
    (h : other ≠ name) : lookup other (appendItem name item m) = lookup other m :=
  lookup_assign_other _ _ _ _ h

/-- C7: for every marker `m` and resolved path value `n`, the loop body of `read` takes
exactly one action, chosen by the first matching prefix. Secret prefix: one item is appended
to the secret accumulator under `n`, nothing else changes. Else config map prefix: one item is
appended to the config map accumulator under `n`, nothing else changes. Else volume mount
prefix: one item is appended to the secret accumulator under `n` and `n` is appended to the
volume keys. Else attribute prefix: `n` is stored in the aggregate under the key derived from
the literal descriptor path. Otherwise neither accumulator nor the retriever changes. -/
theorem classify_first_match (r : Retriever W) (path n m : Str) (acc : Pending) :
    (HasPrefix m secretPrefix = true →
        lookup n (r.classify path n m acc).1.secrets
            = some ((lookup n acc.secrets).getD [] ++ [r.extractSecretItemName m])
          ∧ (∀ n', n' ≠ n →
              lookup n' (r.classify path n m acc).1.secrets = lookup n' acc.secrets)
          ∧ (r.classify path n m acc).1.configMaps = acc.configMaps
          ∧ (r.classify path n m acc).2 = r)
    ∧ (HasPrefix m secretPrefix = false → HasPrefix m configMapPrefix = true →
        lookup n (r.classify path n m acc).1.configMaps
            = some ((lookup n acc.configMaps).getD [] ++ [r.extractConfigMapItemName m])
          ∧ (∀ n', n' ≠ n →
              lookup n' (r.classify path n m acc).1.configMaps = lookup n' acc.configMaps)
          ∧ (r.classify path n m acc).1.secrets = acc.secrets
          ∧ (r.classify path n m acc).2 = r)
    ∧ (HasPrefix m secretPrefix = false → HasPrefix m configMapPrefix = false →
        HasPrefix m volumeMountSecretPrefix = true →
        lookup n (r.classify path n m acc).1.secrets
            = some ((lookup n acc.secrets).getD [] ++ [r.extractSecretItemName m])
          ∧ (∀ n', n' ≠ n →
              lookup n' (r.classify path n m acc).1.secrets = lookup n' acc.secrets)
          ∧ (r.classify path n m acc).1.configMaps = acc.configMaps
          ∧ (r.classify path n m acc).2 = { r with volumeKeys := r.volumeKeys ++ [n] })
    ∧ (HasPrefix m secretPrefix = false → HasPrefix m configMapPrefix = false →
        HasPrefix m volumeMountSecretPrefix = false → HasPrefix m attributePrefix = true →
        (r.classify path n m acc).1 = acc
          ∧ (r.classify path n m acc).2 = r.store path (toBytes n)
          ∧ lookup (aggregateKey r.bindingPrefix (GetKind r.plan.CR) path)
              (r.classify path n m acc).2.data = some (toBytes n)
          ∧ (r.classify path n m acc).2.volumeKeys = r.volumeKeys)
    ∧ (HasPrefix m secretPrefix = false → HasPrefix m configMapPrefix = false →
        HasPrefix m volumeMountSecretPrefix = false → HasPrefix m attributePrefix = false →
        r.classify path n m acc = (acc, r)) := by
  refine ⟨?_, ?_, ?_, ?_, ?_⟩
  · intro h1
    have hc : r.classify path n m acc
        = ({ acc with
              secrets := appendItem n (r.extractSecretItemName m) acc.secrets }, r) := by
      simp [Retriever.classify, h1]
    rw [hc]
    exact ⟨lookup_appendItem_self _ _ _, fun n' hn => lookup_appendItem_other _ _ _ _ hn,
      rfl, rfl⟩
  · intro h1 h2
    have hc : r.classify path n m acc
        = ({ acc with
              configMaps := appendItem n (r.extractConfigMapItemName m) acc.configMaps },
            r) := by
      simp [Retriever.classify, h1, h2]
    rw [hc]
    exact ⟨lookup_appendItem_self _ _ _, fun n' hn => lookup_appendItem_other _ _ _ _ hn,
      rfl, rfl⟩
  · intro h1 h2 h3
    have hc : r.classify path n m acc
        = ({ acc with
              secrets := appendItem n (r.extractSecretItemName m) acc.secrets },
            { r with volumeKeys := r.volumeKeys ++ [n] }) := by
      simp [Retriever.classify, h1, h2, h3]
    rw [hc]
    exact ⟨lookup_appendItem_self _ _ _, fun n' hn => lookup_appendItem_other _ _ _ _ hn,
      rfl, rfl⟩
  · intro h1 h2 h3 h4
    have hc : r.classify path n m acc = (acc, r.store path (toBytes n)) := by
      simp [Retriever.classify, h1, h2, h3, h4]
    rw [hc]
    refine ⟨rfl, rfl, ?_, rfl⟩
    show lookup _ (assign (r.storeKey path) (toBytes n) r.data) = _
    rw [storeKey_eq_aggregateKey]
    exact lookup_assign_self _ _ _
  · intro h1 h2 h3 h4
    simp [Retriever.classify, h1, h2, h3, h4]

/-- Witness for C7: the marker `binding:volumemount:secret` on a path that resolves to
`db-creds` adds `db-creds` to the volume keys. -/
theorem classify_first_match_witness :
    HasPrefix "binding:volumemount:secret".toList secretPrefix = false
      ∧ HasPrefix "binding:volumemount:secret".toList configMapPrefix = false
      ∧ HasPrefix "binding:volumemount:secret".toList volumeMountSecretPrefix = true
      ∧ ((retrieverOfKind [] "Db".toList).classify "secretName".toList "db-creds".toList
          "binding:volumemount:secret".toList ⟨[], []⟩).2
        = { retrieverOfKind [] "Db".toList with volumeKeys := ["db-creds".toList] } :=
  ⟨by decide, by decide, by decide,
    ((classify_first_match (retrieverOfKind [] "Db".toList) "secretName".toList
      "db-creds".toList "binding:volumemount:secret".toList ⟨[], []⟩).2.2.1
        (by decide) (by decide) (by decide)).2.2.2⟩

/-! ## Publishing: `saveDataOnSecret` -/

/-- C9: `saveDataOnSecret` first attempts create. If create succeeded or failed with
already-exists, it attempts update, and it returns success, appending the aggregate to the
touched objects, exactly when the update succeeds; a failed update is returned as the error and
nothing is appended. On any other create failure it returns that error without attempting
update and without appending to the touched objects. -/
theorem saveDataOnSecret_create_then_update (r : Retriever W) :
    (∀ e, (r.client.Create r.world .secrets r.plan.Ns
            (secretToUnstructured r.plan.Name r.plan.Ns r.data)).1 = .error e →
        IsAlreadyExists e = false →
        r.saveDataOnSecret.1 = .error e
          ∧ r.saveDataOnSecret.2.requests = r.requests
              ++ [.create .secrets r.plan.Ns (secretToUnstructured r.plan.Name r.plan.Ns r.data)]
          ∧ r.saveDataOnSecret.2.objects = r.objects)
    ∧ (((∃ o, (r.client.Create r.world .secrets r.plan.Ns
              (secretToUnstructured r.plan.Name r.plan.Ns r.data)).1 = .ok o)
          ∨ (r.client.Create r.world .secrets r.plan.Ns
              (secretToUnstructured r.plan.Name r.plan.Ns r.data)).1
              = .error (.status .alreadyExists)) →
        r.saveDataOnSecret.2.requests = r.requests
            ++ [.create .secrets r.plan.Ns (secretToUnstructured r.plan.Name r.plan.Ns r.data),
                .update .secrets r.plan.Ns (secretToUnstructured r.plan.Name r.plan.Ns r.data)]
          ∧ (∀ o, (r.client.Update
                (r.client.Create r.world .secrets r.plan.Ns
                  (secretToUnstructured r.plan.Name r.plan.Ns r.data)).2
                .secrets r.plan.Ns (secretToUnstructured r.plan.Name r.plan.Ns r.data)).1 = .ok o →
              r.saveDataOnSecret.1 = .ok ()
                ∧ r.saveDataOnSecret.2.objects = r.objects
                    ++ [secretToUnstructured r.plan.Name r.plan.Ns r.data])
          ∧ (∀ e, (r.client.Update
                (r.client.Create r.world .secrets r.plan.Ns
                  (secretToUnstructured r.plan.Name r.plan.Ns r.data)).2
                .secrets r.plan.Ns (secretToUnstructured r.plan.Name r.plan.Ns r.data)).1
                = .error e →
              r.saveDataOnSecret.1 = .error e
                ∧ r.saveDataOnSecret.2.objects = r.objects)) := by
  refine ⟨?_, ?_⟩
  · intro e hc he
    simp [Retriever.saveDataOnSecret, Retriever.record, hc, he]
  · intro h
    have hfatal : (match (r.client.Create r.world .secrets r.plan.Ns
            (secretToUnstructured r.plan.Name r.plan.Ns r.data)).1 with
        | .error e => if !IsAlreadyExists e then some e else none
        | .ok _ => none) = none := by
      rcases h with ⟨o, ho⟩ | ha
      · rw [ho]
      · rw [ha]; rfl
    refine ⟨?_, ?_, ?_⟩
    · simp only [Retriever.saveDataOnSecret, Retriever.record, hfatal]
      split <;> simp
    · intro o ho
      simp only [Retriever.saveDataOnSecret, Retriever.record, hfatal, ho]
      simp
    · intro e he
      simp only [Retriever.saveDataOnSecret, Retriever.record, hfatal, he]
      simp

/-- Witness for C9: on an empty cluster the create succeeds, the update follows and succeeds,
and the aggregate is the one touched object. -/
theorem saveDataOnSecret_create_then_update_witness :
    (∃ o, (kube.Create (retrieverOfKind [] "Db".toList).world .secrets "ns".toList
        (secretToUnstructured "binding".toList "ns".toList [])).1 = .ok o)
      ∧ (retrieverOfKind [] "Db".toList).saveDataOnSecret.1 = .ok ()
      ∧ (retrieverOfKind [] "Db".toList).saveDataOnSecret.2.objects
          = [secretToUnstructured "binding".toList "ns".toList []] :=
  ⟨⟨_, rfl⟩,
    ((saveDataOnSecret_create_then_update (retrieverOfKind [] "Db".toList)).2
      (Or.inl ⟨_, rfl⟩)).2.1 _ rfl⟩

/-! ## Frames of the loops -/

theorem onlyData_refl (r : Retriever W) : OnlyData r r :=
  ⟨rfl, rfl, rfl, rfl, rfl, rfl, rfl⟩

theorem onlyData_trans {a b c : Retriever W} (h1 : OnlyData a b) (h2 : OnlyData b c) :
    OnlyData a c := by
  obtain ⟨p1, p2, p3, p4, p5, p6, p7⟩ := h1
  obtain ⟨q1, q2, q3, q4, q5, q6, q7⟩ := h2
  exact ⟨q1.trans p1, q2.trans p2, q3.trans p3, q4.trans p4, q5.trans p5, q6.trans p6,
    q7.trans p7⟩

theorem readOnly_refl (r : Retriever W) : ReadOnly r r :=
  ⟨rfl, rfl, rfl, rfl, [], by simp, by simp⟩

theorem readOnly_trans {a b c : Retriever W} (h1 : ReadOnly a b) (h2 : ReadOnly b c) :
    ReadOnly a c := by
  obtain ⟨p1, p2, p3, p4, l1, p5, p6⟩ := h1
  obtain ⟨q1, q2, q3, q4, l2, q5, q6⟩ := h2
  refine ⟨q1.trans p1, q2.trans p2, q3.trans p3, q4.trans p4, l1 ++ l2, ?_, ?_⟩
  · rw [q5, p5, List.append_assoc]
  · intro q hq
    rcases List.mem_append.mp hq with h | h
    · exact p6 q h
    · exact q6 q h

theorem onlyData_readOnly {a b : Retriever W} (h : OnlyData a b) : ReadOnly a b := by
  obtain ⟨p1, p2, p3, p4, p5, _, _⟩ := h
  exact ⟨p1, p2, p3, p4, [], by simp [p5], by simp⟩

theorem forEach_rel {α : Type} (R : Retriever W → Retriever W → Prop)
    (hrefl : ∀ r, R r r) (htrans : ∀ a b c, R a b → R b c → R a c)
    (body : α → Retriever W → Outcome Unit × Retriever W)
    (hbody : ∀ x r, R r (body x r).2) :
    ∀ (xs : List α) (r : Retriever W), R r (forEach body xs r).2 := by
  intro xs
  induction xs with
  | nil => intro r; exact hrefl r
  | cons x xs ih =>
    intro r
    have hb := hbody x r
    rcases hx : body x r with ⟨o, r1⟩
    rw [hx] at hb
    cases o with
    | ok u =>
      cases u
      simp only [forEach, hx]
      exact htrans _ _ _ hb (ih r1)
    | error e =>
      simp only [forEach, hx]
      exact hb
    | panic p =>
      simp only [forEach, hx]
      exact hb

theorem store_onlyData (r : Retriever W) (k : Str) (v : Bytes) : OnlyData r (r.store k v) :=
  ⟨rfl, rfl, rfl, rfl, rfl, rfl, rfl⟩

theorem storeKey_congr {r r' : Retriever W} (hp : r'.plan = r.plan)
    (hb : r'.bindingPrefix = r.bindingPrefix) (k : Str) : r'.storeKey k = r.storeKey k := by
  simp only [Retriever.storeKey, hp, hb]

theorem secretEntry_onlyData (kv : Str × Value) (r : Retriever W) :
    OnlyData r (Retriever.secretEntry kv r).2 := by
  unfold Retriever.secretEntry
  split
  · split
    · exact onlyData_refl r
    · exact store_onlyData _ _ _
  · exact onlyData_refl r

theorem configMapEntry_onlyData (kv : Str × Value) (r : Retriever W) :
    OnlyData r (Retriever.configMapEntry kv r).2 := by
  unfold Retriever.configMapEntry
  split
  · exact store_onlyData _ _ _
  · exact onlyData_refl r

theorem rangeSecretData_onlyData (data : GoMap Value) (r : Retriever W) :
    OnlyData r (Retriever.rangeSecretData data r).2 :=
  forEach_rel OnlyData onlyData_refl (fun _ _ _ => onlyData_trans) _ secretEntry_onlyData data r

theorem rangeConfigMapData_onlyData (data : GoMap Value) (r : Retriever W) :
    OnlyData r (Retriever.rangeConfigMapData data r).2 :=
  forEach_rel OnlyData onlyData_refl (fun _ _ _ => onlyData_trans) _ configMapEntry_onlyData
    data r

/-! ## Reading a secret or a config map -/

theorem lookup_store_self (r : Retriever W) (k : Str) (b : Bytes) :
    lookup (r.storeKey k) (r.store k b).data = some b :=
  lookup_assign_self _ _ _

theorem lookup_store_other (r : Retriever W) (k : Str) (b : Bytes) (K : Str)
    (h : K ≠ r.storeKey k) : lookup K (r.store k b).data = lookup K r.data :=
  lookup_assign_other _ _ _ _ h

theorem forEach_ok_cons {α : Type} (body : α → Retriever W → Outcome Unit × Retriever W)
    (x : α) (xs : List α) (r r' : Retriever W)
    (h : forEach body (x :: xs) r = (.ok (), r')) :
    (body x r).1 = .ok () ∧ forEach body xs (body x r).2 = (.ok (), r') := by
  rcases hx : body x r with ⟨o, r1⟩
  cases o with
  | ok u =>
    cases u
    simp only [forEach, hx] at h
    exact ⟨rfl, h⟩
  | error e =>
    simp only [forEach, hx] at h
    cases h
  | panic p =>
    simp only [forEach, hx] at h
    cases h

/-- A value written by a storing loop stays in the aggregate when every later entry that
writes to the same aggregate key writes the same value. -/
theorem forEach_store_keeps {α : Type} (body : α → Retriever W → Outcome Unit × Retriever W)
    (write : α → Option (Str × Bytes))
    (hw : ∀ x r, (body x r).1 = .ok () →
      ∃ k b, write x = some (k, b) ∧ (body x r).2 = r.store k b)
    (K : Str) (b : Bytes) :
    ∀ (xs : List α) (r r' : Retriever W),
      (∀ x ∈ xs, ∀ k b', write x = some (k, b') → r.storeKey k = K → b' = b) →
      lookup K r.data = some b →
      forEach body xs r = (.ok (), r') → lookup K r'.data = some b := by
  intro xs
  induction xs with
  | nil =>
    intro r r' _ hl h
    simp only [forEach] at h
    cases h
    exact hl
  | cons x xs ih =>
    intro r r' hsame hl h
    obtain ⟨hok, hrest⟩ := forEach_ok_cons body x xs r r' h
    obtain ⟨k, b', hwx, hst⟩ := hw x r hok
    rw [hst] at hrest
    refine ih (r.store k b') r' ?_ ?_ hrest
    · intro y hy k2 b2 hwy hk
      exact hsame y (List.mem_cons_of_mem _ hy) k2 b2 hwy hk
    · by_cases hk : K = r.storeKey k
      · have hb : b' = b := hsame x (List.mem_cons_self _ _) k b' hwx hk.symm
        rw [hk, hb]
        exact lookup_store_self r k b
      · rw [lookup_store_other r k b' K hk]
        exact hl

/-- After a storing loop that ended normally, the aggregate holds the value of an entry under
the key derived for it when every entry that writes to that key writes the same value. -/
theorem forEach_store_holds {α : Type} (body : α → Retriever W → Outcome Unit × Retriever W)
    (write : α → Option (Str × Bytes))
    (hw : ∀ x r, (body x r).1 = .ok () →
      ∃ k b, write x = some (k, b) ∧ (body x r).2 = r.store k b)
    (k : Str) (b : Bytes) :
    ∀ (xs : List α) (r r' : Retriever W) (x : α), x ∈ xs → write x = some (k, b) →
      (∀ y ∈ xs, ∀ k' b', write y = some (k', b') → r.storeKey k' = r.storeKey k → b' = b) →
      forEach body xs r = (.ok (), r') → lookup (r.storeKey k) r'.data = some b := by
  intro xs
  induction xs with
  | nil => intro r r' x hx; cases hx
  | cons y ys ih =>
    intro r r' x hx hwx hsame h
    obtain ⟨hok, hrest⟩ := forEach_ok_cons body y ys r r' h
    obtain ⟨ky, by', hwy, hst⟩ := hw y r hok
    rw [hst] at hrest
    have hsame' : ∀ z ∈ ys, ∀ k' b', write z = some (k', b') →
        (r.store ky by').storeKey k' = r.storeKey k → b' = b := by
      intro z hz k' b' hwz hk
      exact hsame z (List.mem_cons_of_mem _ hz) k' b' hwz hk
    rcases List.mem_cons.mp hx with hxy | hxys
    · subst hxy
      rw [hwx] at hwy
      cases hwy
      exact forEach_store_keeps body write hw (r.storeKey k) b ys (r.store k b) r' hsame'
        (lookup_store_self r k b) hrest
    · exact ih (r.store ky by') r' x hxys hwx hsame' hrest

theorem secretEntry_write (kv : Str × Value) (r : Retriever W)
    (h : (Retriever.secretEntry kv r).1 = .ok ()) :
    ∃ k b, secretWrite kv = some (k, b) ∧ (Retriever.secretEntry kv r).2 = r.store k b := by
  obtain ⟨k, v⟩ := kv
  cases v with
  | str value =>
    cases hd : DecodeString value with
    | ok b =>
      exact ⟨"secret_".toList ++ k, b, by simp [secretWrite, hd],
        by simp [Retriever.secretEntry, hd]⟩
    | error e => simp [Retriever.secretEntry, hd] at h
  | _ => simp [Retriever.secretEntry] at h

theorem configMapEntry_write (kv : Str × Value) (r : Retriever W)
    (h : (Retriever.configMapEntry kv r).1 = .ok ()) :
    ∃ k b, configMapWrite kv = some (k, b)
      ∧ (Retriever.configMapEntry kv r).2 = r.store k b := by
  obtain ⟨k, v⟩ := kv
  cases v with
  | str value =>
    exact ⟨"configMap_".toList ++ k, toBytes value, by simp [configMapWrite],
      by simp [Retriever.configMapEntry]⟩
  | _ => simp [Retriever.configMapEntry] at h

theorem mem_of_lookup {α : Type} (k : Str) (v : α) (m : GoMap α) (h : lookup k m = some v) :
    (k, v) ∈ m := by
  induction m with
  | nil => simp [lookup] at h
  | cons p rest ih =>
    obtain ⟨k', v'⟩ := p
    by_cases hk : k' = k
    · simp only [lookup, hk, if_true, Option.some.injEq] at h
      simp [hk, h]
    · simp only [lookup, hk, if_false] at h
      exact List.mem_cons_of_mem _ (ih h)

theorem lookup_of_mem_nodup {α : Type} (k : Str) (v : α) (m : GoMap α)
    (hn : (m.map Prod.fst).Nodup) (h : (k, v) ∈ m) : lookup k m = some v := by
  induction m with
  | nil => cases h
  | cons p rest ih =>
    obtain ⟨k', v'⟩ := p
    simp only [List.map_cons, List.nodup_cons] at hn
    rcases List.mem_cons.mp h with heq | hin
    · cases heq
      simp [lookup]
    · have hk : k' ≠ k := by
        intro e
        subst e
        exact hn.1 (List.mem_map_of_mem Prod.fst hin)
      simp only [lookup, hk, if_false]
      exact ih hn.2 hin

theorem readSecret_ok (r : Retriever W) (name : Str) (items : List Str) (u data : Object)
    (hget : r.client.Get r.world .secrets r.plan.Ns name = .ok u)
    (hdata : NestedMap u "data".toList = .ok (some data))
    (hok : (r.readSecret name items).1 = .ok ()) :
    ∃ r1, Retriever.rangeSecretData data (r.record (.get .secrets r.plan.Ns name)) = (.ok (), r1)
      ∧ r.readSecret name items = (.ok (), { r1 with objects := r1.objects ++ [u] }) := by
  have hget' : (r.record (.get .secrets r.plan.Ns name)).client.Get
      (r.record (.get .secrets r.plan.Ns name)).world .secrets
      (r.record (.get .secrets r.plan.Ns name)).plan.Ns name = .ok u := hget
  rcases hr : Retriever.rangeSecretData data (r.record (.get .secrets r.plan.Ns name))
    with ⟨o, r1⟩
  cases o with
  | ok x =>
    cases x
    refine ⟨r1, rfl, ?_⟩
    simp only [Retriever.readSecret, hget', hdata, hr]
  | error e =>
    simp only [Retriever.readSecret, hget', hdata, hr] at hok
    cases hok
  | panic p =>
    simp only [Retriever.readSecret, hget', hdata, hr] at hok
    cases hok

theorem readConfigMap_ok (r : Retriever W) (name : Str) (items : List Str) (u data : Object)
    (hget : r.client.Get r.world .configmaps r.plan.Ns name = .ok u)
    (hdata : NestedMap u "data".toList = .ok (some data))
    (hok : (r.readConfigMap name items).1 = .ok ()) :
    ∃ r1, Retriever.rangeConfigMapData data (r.record (.get .configmaps r.plan.Ns name))
        = (.ok (), r1)
      ∧ r.readConfigMap name items = (.ok (), { r1 with objects := r1.objects ++ [u] }) := by
  have hget' : (r.record (.get .configmaps r.plan.Ns name)).client.Get
      (r.record (.get .configmaps r.plan.Ns name)).world .configmaps
      (r.record (.get .configmaps r.plan.Ns name)).plan.Ns name = .ok u := hget
  rcases hr : Retriever.rangeConfigMapData data (r.record (.get .configmaps r.plan.Ns name))
    with ⟨o, r1⟩
  cases o with
  | ok x =>
    cases x
    refine ⟨r1, rfl, ?_⟩
    simp only [Retriever.readConfigMap, hget', hdata, hr]
  | error e =>
    simp only [Retriever.readConfigMap, hget', hdata, hr] at hok
    cases hok
  | panic p =>
    simp only [Retriever.readConfigMap, hget', hdata, hr] at hok
    cases hok

theorem same_value_of_only_key {α : Type} (data : GoMap α) (k : Str) (v : α)
    (key : Str → Str) (hn : (data.map Prod.fst).Nodup) (hl : lookup k data = some v)
    (hother : ∀ k' ∈ data.map Prod.fst, k' ≠ k → key k' ≠ key k) :
    ∀ k' v', (k', v') ∈ data → key k' = key k → v' = v := by
  intro k' v' hmem hkey
  have hk : k' = k := by
    by_contra hne
    exact hother k' (List.mem_map_of_mem Prod.fst hmem) hne hkey
  subst hk
  have h2 := lookup_of_mem_nodup k' v' data hn hmem
  rw [hl] at h2
  cases h2
  rfl

/-- C8, as stated, fails: a secret with the two data keys `user.name` = base64(`x`) and
`user_name` = base64(`y`) is read successfully, both keys derive the aggregate key
`DB_SECRET_USER_NAME`, and the aggregate holds the value of the key visited last; so, in either
order of visit, one key of `data` does not have its decoded value in the aggregate. -/
theorem readSecret_colliding_keys :
    DecodeString "eA==".toList = .ok (toBytes "x".toList)
      ∧ DecodeString "eQ==".toList = .ok (toBytes "y".toList)
      ∧ toBytes "x".toList ≠ toBytes "y".toList
      ∧ (retrieverOfKind [] "Db".toList).storeKey ("secret_".toList ++ "user.name".toList)
          = "DB_SECRET_USER_NAME".toList
      ∧ (retrieverOfKind [] "Db".toList).storeKey ("secret_".toList ++ "user_name".toList)
          = "DB_SECRET_USER_NAME".toList
      ∧ ((retrieverWithSecret [("user.name".toList, .str "eA==".toList),
            ("user_name".toList, .str "eQ==".toList)]).readSecret "db-creds".toList []).1
          = .ok ()
      ∧ lookup "DB_SECRET_USER_NAME".toList
          ((retrieverWithSecret [("user.name".toList, .str "eA==".toList),
            ("user_name".toList, .str "eQ==".toList)]).readSecret "db-creds".toList []).2.data
          = some (toBytes "y".toList)
      ∧ ((retrieverWithSecret [("user_name".toList, .str "eQ==".toList),
            ("user.name".toList, .str "eA==".toList)]).readSecret "db-creds".toList []).1
          = .ok ()
      ∧ lookup "DB_SECRET_USER_NAME".toList
          ((retrieverWithSecret [("user_name".toList, .str "eQ==".toList),
            ("user.name".toList, .str "eA==".toList)]).readSecret "db-creds".toList []).2.data
          = some (toBytes "x".toList) := by
  decide

/-- C8 (amended): for every fetched secret (resp. config map) whose `data` is a mapping, and
for every requested-items list, after a successful `readSecret` (resp. `readConfigMap`) the
aggregate holds, for every key `k` of `data` whose aggregate key is derived from no other key
of `data`, the base64-decoded (resp. verbatim) bytes of `data[k]` under the aggregate key that
`store` derives from `secret_` + `k` (resp. `configMap_` + `k`). -/
theorem read_stores_every_data_key (r : Retriever W) (name : Str) (items : List Str)
    (u data : Object) (k value : Str)
    (hdata : NestedMap u "data".toList = .ok (some data))
    (hnodup : (data.map Prod.fst).Nodup)
    (hk : lookup k data = some (.str value)) :
    (r.client.Get r.world .secrets r.plan.Ns name = .ok u →
        (r.readSecret name items).1 = .ok () →
        (∀ k' ∈ data.map Prod.fst, k' ≠ k →
          r.storeKey ("secret_".toList ++ k') ≠ r.storeKey ("secret_".toList ++ k)) →
        ∃ b, DecodeString value = .ok b
          ∧ lookup (r.storeKey ("secret_".toList ++ k)) (r.readSecret name items).2.data
              = some b)
    ∧ (r.client.Get r.world .configmaps r.plan.Ns name = .ok u →
        (r.readConfigMap name items).1 = .ok () →
        (∀ k' ∈ data.map Prod.fst, k' ≠ k →
          r.storeKey ("configMap_".toList ++ k') ≠ r.storeKey ("configMap_".toList ++ k)) →
        lookup (r.storeKey ("configMap_".toList ++ k)) (r.readConfigMap name items).2.data
          = some (toBytes value)) := by
  have hmem := mem_of_lookup k (.str value) data hk
  constructor
  · intro hget hok hother
    obtain ⟨r1, hloop, hres⟩ := readSecret_ok r name items u data hget hdata hok
    have hsame := same_value_of_only_key data k (.str value)
      (fun x => r.storeKey ("secret_".toList ++ x)) hnodup hk hother
    cases hd : DecodeString value with
    | error e =>
      exfalso
      have hfail : ∀ (xs : GoMap Value) (r0 r' : Retriever W), (k, Value.str value) ∈ xs →
          forEach Retriever.secretEntry xs r0 ≠ (.ok (), r') := by
        intro xs
        induction xs with
        | nil => intro r0 r' hx; cases hx
        | cons y ys ih =>
          intro r0 r' hx h
          obtain ⟨hyok, hrest⟩ := forEach_ok_cons _ y ys r0 r' h
          rcases List.mem_cons.mp hx with hxy | hxys
          · subst hxy
            simp [Retriever.secretEntry, hd] at hyok
          · exact ih _ r' hxys hrest
      exact hfail data _ r1 hmem hloop
    | ok b =>
      refine ⟨b, rfl, ?_⟩
      rw [hres]
      have hwx : secretWrite (k, Value.str value) = some ("secret_".toList ++ k, b) := by
        simp [secretWrite, hd]
      refine forEach_store_holds Retriever.secretEntry secretWrite secretEntry_write
        ("secret_".toList ++ k) b data (r.record (.get .secrets r.plan.Ns name)) r1
        (k, .str value) hmem hwx ?_ hloop
      intro y hy k' b' hwy hkey
      obtain ⟨ky, vy⟩ := y
      cases vy with
      | str val =>
        cases hdy : DecodeString val with
        | error e => simp [secretWrite, hdy] at hwy
        | ok by' =>
          simp only [secretWrite, hdy, Option.some.injEq, Prod.mk.injEq] at hwy
          obtain ⟨hk', hb'⟩ := hwy
          subst hk'
          have hv := hsame ky (.str val) hy hkey
          cases hv
          rw [hd] at hdy
          cases hdy
          exact hb'.symm
      | _ => simp [secretWrite] at hwy
  · intro hget hok hother
    obtain ⟨r1, hloop, hres⟩ := readConfigMap_ok r name items u data hget hdata hok
    have hsame := same_value_of_only_key data k (.str value)
      (fun x => r.storeKey ("configMap_".toList ++ x)) hnodup hk hother
    rw [hres]
    have hwx : configMapWrite (k, Value.str value)
        = some ("configMap_".toList ++ k, toBytes value) := by
      simp [configMapWrite]
    refine forEach_store_holds Retriever.configMapEntry configMapWrite configMapEntry_write
      ("configMap_".toList ++ k) (toBytes value) data
      (r.record (.get .configmaps r.plan.Ns name)) r1 (k, .str value) hmem hwx ?_ hloop
    intro y hy k' b' hwy hkey
    obtain ⟨ky, vy⟩ := y
    cases vy with
    | str val =>
      simp only [configMapWrite, Option.some.injEq, Prod.mk.injEq] at hwy
      obtain ⟨hk', hb'⟩ := hwy
      subst hk'
      have hv := hsame ky (.str val) hy hkey
      cases hv
      exact hb'.symm
    | _ => simp [configMapWrite] at hwy

/-- Witness for C8 (scenario A): the secret `db-creds` with `data` `password` =
base64(`s3cr3t`) yields `DB_SECRET_PASSWORD` = `s3cr3t`. -/
theorem read_stores_every_data_key_witness :
    ∃ b, DecodeString "czNjcjN0".toList = .ok b
      ∧ lookup ((retrieverWithSecret [("password".toList, .str "czNjcjN0".toList)]).storeKey
            ("secret_".toList ++ "password".toList))
          ((retrieverWithSecret [("password".toList, .str "czNjcjN0".toList)]).readSecret
            "db-creds".toList ["password".toList]).2.data = some b :=
  (read_stores_every_data_key (retrieverWithSecret [("password".toList, .str "czNjcjN0".toList)])
    "db-creds".toList ["password".toList]
    [("data".toList, .map [("password".toList, .str "czNjcjN0".toList)])]
    [("password".toList, .str "czNjcjN0".toList)] "password".toList "czNjcjN0".toList
    (by decide) (by decide) (by decide)).1 (by decide) (by decide) (by decide)

/-! ## The read phase only reads -/

theorem quiet_refl (r : Retriever W) : Quiet r r := ⟨rfl, rfl, rfl, rfl, rfl, rfl⟩

theorem quiet_trans {a b c : Retriever W} (h1 : Quiet a b) (h2 : Quiet b c) : Quiet a c := by
  obtain ⟨p1, p2, p3, p4, p5, p6⟩ := h1
  obtain ⟨q1, q2, q3, q4, q5, q6⟩ := h2
  exact ⟨q1.trans p1, q2.trans p2, q3.trans p3, q4.trans p4, q5.trans p5, q6.trans p6⟩

theorem quiet_readOnly {a b : Retriever W} (h : Quiet a b) : ReadOnly a b := by
  obtain ⟨p1, p2, p3, p4, p5, _⟩ := h
  exact ⟨p1, p2, p3, p4, [], by simp [p5], by simp⟩

theorem classify_quiet (r : Retriever W) (path n m : Str) (acc : Pending) :
    Quiet r (r.classify path n m acc).2 := by
  unfold Retriever.classify
  split
  · exact quiet_refl r
  · split
    · exact quiet_refl r
    · split
      · exact ⟨rfl, rfl, rfl, rfl, rfl, rfl⟩
      · split
        · exact ⟨rfl, rfl, rfl, rfl, rfl, rfl⟩
        · exact quiet_refl r

theorem getCRKey_congr {r r' : Retriever W} (h : r'.plan = r.plan) (place path : Str) :
    r'.getCRKey place path = r.getCRKey place path := by
  simp only [Retriever.getCRKey, h]

theorem inspect_quiet (place path : Str) :
    ∀ (xs : List Str) (acc : Pending) (r : Retriever W),
      Quiet r (Retriever.inspect place path xs acc r).2 := by
  intro xs
  induction xs with
  | nil => intro acc r; exact quiet_refl r
  | cons x xs ih =>
    intro acc r
    cases hk : r.getCRKey place path with
    | ok n =>
      simp only [Retriever.inspect, hk]
      exact quiet_trans (classify_quiet r path n x acc) (ih _ _)
    | error e =>
      simp only [Retriever.inspect, hk]
      exact quiet_refl r
    | panic p =>
      simp only [Retriever.inspect, hk]
      exact quiet_refl r

theorem record_get_readOnly (r : Retriever W) (res : Resource) (ns name : Str) :
    ReadOnly r (r.record (.get res ns name)) :=
  ⟨rfl, rfl, rfl, rfl, [.get res ns name], rfl, by simp [Request.isWrite]⟩

theorem objects_readOnly (r : Retriever W) (objs : List Object) :
    ReadOnly r { r with objects := objs } :=
  ⟨rfl, rfl, rfl, rfl, [], by simp, by simp⟩

theorem readSecret_readOnly (r : Retriever W) (name : Str) (items : List Str) :
    ReadOnly r (r.readSecret name items).2 := by
  have h0 := record_get_readOnly r .secrets r.plan.Ns name
  unfold Retriever.readSecret
  simp only
  split
  · exact h0
  · split
    · exact h0
    · exact h0
    · rename_i data _
      have h1 := onlyData_readOnly (rangeSecretData_onlyData data (r.record (.get .secrets r.plan.Ns name)))
      split
      · rename_i r1 hr
        rw [hr] at h1
        exact readOnly_trans h0 (readOnly_trans h1 (objects_readOnly _ _))
      · exact readOnly_trans h0 h1

theorem readConfigMap_readOnly (r : Retriever W) (name : Str) (items : List Str) :
    ReadOnly r (r.readConfigMap name items).2 := by
  have h0 := record_get_readOnly r .configmaps r.plan.Ns name
  unfold Retriever.readConfigMap
  simp only
  split
  · exact h0
  · split
    · exact h0
    · exact h0
    · rename_i data _
      have h1 :=
        onlyData_readOnly
          (rangeConfigMapData_onlyData data (r.record (.get .configmaps r.plan.Ns name)))
      split
      · rename_i r1 hr
        rw [hr] at h1
        exact readOnly_trans h0 (readOnly_trans h1 (objects_readOnly _ _))
      · exact readOnly_trans h0 h1

theorem readSecrets_readOnly (secrets : GoMap (List Str)) (r : Retriever W) :
    ReadOnly r (Retriever.readSecrets secrets r).2 := by
  unfold Retriever.readSecrets
  exact forEach_rel ReadOnly readOnly_refl (fun _ _ _ => readOnly_trans) _
    (fun entry r => readSecret_readOnly r entry.1 entry.2) secrets r

theorem readConfigMaps_readOnly (configMaps : GoMap (List Str)) (r : Retriever W) :
    ReadOnly r (Retriever.readConfigMaps configMaps r).2 := by
  unfold Retriever.readConfigMaps
  exact forEach_rel ReadOnly readOnly_refl (fun _ _ _ => readOnly_trans) _
    (fun entry r => readConfigMap_readOnly r entry.1 entry.2) configMaps r

theorem read_readOnly (r : Retriever W) (place path : Str) (xs : List Str) :
    ReadOnly r (r.read place path xs).2 := by
  have h0 := quiet_readOnly (inspect_quiet place path xs ⟨[], []⟩ r)
  unfold Retriever.read
  split
  · rename_i e r1 hr
    rw [hr] at h0
    exact h0
  · rename_i p r1 hr
    rw [hr] at h0
    exact h0
  · rename_i acc r1 hr
    rw [hr] at h0
    have h1 := readSecrets_readOnly acc.secrets r1
    split
    · rename_i r2 hr2
      rw [hr2] at h1
      exact readOnly_trans h0 (readOnly_trans h1 (readConfigMaps_readOnly _ _))
    · exact readOnly_trans h0 h1

theorem readDescriptors_readOnly (place : Str) (ds : List Descriptor) (r : Retriever W) :
    ReadOnly r (Retriever.readDescriptors place ds r).2 := by
  unfold Retriever.readDescriptors
  exact forEach_rel ReadOnly readOnly_refl (fun _ _ _ => readOnly_trans) _
    (fun d r => read_readOnly r place d.Path d.XDescriptors) ds r

theorem forEach_append {α : Type} (body : α → Retriever W → Outcome Unit × Retriever W)
    (ys : List α) :
    ∀ (xs : List α) (r : Retriever W),
      forEach body (xs ++ ys) r =
        match forEach body xs r with
        | (.ok (), r1) => forEach body ys r1
        | failed => failed := by
  intro xs
  induction xs with
  | nil => intro r; rfl
  | cons x xs ih =>
    intro r
    rcases hx : body x r with ⟨o, r1⟩
    cases o with
    | ok u =>
      cases u
      simp only [List.cons_append, forEach, hx]
      exact ih r1
    | error e => simp only [List.cons_append, forEach, hx]
    | panic p => simp only [List.cons_append, forEach, hx]

theorem readDescriptors_of_readFails (place : Str) (ds : List Descriptor) (r : Retriever W)
    (e : GoError) (h : readFails place ds r e) :
    (Retriever.readDescriptors place ds r).1 = .error e := by
  obtain ⟨pre, d, post, hds, hpre, hd⟩ := h
  subst hds
  unfold Retriever.readDescriptors at hpre hd ⊢
  rw [forEach_append]
  rcases hp : forEach (fun d r => r.read place d.Path d.XDescriptors) pre r with ⟨o, r1⟩
  rw [hp] at hpre hd
  simp only at hpre hd
  subst hpre
  rcases hr : r1.read place d.Path d.XDescriptors with ⟨o2, r2⟩
  rw [hr] at hd
  simp only at hd
  subst hd
  simp only [hp, forEach, hr]

/-! ## Fail-fast -/

/-- C4: for every plan and every cluster state, if reading a spec descriptor or a status
descriptor fails with an error, `Retrieve` returns that error, issues no create and no update
request, and leaves the cluster state, with any aggregate resource in it, as it was before the
call. -/
theorem Retrieve_fail_fast (r : Retriever W) (e : GoError)
    (h : readFails "spec".toList r.plan.CRDDescription.SpecDescriptors r e
      ∨ ((Retriever.readDescriptors "spec".toList r.plan.CRDDescription.SpecDescriptors r).1
            = .ok ()
          ∧ readFails "status".toList r.plan.CRDDescription.StatusDescriptors
              (Retriever.readDescriptors "spec".toList r.plan.CRDDescription.SpecDescriptors
                r).2 e)) :
    r.Retrieve.1 = .error e
      ∧ r.Retrieve.2.world = r.world
      ∧ ∃ l, r.Retrieve.2.requests = r.requests ++ l ∧ ∀ q ∈ l, q.isWrite = false := by
  have hspec := readDescriptors_readOnly "spec".toList r.plan.CRDDescription.SpecDescriptors r
  rcases h with h | ⟨hok, h⟩
  · have herr := readDescriptors_of_readFails _ _ _ _ h
    rcases hs : Retriever.readDescriptors "spec".toList r.plan.CRDDescription.SpecDescriptors r
      with ⟨o, r1⟩
    rw [hs] at herr hspec
    simp only at herr hspec
    subst herr
    obtain ⟨_, _, _, hw, l, hl, hq⟩ := hspec
    simp only [Retriever.Retrieve, hs]
    exact ⟨trivial, hw, l, hl, hq⟩
  · have herr := readDescriptors_of_readFails _ _ _ _ h
    rcases hs : Retriever.readDescriptors "spec".toList r.plan.CRDDescription.SpecDescriptors r
      with ⟨o, r1⟩
    rw [hs] at herr hspec hok
    simp only at herr hspec hok
    subst hok
    have hplan : r1.plan = r.plan := hspec.1
    have hstatus := readDescriptors_readOnly "status".toList
      r.plan.CRDDescription.StatusDescriptors r1
    rcases ht : Retriever.readDescriptors "status".toList
      r.plan.CRDDescription.StatusDescriptors r1 with ⟨o2, r2⟩
    rw [ht] at herr hstatus
    simp only at herr hstatus
    subst herr
    obtain ⟨_, _, _, hw, l, hl, hq⟩ := readOnly_trans hspec hstatus
    simp only [Retriever.Retrieve, hs, hplan, ht]
    exact ⟨trivial, hw, l, hl, hq⟩

/-- Witness for C4 (scenario C): the second spec descriptor names `missingField`, which the
`spec` section does not hold; `Retrieve` returns the error naming it, and the cluster with its
old aggregate is untouched. -/
theorem Retrieve_fail_fast_witness :
    readFails "spec".toList retrieverMissingField.plan.CRDDescription.SpecDescriptors
        retrieverMissingField (.errorf "Can't find key 'missingField'".toList)
      ∧ retrieverMissingField.Retrieve.1 = .error (.errorf "Can't find key 'missingField'".toList)
      ∧ retrieverMissingField.Retrieve.2.world = retrieverMissingField.world :=
  have hf : readFails "spec".toList retrieverMissingField.plan.CRDDescription.SpecDescriptors
      retrieverMissingField (.errorf "Can't find key 'missingField'".toList) :=
    ⟨[⟨"host".toList, ["binding:env:attribute".toList]⟩],
      ⟨"missingField".toList, ["binding:env:object:secret:password".toList]⟩, [],
      by decide, by decide, by decide⟩
  ⟨hf, (Retrieve_fail_fast retrieverMissingField _ (Or.inl hf)).1,
    (Retrieve_fail_fast retrieverMissingField _ (Or.inl hf)).2.1⟩

/-! ## Batching -/

theorem readSecret_requests (r : Retriever W) (name : Str) (items : List Str) :
    (r.readSecret name items).2.requests = r.requests ++ [.get .secrets r.plan.Ns name] := by
  unfold Retriever.readSecret
  simp only
  split
  · rfl
  · split
    · rfl
    · rfl
    · rename_i data _
      have h1 := rangeSecretData_onlyData data (r.record (.get .secrets r.plan.Ns name))
      split
      · rename_i r1 hr
        rw [hr] at h1
        exact h1.2.2.2.2.1
      · exact h1.2.2.2.2.1

theorem readConfigMap_requests (r : Retriever W) (name : Str) (items : List Str) :
    (r.readConfigMap name items).2.requests
      = r.requests ++ [.get .configmaps r.plan.Ns name] := by
  unfold Retriever.readConfigMap
  simp only
  split
  · rfl
  · split
    · rfl
    · rfl
    · rename_i data _
      have h1 := rangeConfigMapData_onlyData data (r.record (.get .configmaps r.plan.Ns name))
      split
      · rename_i r1 hr
        rw [hr] at h1
        exact h1.2.2.2.2.1
      · exact h1.2.2.2.2.1

theorem classify_acc (r : Retriever W) (path n x : Str) (acc : Pending) :
    (r.classify path n x acc).1 =
      if fetchesSecret x then
        { acc with secrets := appendItem n (r.extractSecretItemName x) acc.secrets }
      else if fetchesConfigMap x then
        { acc with
          configMaps := appendItem n (r.extractConfigMapItemName x) acc.configMaps }
      else acc := by
  unfold Retriever.classify fetchesSecret fetchesConfigMap
  cases HasPrefix x secretPrefix <;> cases HasPrefix x configMapPrefix <;>
    cases HasPrefix x volumeMountSecretPrefix <;> cases HasPrefix x attributePrefix <;> rfl

theorem appendItem_single (n item : Str) (m : GoMap (List Str)) (h : single n m) :
    ∃ items, appendItem n item m = [(n, items)] := by
  rcases h with h | ⟨items, h⟩
  · subst h
    exact ⟨_, rfl⟩
  · subst h
    exact ⟨items ++ [item], by simp [appendItem, assign, lookup]⟩

/-- With a path that resolves to `n`, the loop over the x-descriptors ends normally, sends no
request, and leaves in each accumulator at most the one name `n`: the secret accumulator holds
it exactly when it held it before or some x-descriptor takes a secret action. -/
theorem inspect_shape (place path n : Str) :
    ∀ (xs : List Str) (acc : Pending) (r : Retriever W),
      r.getCRKey place path = .ok n → single n acc.secrets → single n acc.configMaps →
      ∃ acc' r', Retriever.inspect place path xs acc r = (.ok acc', r') ∧ Quiet r r'
        ∧ single n acc'.configMaps
        ∧ ((!acc.secrets.isEmpty || xs.any fetchesSecret) = true →
            ∃ items, acc'.secrets = [(n, items)])
        ∧ ((!acc.secrets.isEmpty || xs.any fetchesSecret) = false → acc'.secrets = []) := by
  intro xs
  induction xs with
  | nil =>
    intro acc r _ hs hc
    refine ⟨acc, r, rfl, quiet_refl r, hc, ?_, ?_⟩
    · intro h
      rcases hs with hs | ⟨items, hs⟩
      · simp [hs] at h
      · exact ⟨items, hs⟩
    · intro h
      rcases hs with hs | ⟨items, hs⟩
      · exact hs
      · simp [hs] at h
  | cons x xs ih =>
    intro acc r hk hs hc
    have hq := classify_quiet r path n x acc
    have hk' : (r.classify path n x acc).2.getCRKey place path = .ok n := by
      rw [getCRKey_congr hq.1]
      exact hk
    have hacc := classify_acc r path n x acc
    by_cases h1 : fetchesSecret x = true
    · simp only [h1, if_true] at hacc
      obtain ⟨items, hit⟩ := appendItem_single n (r.extractSecretItemName x) acc.secrets hs
      have hs' : single n (r.classify path n x acc).1.secrets := by
        rw [hacc]; exact Or.inr ⟨items, hit⟩
      have hc' : single n (r.classify path n x acc).1.configMaps := by
        rw [hacc]; exact hc
      obtain ⟨acc', r', hrun, hquiet, hcm, hyes, _⟩ := ih _ _ hk' hs' hc'
      refine ⟨acc', r', ?_, quiet_trans hq hquiet, hcm, ?_, ?_⟩
      · simp only [Retriever.inspect, hk]
        exact hrun
      · intro _
        apply hyes
        rw [hacc]
        simp [hit]
      · intro h
        simp [h1] at h
    · have h1' : fetchesSecret x = false := by simpa using h1
      have hsec : (r.classify path n x acc).1.secrets = acc.secrets := by
        rw [hacc]
        simp only [h1', Bool.false_eq_true, if_false]
        split <;> rfl
      have hs' : single n (r.classify path n x acc).1.secrets := by
        rw [hsec]; exact hs
      have hc' : single n (r.classify path n x acc).1.configMaps := by
        rw [hacc]
        simp only [h1', Bool.false_eq_true, if_false]
        split
        · obtain ⟨items, hit⟩ :=
            appendItem_single n (r.extractConfigMapItemName x) acc.configMaps hc
          exact Or.inr ⟨items, hit⟩
        · exact hc
      obtain ⟨acc', r', hrun, hquiet, hcm, hyes, hno⟩ := ih _ _ hk' hs' hc'
      refine ⟨acc', r', ?_, quiet_trans hq hquiet, hcm, ?_, ?_⟩
      · simp only [Retriever.inspect, hk]
        exact hrun
      · intro h
        apply hyes
        rw [hsec]
        simpa [h1'] using h
      · intro h
        apply hno
        rw [hsec]
        simpa [h1'] using h

theorem forEach_singleton {α : Type} (body : α → Retriever W → Outcome Unit × Retriever W)
    (x : α) (r : Retriever W) : forEach body [x] r = body x r := by
  rcases hx : body x r with ⟨o, r1⟩
  cases o with
  | ok u => cases u; simp only [forEach, hx]
  | error e => simp only [forEach, hx]
  | panic p => simp only [forEach, hx]

theorem readConfigMaps_single_requests (n : Str) (m : GoMap (List Str)) (r : Retriever W)
    (h : single n m) :
    ∃ cm, (Retriever.readConfigMaps m r).2.requests = r.requests ++ cm
      ∧ (cm = [] ∨ cm = [.get .configmaps r.plan.Ns n]) := by
  rcases h with h | ⟨items, h⟩
  · subst h
    exact ⟨[], by simp [Retriever.readConfigMaps, forEach], Or.inl rfl⟩
  · subst h
    refine ⟨[.get .configmaps r.plan.Ns n], ?_, Or.inr rfl⟩
    unfold Retriever.readConfigMaps
    rw [forEach_singleton]
    exact readConfigMap_requests r n items

/-- C5, as stated, fails: two distinct spec descriptors, `credentials` and `adminCredentials`,
each carry a secret marker and both resolve to the secret `db-creds`; `Retrieve` succeeds and
issues two get requests for that secret, one per descriptor. -/
theorem Retrieve_fetches_secret_per_descriptor :
    retrieverTwoReferences.getCRKey "spec".toList "credentials".toList = .ok "db-creds".toList
      ∧ retrieverTwoReferences.getCRKey "spec".toList "adminCredentials".toList
          = .ok "db-creds".toList
      ∧ retrieverTwoReferences.Retrieve.1 = .ok retrieverTwoReferences.Retrieve.2.objects
      ∧ retrieverTwoReferences.Retrieve.2.requests.count
          (.get .secrets "ns".toList "db-creds".toList) = 2 := by
  decide

/-- C5 (amended): batching is per descriptor. For every descriptor whose path resolves to the
name `n`, one `read` issues exactly one get request for the secret `n` when at least one of its
markers is a secret or volume mount marker, however many such markers it carries, and none
otherwise; it is followed by at most one get request for the config map `n`. Two descriptors
that resolve to the same secret name are read by two calls of `read`, each with its own get
request. -/
theorem read_one_get_per_descriptor (r : Retriever W) (place path n : Str) (xs : List Str)
    (hk : r.getCRKey place path = .ok n) :
    ∃ cm, (r.read place path xs).2.requests
        = r.requests ++ (if xs.any fetchesSecret then [.get .secrets r.plan.Ns n] else []) ++ cm
      ∧ (cm = [] ∨ cm = [.get .configmaps r.plan.Ns n]) := by
  obtain ⟨acc', r1, hrun, hquiet, hcm, hyes, hno⟩ :=
    inspect_shape place path n xs ⟨[], []⟩ r hk (Or.inl rfl) (Or.inl rfl)
  obtain ⟨hplan, _, _, _, hreq, _⟩ := hquiet
  simp only [Retriever.read, hrun]
  by_cases hany : xs.any fetchesSecret = true
  · obtain ⟨items, hsec⟩ := hyes (by simp [hany])
    simp only [hsec, hany, if_true, Retriever.readSecrets]
    rw [forEach_singleton]
    have hr2 := readSecret_requests r1 n items
    have hro := readSecret_readOnly r1 n items
    rcases hs : r1.readSecret n items with ⟨o, r2⟩
    rw [hs] at hr2 hro
    simp only at hr2 hro
    cases o with
    | ok u =>
      cases u
      simp only
      obtain ⟨cm, hc, hshape⟩ := readConfigMaps_single_requests n acc'.configMaps r2 hcm
      refine ⟨cm, ?_, ?_⟩
      · rw [hc, hr2, hreq, hplan]
      · rw [hro.1, hplan] at hshape
        exact hshape
    | error e => exact ⟨[], by simp [hr2, hreq, hplan], Or.inl rfl⟩
    | panic p => exact ⟨[], by simp [hr2, hreq, hplan], Or.inl rfl⟩
  · have hany' : xs.any fetchesSecret = false := by simpa using hany
    have hsec := hno (by simp [hany'])
    simp only [hsec, hany', Retriever.readSecrets, forEach, Bool.false_eq_true, if_false]
    obtain ⟨cm, hc, hshape⟩ := readConfigMaps_single_requests n acc'.configMaps r1 hcm
    refine ⟨cm, ?_, ?_⟩
    · rw [hc, hreq]
      simp
    · rw [hplan] at hshape
      exact hshape

/-- Witness for C5: one descriptor with two secret markers and a volume mount marker, on a path
that resolves to `db-creds`, makes `read` issue a single get request for that secret. -/
theorem read_one_get_per_descriptor_witness :
    retrieverTwoReferences.getCRKey "spec".toList "credentials".toList = .ok "db-creds".toList
      ∧ ∃ cm, (retrieverTwoReferences.read "spec".toList "credentials".toList
            ["binding:env:object:secret:password".toList,
              "binding:env:object:secret:user".toList,
              "binding:volumemount:secret".toList]).2.requests
          = [] ++ [.get .secrets "ns".toList "db-creds".toList] ++ cm
        ∧ (cm = [] ∨ cm = [.get .configmaps "ns".toList "db-creds".toList]) :=
  ⟨by decide,
    read_one_get_per_descriptor retrieverTwoReferences "spec".toList "credentials".toList
      "db-creds".toList
      ["binding:env:object:secret:password".toList, "binding:env:object:secret:user".toList,
        "binding:volumemount:secret".toList] (by decide)⟩

/-! ## Idempotence -/

theorem Retrieve_eq_readPhase (r : Retriever W) :
    r.Retrieve =
      match r.readPhase with
      | (.error e, r1) => (.error e, r1)
      | (.panic p, r1) => (.panic p, r1)
      | (.ok (), r1) =>
        match r1.saveDataOnSecret with
        | (.error e, r2) => (.error e, r2)
        | (.panic p, r2) => (.panic p, r2)
        | (.ok (), r2) => (.ok r2.objects, r2) := by
  unfold Retriever.Retrieve Retriever.readPhase
  rcases hs : Retriever.readDescriptors "spec".toList r.plan.CRDDescription.SpecDescriptors r
    with ⟨o, r1⟩
  cases o with
  | ok u => cases u; rfl
  | error e => rfl
  | panic p => rfl

theorem readPhase_readOnly (r : Retriever W) : ReadOnly r r.readPhase.2 := by
  have hspec := readDescriptors_readOnly "spec".toList r.plan.CRDDescription.SpecDescriptors r
  unfold Retriever.readPhase
  rcases hs : Retriever.readDescriptors "spec".toList r.plan.CRDDescription.SpecDescriptors r
    with ⟨o, r1⟩
  rw [hs] at hspec
  cases o with
  | ok u =>
    cases u
    exact readOnly_trans hspec (readDescriptors_readOnly _ _ _)
  | error e => exact hspec
  | panic p => exact hspec

theorem GetName_secretToUnstructured (name ns : Str) (data : GoMap Bytes) :
    GetName (secretToUnstructured name ns data) = name := by
  cases name with
  | nil =>
    cases ns <;> simp [GetName, secretToUnstructured, lookup]
  | cons c cs =>
    simp [GetName, secretToUnstructured, lookup]

theorem findObject_putObject_self (ns name : Str) (o : Object)
    (l : List ((Str × Str) × Object)) :
    findObject ns name (putObject ns name o l) = some o := by
  induction l with
  | nil => simp [putObject, findObject]
  | cons p rest ih =>
    obtain ⟨k, o'⟩ := p
    by_cases h : k = (ns, name)
    · simp [putObject, findObject, h]
    · simp [putObject, findObject, h, ih]

theorem findObject_putObject_other (ns name ns' name' : Str) (o : Object)
    (l : List ((Str × Str) × Object)) (h : (ns', name') ≠ (ns, name)) :
    findObject ns' name' (putObject ns name o l) = findObject ns' name' l := by
  induction l with
  | nil => simp [putObject, findObject, Ne.symm h]
  | cons p rest ih =>
    obtain ⟨k, o'⟩ := p
    by_cases hk : k = (ns, name)
    · subst hk
      simp [putObject, findObject, Ne.symm h]
    · by_cases hk' : k = (ns', name')
      · subst hk'
        simp [putObject, findObject, hk]
      · simp [putObject, findObject, hk, hk', ih]

theorem put_publishedIn (c : Cluster) (ns name : Str) (u : Object) (hn : GetName u = name) :
    publishedIn c (c.put .secrets ns u) ns name u := by
  subst hn
  exact ⟨findObject_putObject_self _ _ _ _,
    fun ns' name' h => findObject_putObject_other _ _ _ _ _ _ h, rfl⟩

theorem publishedIn_trans {c c1 c2 : Cluster} {ns name : Str} {u : Object}
    (h1 : publishedIn c c1 ns name u) (h2 : publishedIn c1 c2 ns name u) :
    publishedIn c c2 ns name u :=
  ⟨h2.1, fun ns' name' h => (h2.2.1 ns' name' h).trans (h1.2.1 ns' name' h),
    h2.2.2.trans h1.2.2⟩

/-- On the fault-free cluster `saveDataOnSecret` always succeeds: whether or not the aggregate
exists, it is there afterwards with the collected data, and nothing else has changed. -/
theorem saveDataOnSecret_kube (r : Retriever Cluster) (hc : r.client = kube) :
    r.saveDataOnSecret.1 = .ok ()
      ∧ r.saveDataOnSecret.2.data = r.data
      ∧ r.saveDataOnSecret.2.plan = r.plan
      ∧ r.saveDataOnSecret.2.requests = r.requests
          ++ [.create .secrets r.plan.Ns (secretToUnstructured r.plan.Name r.plan.Ns r.data),
              .update .secrets r.plan.Ns (secretToUnstructured r.plan.Name r.plan.Ns r.data)]
      ∧ publishedIn r.world r.saveDataOnSecret.2.world r.plan.Ns r.plan.Name
          (secretToUnstructured r.plan.Name r.plan.Ns r.data) := by
  obtain ⟨data, objects, client, plan, vk, bp, world, requests⟩ := r
  simp only at hc
  subst hc
  have hn := GetName_secretToUnstructured plan.Name plan.Ns data
  have hput := put_publishedIn world plan.Ns plan.Name
    (secretToUnstructured plan.Name plan.Ns data) hn
  have hput2 := put_publishedIn (world.put .secrets plan.Ns
    (secretToUnstructured plan.Name plan.Ns data)) plan.Ns plan.Name
    (secretToUnstructured plan.Name plan.Ns data) hn
  cases hf : findObject plan.Ns plan.Name world.secrets with
  | none =>
    have hf2 : findObject plan.Ns plan.Name
        (world.put .secrets plan.Ns (secretToUnstructured plan.Name plan.Ns data)).secrets
        = some (secretToUnstructured plan.Name plan.Ns data) := hput.1
    simp only [Retriever.saveDataOnSecret, Retriever.record, kube, hn, Cluster.objectsOf, hf,
      hf2]
    exact ⟨trivial, trivial, trivial, by simp, publishedIn_trans hput hput2⟩
  | some o =>
    have hsave : (Retriever.saveDataOnSecret
        { data := data, objects := objects, client := kube, plan := plan, volumeKeys := vk,
          bindingPrefix := bp, world := world, requests := requests })
        = (.ok (),
            { data := data,
              objects := objects ++ [secretToUnstructured plan.Name plan.Ns data],
              client := kube, plan := plan, volumeKeys := vk, bindingPrefix := bp,
              world := world.put .secrets plan.Ns (secretToUnstructured plan.Name plan.Ns data),
              requests := requests
                ++ [.create .secrets plan.Ns (secretToUnstructured plan.Name plan.Ns data)]
                ++ [.update .secrets plan.Ns (secretToUnstructured plan.Name plan.Ns data)] }) := by
      simp [Retriever.saveDataOnSecret, Retriever.record, kube, hn, Cluster.objectsOf, hf,
        IsAlreadyExists]
    rw [hsave]
    exact ⟨rfl, rfl, rfl, by simp, hput⟩

theorem mem_requests_of_readOnly {a b : Retriever W} (h : ReadOnly a b) {q : Request}
    (hq : q ∈ a.requests) : q ∈ b.requests := by
  obtain ⟨_, _, _, _, l, hl, _⟩ := h
  rw [hl]
  exact List.mem_append_left _ hq

theorem classify_onWorld (r : Retriever W) (w : W) (path n x : Str) (acc : Pending) :
    (r.onWorld w).classify path n x acc
      = ((r.classify path n x acc).1, (r.classify path n x acc).2.onWorld w) := by
  unfold Retriever.classify
  cases HasPrefix x secretPrefix <;> cases HasPrefix x configMapPrefix <;>
    cases HasPrefix x volumeMountSecretPrefix <;> cases HasPrefix x attributePrefix <;> rfl

theorem inspect_onWorld (w : W) (place path : Str) :
    ∀ (xs : List Str) (acc : Pending) (r : Retriever W),
      Retriever.inspect place path xs acc (r.onWorld w)
        = ((Retriever.inspect place path xs acc r).1,
            (Retriever.inspect place path xs acc r).2.onWorld w) := by
  intro xs
  induction xs with
  | nil => intro acc r; rfl
  | cons x xs ih =>
    intro acc r
    have hk : (r.onWorld w).getCRKey place path = r.getCRKey place path := rfl
    cases hg : r.getCRKey place path with
    | ok n =>
      simp only [Retriever.inspect, hk, hg, classify_onWorld]
      exact ih _ _
    | error e => simp only [Retriever.inspect, hk, hg]
    | panic p => simp only [Retriever.inspect, hk, hg]

theorem secretEntry_onWorld (w : W) (kv : Str × Value) (r : Retriever W) :
    Retriever.secretEntry kv (r.onWorld w)
      = ((Retriever.secretEntry kv r).1, (Retriever.secretEntry kv r).2.onWorld w) := by
  obtain ⟨k, v⟩ := kv
  cases v with
  | str value =>
    cases hd : DecodeString value with
    | ok b => simp only [Retriever.secretEntry, hd]; rfl
    | error e => simp only [Retriever.secretEntry, hd]
  | _ => rfl

theorem configMapEntry_onWorld (w : W) (kv : Str × Value) (r : Retriever W) :
    Retriever.configMapEntry kv (r.onWorld w)
      = ((Retriever.configMapEntry kv r).1, (Retriever.configMapEntry kv r).2.onWorld w) := by
  obtain ⟨k, v⟩ := kv
  cases v <;> rfl

theorem forEach_sim {α : Type} (w : W) (body : α → Retriever W → Outcome Unit × Retriever W)
    (hRO : ∀ x r, ReadOnly r (body x r).2) (hsim : ∀ x, Sim w (body x)) :
    ∀ xs : List α, Sim w (forEach body xs) := by
  intro xs
  induction xs with
  | nil => intro r _; rfl
  | cons x xs ih =>
    intro r h
    have hro := hRO x r
    have hsx := hsim x r
    rcases hx : body x r with ⟨o, r1⟩
    rw [hx] at hro hsx
    simp only at hro hsx
    cases o with
    | ok u =>
      cases u
      simp only [forEach, hx] at h ⊢
      have hrest := forEach_rel ReadOnly readOnly_refl (fun _ _ _ => readOnly_trans) body hRO xs r1
      have h1 : body x (r.onWorld w) = (.ok (), r1.onWorld w) :=
        hsx (fun q hq => h q (mem_requests_of_readOnly hrest hq))
      rw [h1]
      simp only
      apply ih r1
      intro q hq
      rw [hro.2.2.1, hro.2.2.2.1]
      exact h q hq
    | error e =>
      simp only [forEach, hx] at h ⊢
      rw [hsx h]
    | panic p =>
      simp only [forEach, hx] at h ⊢
      rw [hsx h]

theorem forEach_onWorld {α : Type} (w : W)
    (body : α → Retriever W → Outcome Unit × Retriever W)
    (hbody : ∀ x r, body x (r.onWorld w) = ((body x r).1, (body x r).2.onWorld w)) :
    ∀ (xs : List α) (r : Retriever W),
      forEach body xs (r.onWorld w) = ((forEach body xs r).1, (forEach body xs r).2.onWorld w) := by
  intro xs
  induction xs with
  | nil => intro r; rfl
  | cons x xs ih =>
    intro r
    have hb := hbody x r
    rcases hx : body x r with ⟨o, r1⟩
    rw [hx] at hb
    cases o with
    | ok u =>
      cases u
      simp only [forEach, hx, hb]
      exact ih r1
    | error e => simp only [forEach, hx, hb]
    | panic p => simp only [forEach, hx, hb]

theorem rangeSecretData_onWorld (w : W) (data : GoMap Value) (r : Retriever W) :
    Retriever.rangeSecretData data (r.onWorld w)
      = ((Retriever.rangeSecretData data r).1, (Retriever.rangeSecretData data r).2.onWorld w) :=
  forEach_onWorld w Retriever.secretEntry (secretEntry_onWorld w) data r

theorem rangeConfigMapData_onWorld (w : W) (data : GoMap Value) (r : Retriever W) :
    Retriever.rangeConfigMapData data (r.onWorld w)
      = ((Retriever.rangeConfigMapData data r).1,
          (Retriever.rangeConfigMapData data r).2.onWorld w) :=
  forEach_onWorld w Retriever.configMapEntry (configMapEntry_onWorld w) data r

theorem readSecret_sim (w : W) (name : Str) (items : List Str) :
    Sim w (fun r => r.readSecret name items) := by
  intro r h
  have hget : r.client.Get w .secrets r.plan.Ns name
      = r.client.Get r.world .secrets r.plan.Ns name := by
    have hq := h (.get .secrets r.plan.Ns name) (by
      show _ ∈ (r.readSecret name items).2.requests
      rw [readSecret_requests]
      simp)
    exact hq
  have hrec : (r.onWorld w).record (.get .secrets (r.onWorld w).plan.Ns name)
      = (r.record (.get .secrets r.plan.Ns name)).onWorld w := rfl
  have hget' : ((r.record (.get .secrets r.plan.Ns name)).onWorld w).client.Get
      ((r.record (.get .secrets r.plan.Ns name)).onWorld w).world .secrets
      ((r.record (.get .secrets r.plan.Ns name)).onWorld w).plan.Ns name
      = r.client.Get r.world .secrets r.plan.Ns name := hget
  have hget0 : (r.record (.get .secrets r.plan.Ns name)).client.Get
      (r.record (.get .secrets r.plan.Ns name)).world .secrets
      (r.record (.get .secrets r.plan.Ns name)).plan.Ns name
      = r.client.Get r.world .secrets r.plan.Ns name := rfl
  simp only [Retriever.readSecret, hrec, hget', hget0]
  cases r.client.Get r.world .secrets r.plan.Ns name with
  | error e => rfl
  | ok u =>
    simp only
    cases NestedMap u "data".toList with
    | error e => rfl
    | ok found =>
      cases found with
      | none => rfl
      | some data =>
        simp only [rangeSecretData_onWorld]
        rcases Retriever.rangeSecretData data (r.record (.get .secrets r.plan.Ns name))
          with ⟨o, r1⟩
        cases o with
        | ok x => cases x; rfl
        | error e => rfl
        | panic p => rfl

theorem readConfigMap_sim (w : W) (name : Str) (items : List Str) :
    Sim w (fun r => r.readConfigMap name items) := by
  intro r h
  have hget : r.client.Get w .configmaps r.plan.Ns name
      = r.client.Get r.world .configmaps r.plan.Ns name := by
    have hq := h (.get .configmaps r.plan.Ns name) (by
      show _ ∈ (r.readConfigMap name items).2.requests
      rw [readConfigMap_requests]
      simp)
    exact hq
  have hrec : (r.onWorld w).record (.get .configmaps (r.onWorld w).plan.Ns name)
      = (r.record (.get .configmaps r.plan.Ns name)).onWorld w := rfl
  have hget' : ((r.record (.get .configmaps r.plan.Ns name)).onWorld w).client.Get
      ((r.record (.get .configmaps r.plan.Ns name)).onWorld w).world .configmaps
      ((r.record (.get .configmaps r.plan.Ns name)).onWorld w).plan.Ns name
      = r.client.Get r.world .configmaps r.plan.Ns name := hget
  have hget0 : (r.record (.get .configmaps r.plan.Ns name)).client.Get
      (r.record (.get .configmaps r.plan.Ns name)).world .configmaps
      (r.record (.get .configmaps r.plan.Ns name)).plan.Ns name
      = r.client.Get r.world .configmaps r.plan.Ns name := rfl
  simp only [Retriever.readConfigMap, hrec, hget', hget0]
  cases r.client.Get r.world .configmaps r.plan.Ns name with
  | error e => rfl
  | ok u =>
    simp only
    cases NestedMap u "data".toList with
    | error e => rfl
    | ok found =>
      cases found with
      | none => rfl
      | some data =>
        simp only [rangeConfigMapData_onWorld]
        rcases Retriever.rangeConfigMapData data (r.record (.get .configmaps r.plan.Ns name))
          with ⟨o, r1⟩
        cases o with
        | ok x => cases x; rfl
        | error e => rfl
        | panic p => rfl

theorem readSecrets_sim (w : W) (secrets : GoMap (List Str)) :
    Sim w (Retriever.readSecrets secrets) := by
  show Sim w (forEach (fun (entry : Str × List Str) r => r.readSecret entry.1 entry.2) secrets)
  exact forEach_sim w _ (fun entry r => readSecret_readOnly r entry.1 entry.2)
    (fun entry => readSecret_sim w entry.1 entry.2) secrets

theorem readConfigMaps_sim (w : W) (configMaps : GoMap (List Str)) :
    Sim w (Retriever.readConfigMaps configMaps) := by
  show Sim w
    (forEach (fun (entry : Str × List Str) r => r.readConfigMap entry.1 entry.2) configMaps)
  exact forEach_sim w _ (fun entry r => readConfigMap_readOnly r entry.1 entry.2)
    (fun entry => readConfigMap_sim w entry.1 entry.2) configMaps

theorem read_sim (w : W) (place path : Str) (xs : List Str) :
    Sim w (fun r => r.read place path xs) := by
  intro r h
  have hq := inspect_quiet place path xs ⟨[], []⟩ r
  simp only [Retriever.read, inspect_onWorld] at h ⊢
  rcases hi : Retriever.inspect place path xs ⟨[], []⟩ r with ⟨o, r1⟩
  rw [hi] at h hq
  simp only at h hq ⊢
  cases o with
  | error e => rfl
  | panic p => rfl
  | ok acc =>
    simp only at h ⊢
    have hs := readSecrets_sim w acc.secrets r1
    have hro := readSecrets_readOnly acc.secrets r1
    rcases hr : Retriever.readSecrets acc.secrets r1 with ⟨o2, r2⟩
    rw [hr] at h hs hro
    simp only at h hs hro
    cases o2 with
    | ok u =>
      cases u
      simp only at h ⊢
      have hcm := readConfigMaps_readOnly acc.configMaps r2
      have h1 : Retriever.readSecrets acc.secrets (r1.onWorld w) = (.ok (), r2.onWorld w) := by
        apply hs
        intro q hq2
        rw [hq.2.2.1, hq.2.2.2.1]
        exact h q (mem_requests_of_readOnly hcm hq2)
      rw [h1]
      simp only
      apply readConfigMaps_sim w acc.configMaps r2
      intro q hq2
      rw [hro.2.2.1, hro.2.2.2.1, hq.2.2.1, hq.2.2.2.1]
      exact h q hq2
    | error e =>
      simp only at h ⊢
      have h1 : Retriever.readSecrets acc.secrets (r1.onWorld w)
          = (.error e, r2.onWorld w) := by
        apply hs
        intro q hq2
        rw [hq.2.2.1, hq.2.2.2.1]
        exact h q hq2
      rw [h1]
    | panic p =>
      simp only at h ⊢
      have h1 : Retriever.readSecrets acc.secrets (r1.onWorld w)
          = (.panic p, r2.onWorld w) := by
        apply hs
        intro q hq2
        rw [hq.2.2.1, hq.2.2.2.1]
        exact h q hq2
      rw [h1]

theorem readDescriptors_sim (w : W) (place : Str) (ds : List Descriptor) :
    Sim w (Retriever.readDescriptors place ds) := by
  show Sim w (forEach (fun (d : Descriptor) r => r.read place d.Path d.XDescriptors) ds)
  exact forEach_sim w _ (fun d r => read_readOnly r place d.Path d.XDescriptors)
    (fun d => read_sim w place d.Path d.XDescriptors) ds

theorem readPhase_sim (w : W) : Sim w (Retriever.readPhase (W := W)) := by
  intro r h
  have hs := readDescriptors_sim w "spec".toList r.plan.CRDDescription.SpecDescriptors r
  have hro := readDescriptors_readOnly "spec".toList r.plan.CRDDescription.SpecDescriptors r
  have hplan : (r.onWorld w).plan = r.plan := rfl
  simp only [Retriever.readPhase, hplan] at h ⊢
  rcases hr : Retriever.readDescriptors "spec".toList r.plan.CRDDescription.SpecDescriptors r
    with ⟨o, r1⟩
  rw [hr] at h hs hro
  simp only at h hs hro
  cases o with
  | ok u =>
    cases u
    simp only at h ⊢
    have hst := readDescriptors_readOnly "status".toList
      r1.plan.CRDDescription.StatusDescriptors r1
    have h1 : Retriever.readDescriptors "spec".toList r.plan.CRDDescription.SpecDescriptors
        (r.onWorld w) = (.ok (), r1.onWorld w) :=
      hs (fun q hq => h q (mem_requests_of_readOnly hst hq))
    rw [h1]
    simp only
    have hplan1 : (r1.onWorld w).plan = r1.plan := rfl
    rw [hplan1]
    apply readDescriptors_sim w "status".toList r1.plan.CRDDescription.StatusDescriptors r1
    intro q hq
    rw [hro.2.2.1, hro.2.2.2.1]
    exact h q hq
  | error e =>
    simp only at h ⊢
    rw [hs h]
  | panic p =>
    simp only at h ⊢
    rw [hs h]

theorem kube_get_agrees {c c1 : Cluster} {ns name : Str} {u : Object}
    (hpub : publishedIn c c1 ns name u) (q : Request) (hq : q ≠ .get .secrets ns name) :
    agrees kube c c1 q := by
  cases q with
  | create res ns' o => trivial
  | update res ns' o => trivial
  | get res ns' name' =>
    show kube.Get c1 res ns' name' = kube.Get c res ns' name'
    cases res with
    | configmaps =>
      simp only [kube, Cluster.objectsOf, hpub.2.2]
    | secrets =>
      have hne : (ns', name') ≠ (ns, name) := by
        intro e
        cases e
        exact hq rfl
      simp only [kube, Cluster.objectsOf, hpub.2.1 ns' name' hne]

/-- A successful run on the fault-free cluster, split into its read phase and its publishing. -/
theorem Retrieve_kube_ok (r : Retriever Cluster) (hc : r.client = kube) (rA : Retriever Cluster)
    (hphase : r.readPhase = (.ok (), rA)) :
    r.Retrieve.1 = .ok r.Retrieve.2.objects
      ∧ r.Retrieve.2.data = rA.data
      ∧ r.Retrieve.2.requests = rA.requests
          ++ [.create .secrets r.plan.Ns (secretToUnstructured r.plan.Name r.plan.Ns rA.data),
              .update .secrets r.plan.Ns (secretToUnstructured r.plan.Name r.plan.Ns rA.data)]
      ∧ publishedIn rA.world r.Retrieve.2.world r.plan.Ns r.plan.Name
          (secretToUnstructured r.plan.Name r.plan.Ns rA.data) := by
  have hro := readPhase_readOnly r
  rw [hphase] at hro
  simp only at hro
  have hcA : rA.client = kube := hro.2.2.1.trans hc
  obtain ⟨h1, h2, h3, h4, h5⟩ := saveDataOnSecret_kube rA hcA
  rw [hro.1] at h4 h5
  have hR : r.Retrieve = (.ok rA.saveDataOnSecret.2.objects, rA.saveDataOnSecret.2) := by
    rw [Retrieve_eq_readPhase, hphase]
    rcases hs : rA.saveDataOnSecret with ⟨o, rB⟩
    rw [hs] at h1
    simp only at h1
    subst h1
    simp only [hs]
  rw [hR]
  exact ⟨rfl, h2, h4, h5⟩

/-- C6, as stated, fails: the plan names, as the secret to read, the secret `binding`, which is
also the aggregate. The first run succeeds and rewrites `binding` with the data collected; the
second run, on the resulting cluster, succeeds as well but reads the rewritten secret, and
leaves the aggregate with other data (`DB_SECRET_DB_SECRET_PASSWORD` instead of
`DB_SECRET_PASSWORD`). -/
theorem Retrieve_twice_differs :
    (NewRetriever kube clusterSelfReference planSelfReference []).Retrieve.1
        = .ok (NewRetriever kube clusterSelfReference planSelfReference []).Retrieve.2.objects
      ∧ (NewRetriever kube
            (NewRetriever kube clusterSelfReference planSelfReference []).Retrieve.2.world
            planSelfReference []).Retrieve.1
          = .ok (NewRetriever kube
            (NewRetriever kube clusterSelfReference planSelfReference []).Retrieve.2.world
            planSelfReference []).Retrieve.2.objects
      ∧ aggregateData
          (NewRetriever kube clusterSelfReference planSelfReference []).Retrieve.2.world
          planSelfReference
          = some (.map [("DB_SECRET_PASSWORD".toList, .str "eA==".toList)])
      ∧ aggregateData
          (NewRetriever kube
            (NewRetriever kube clusterSelfReference planSelfReference []).Retrieve.2.world
            planSelfReference []).Retrieve.2.world
          planSelfReference
          = some (.map [("DB_SECRET_DB_SECRET_PASSWORD".toList, .str "eA==".toList)]) := by
  decide

/-- C6 (amended): for every plan and every state of a fault-free cluster on which `Retrieve`
succeeds without having fetched a secret that bears the name of the aggregate, running
`Retrieve` with a fresh retriever for the same plan and binding prefix a second time, on the
resulting cluster state and visiting every fetched `data` mapping in the same order, succeeds
and leaves the aggregate resource as the first run wrote it, hence with identical `data`. -/
theorem Retrieve_idempotent (plan : Plan) (bindingPrefix : Str) (c : Cluster)
    (objs : List Object)
    (hok : (NewRetriever kube c plan bindingPrefix).Retrieve.1 = .ok objs)
    (hself : Request.get .secrets plan.Ns plan.Name
      ∉ (NewRetriever kube c plan bindingPrefix).Retrieve.2.requests) :
    (NewRetriever kube (NewRetriever kube c plan bindingPrefix).Retrieve.2.world plan
          bindingPrefix).Retrieve.1
        = .ok (NewRetriever kube (NewRetriever kube c plan bindingPrefix).Retrieve.2.world plan
          bindingPrefix).Retrieve.2.objects
      ∧ aggregateOf (NewRetriever kube c plan bindingPrefix).Retrieve.2.world plan
          = some (secretToUnstructured plan.Name plan.Ns
              (NewRetriever kube c plan bindingPrefix).Retrieve.2.data)
      ∧ aggregateOf
          (NewRetriever kube (NewRetriever kube c plan bindingPrefix).Retrieve.2.world plan
            bindingPrefix).Retrieve.2.world plan
          = aggregateOf (NewRetriever kube c plan bindingPrefix).Retrieve.2.world plan
      ∧ aggregateData
          (NewRetriever kube (NewRetriever kube c plan bindingPrefix).Retrieve.2.world plan
            bindingPrefix).Retrieve.2.world plan
          = aggregateData (NewRetriever kube c plan bindingPrefix).Retrieve.2.world plan := by
  have hro := readPhase_readOnly (NewRetriever kube c plan bindingPrefix)
  rcases hphase : (NewRetriever kube c plan bindingPrefix).readPhase with ⟨o, rA⟩
  rw [hphase] at hro
  simp only at hro
  have hoA : o = .ok () := by
    cases o with
    | ok u => rfl
    | error e =>
      rw [Retrieve_eq_readPhase, hphase] at hok
      cases hok
    | panic p =>
      rw [Retrieve_eq_readPhase, hphase] at hok
      cases hok
  subst hoA
  obtain ⟨_, hdata, hreq, hpub⟩ :=
    Retrieve_kube_ok (NewRetriever kube c plan bindingPrefix) rfl rA hphase
  have hworld : rA.world = c := hro.2.2.2.1
  rw [hworld] at hpub
  have hplan : (NewRetriever kube c plan bindingPrefix).plan = plan := rfl
  rw [hplan] at hpub hreq
  have hselfA : ∀ q ∈ rA.requests, q ≠ Request.get .secrets plan.Ns plan.Name := by
    intro q hq e
    subst e
    apply hself
    rw [hreq]
    exact List.mem_append_left _ hq
  have hsim := readPhase_sim (NewRetriever kube c plan bindingPrefix).Retrieve.2.world
    (NewRetriever kube c plan bindingPrefix) (by
      rw [hphase]
      intro q hq
      exact kube_get_agrees hpub q (hselfA q hq))
  rw [hphase] at hsim
  have hsecond : (NewRetriever kube (NewRetriever kube c plan bindingPrefix).Retrieve.2.world
      plan bindingPrefix).readPhase
      = (.ok (), rA.onWorld (NewRetriever kube c plan bindingPrefix).Retrieve.2.world) := hsim
  obtain ⟨hok2, hdata2, _, hpub2⟩ :=
    Retrieve_kube_ok (NewRetriever kube (NewRetriever kube c plan bindingPrefix).Retrieve.2.world
      plan bindingPrefix) rfl _ hsecond
  have hplan2 : (NewRetriever kube (NewRetriever kube c plan bindingPrefix).Retrieve.2.world
      plan bindingPrefix).plan = plan := rfl
  rw [hplan2] at hpub2
  have hagg1 : aggregateOf (NewRetriever kube c plan bindingPrefix).Retrieve.2.world plan
      = some (secretToUnstructured plan.Name plan.Ns rA.data) := hpub.1
  have hagg2 : aggregateOf
      (NewRetriever kube (NewRetriever kube c plan bindingPrefix).Retrieve.2.world plan
        bindingPrefix).Retrieve.2.world plan
      = some (secretToUnstructured plan.Name plan.Ns rA.data) := hpub2.1
  refine ⟨hok2, ?_, ?_, ?_⟩
  · rw [hagg1, hdata]
  · rw [hagg1, hagg2]
  · simp only [aggregateData, hagg1, hagg2]

/-- Witness for C6 (scenario E): with the secret `db-creds` in the cluster and no aggregate yet,
the first run creates `binding`; it fetched no secret named `binding`, and the second run
leaves the aggregate as the first run wrote it. -/
theorem Retrieve_idempotent_witness :
    retrieverTwoReferences.Retrieve.1 = .ok retrieverTwoReferences.Retrieve.2.objects
      ∧ Request.get .secrets "ns".toList "binding".toList
          ∉ retrieverTwoReferences.Retrieve.2.requests
      ∧ aggregateData
          (NewRetriever kube retrieverTwoReferences.Retrieve.2.world
            retrieverTwoReferences.plan []).Retrieve.2.world retrieverTwoReferences.plan
        = aggregateData retrieverTwoReferences.Retrieve.2.world retrieverTwoReferences.plan :=
  ⟨by decide, by decide,
    (Retrieve_idempotent retrieverTwoReferences.plan []
      (clusterWithSecret [("password".toList, .str "czNjcjN0".toList),
        ("user".toList, .str "eA==".toList)])
      retrieverTwoReferences.Retrieve.2.objects (by decide) (by decide)).2.2.2⟩

/-! ## The aggregate store -/

/-- C15: for every aggregate state, raw key `k` and value `v`, after `store(k, v)` the aggregate
maps the key derived from `k` to `v` and every other aggregate key keeps the value it had;
consequently after `store(k1, v1)` then `store(k2, v2)`, with the same key derived from `k1`
and from `k2`, the aggregate maps that key to `v2`. -/
theorem store_last_write_wins (r : Retriever W) (k : Str) (v : Bytes) :
    lookup (r.storeKey k) (r.store k v).data = some v
      ∧ (∀ K, K ≠ r.storeKey k → lookup K (r.store k v).data = lookup K r.data)
      ∧ (∀ k2 v2, r.storeKey k = r.storeKey k2 →
          lookup (r.storeKey k) ((r.store k v).store k2 v2).data = some v2) := by
  refine ⟨lookup_store_self r k v, fun K h => lookup_store_other r k v K h, ?_⟩
  intro k2 v2 h
  have hk : (r.store k v).storeKey k2 = r.storeKey k2 := rfl
  rw [h, ← hk]
  exact lookup_store_self (r.store k v) k2 v2

/-- Witness for C15: `host.name` and `host_name` derive the same aggregate key, and the value
stored last is the one the aggregate holds. -/
theorem store_last_write_wins_witness :
    (retrieverOfKind [] "Db".toList).storeKey "host.name".toList
        = (retrieverOfKind [] "Db".toList).storeKey "host_name".toList
      ∧ lookup ((retrieverOfKind [] "Db".toList).storeKey "host.name".toList)
          (((retrieverOfKind [] "Db".toList).store "host.name".toList [1]).store
            "host_name".toList [2]).data = some [2] :=
  ⟨by decide,
    (store_last_write_wins (retrieverOfKind [] "Db".toList) "host.name".toList [1]).2.2
      "host_name".toList [2] (by decide)⟩

/-- C19: within one retriever, the aggregate key that `store` derives from `secret_` + `k1`
differs from the one it derives from `configMap_` + `k2`, for all item keys `k1` and `k2`; so
data of a secret and data of a config map never overwrite each other in the aggregate. -/
theorem secret_key_ne_configMap_key (r : Retriever W) (k1 k2 : Str) :
    r.storeKey ("secret_".toList ++ k1) ≠ r.storeKey ("configMap_".toList ++ k2) := by
  intro h
  rw [storeKey_eq_aggregateKey, storeKey_eq_aggregateKey] at h
  unfold aggregateKey at h
  have hu : ∀ a b : Str, underscored (a ++ b) = underscored a ++ underscored b := by
    intro a b; simp [underscored]
  have hup : ∀ a b : Str, ToUpper (a ++ b) = ToUpper a ++ ToUpper b := by
    intro a b; simp [ToUpper]
  have hs : ToUpper (underscored "secret_".toList) = "SECRET_".toList := by decide
  have hc : ToUpper (underscored "configMap_".toList) = "CONFIGMAP_".toList := by decide
  have hne : ∀ a b : Str, "SECRET_".toList ++ a ≠ "CONFIGMAP_".toList ++ b := by
    intro a b e
    have := List.head_eq_of_cons_eq e
    revert this
    decide
  split at h
  · simp only [hu, hup, List.append_assoc, hs, hc] at h
    exact hne _ _ (List.append_cancel_left (List.append_cancel_left h))
  · simp only [hu, hup, List.append_assoc, hs, hc] at h
    exact hne _ _ (List.append_cancel_left (List.append_cancel_left
      (List.append_cancel_left (List.append_cancel_left h))))

/-! ## Unknown markers -/

theorem inspect_unknown (place path n : Str) :
    ∀ (xs : List Str) (acc : Pending) (r : Retriever W),
      r.getCRKey place path = .ok n →
      (∀ x ∈ xs, HasPrefix x secretPrefix = false ∧ HasPrefix x configMapPrefix = false
        ∧ HasPrefix x volumeMountSecretPrefix = false ∧ HasPrefix x attributePrefix = false) →
      Retriever.inspect place path xs acc r = (.ok acc, r) := by
  intro xs
  induction xs with
  | nil => intro acc r _ _; rfl
  | cons x xs ih =>
    intro acc r hk hx
    obtain ⟨h1, h2, h3, h4⟩ := hx x (List.mem_cons_self _ _)
    have hc : r.classify path n x acc = (acc, r) := by
      simp [Retriever.classify, h1, h2, h3, h4]
    simp only [Retriever.inspect, hk, hc]
    exact ih acc r hk (fun y hy => hx y (List.mem_cons_of_mem _ hy))

/-- C17: for every descriptor whose path resolves in the CR section and all of whose markers
start with none of the four recognised prefixes, `read` succeeds and leaves the retriever as it
was: no get request is issued, and the aggregate data, the touched objects and the volume keys
are what they were before the call. -/
theorem read_ignores_unknown_markers (r : Retriever W) (place path n : Str) (xs : List Str)
    (hk : r.getCRKey place path = .ok n)
    (hx : ∀ x ∈ xs, HasPrefix x secretPrefix = false ∧ HasPrefix x configMapPrefix = false
      ∧ HasPrefix x volumeMountSecretPrefix = false ∧ HasPrefix x attributePrefix = false) :
    r.read place path xs = (.ok (), r)
      ∧ (r.read place path xs).2.requests = r.requests
      ∧ (r.read place path xs).2.data = r.data
      ∧ (r.read place path xs).2.objects = r.objects
      ∧ (r.read place path xs).2.volumeKeys = r.volumeKeys := by
  have h : r.read place path xs = (.ok (), r) := by
    simp only [Retriever.read, inspect_unknown place path n xs ⟨[], []⟩ r hk hx]
    rfl
  rw [h]
  exact ⟨rfl, rfl, rfl, rfl, rfl⟩

/-- Witness for C17: the markers `urn:alm:descriptor:text` and `binding:envVar` on the path
`credentials`, which resolves to `db-creds`, leave the retriever untouched. -/
theorem read_ignores_unknown_markers_witness :
    retrieverTwoReferences.read "spec".toList "credentials".toList
        ["urn:alm:descriptor:text".toList, "binding:envVar".toList]
      = (.ok (), retrieverTwoReferences) :=
  (read_ignores_unknown_markers retrieverTwoReferences "spec".toList "credentials".toList
    "db-creds".toList ["urn:alm:descriptor:text".toList, "binding:envVar".toList]
    (by decide) (by decide)).1

/-! ## The marker prefixes -/

theorem take_of_hasPrefix (p m : Str) (n : Nat) (hn : n ≤ p.length)
    (h : HasPrefix m p = true) : m.take n = p.take n := by
  have hp : p <+: m := List.isPrefixOf_iff_prefix.mp h
  obtain ⟨t, ht⟩ := hp
  rw [← ht, List.take_append_of_le_length hn]

theorem marker_take_ne (a b : Action) (h : a ≠ b) : a.marker.take 20 ≠ b.marker.take 20 := by
  cases a <;> cases b <;> first | exact absurd rfl h | decide

theorem marker_length (a : Action) : 20 ≤ a.marker.length := by
  cases a <;> decide

theorem marker_exclusive (m : Str) (a b : Action) (ha : HasPrefix m a.marker = true)
    (hb : HasPrefix m b.marker = true) : a = b := by
  by_contra hne
  have h1 := take_of_hasPrefix a.marker m 20 (marker_length a) ha
  have h2 := take_of_hasPrefix b.marker m 20 (marker_length b) hb
  exact marker_take_ne a b hne (h1.symm.trans h2)

theorem find_unique {α : Type} (p : α → Bool) (a : α) (hp : p a = true)
    (huniq : ∀ b, p b = true → b = a) :
    ∀ l : List α, a ∈ l → l.find? p = some a := by
  intro l
  induction l with
  | nil => intro h; cases h
  | cons x xs ih =>
    intro h
    by_cases hx : p x = true
    · have := huniq x hx
      subst this
      simp [List.find?, hx]
    · have hx' : p x = false := by simpa using hx
      rcases List.mem_cons.mp h with e | hin
      · subst e
        exact absurd hp hx
      · simp [List.find?, hx', ih hin]

theorem find_none {α : Type} (p : α → Bool) (hp : ∀ b, p b = false) :
    ∀ l : List α, l.find? p = none := by
  intro l
  induction l with
  | nil => rfl
  | cons x xs ih => simp [List.find?, hp x, ih]

theorem mem_codeOrder (a : Action) : a ∈ codeOrder := by
  cases a <;> decide

theorem firstMatch_perm (order : List Action) (h : order.Perm codeOrder) (m : Str) :
    firstMatch order m = firstMatch codeOrder m := by
  unfold firstMatch
  by_cases hex : ∃ a : Action, HasPrefix m a.marker = true
  · obtain ⟨a, ha⟩ := hex
    have huniq : ∀ b : Action, HasPrefix m b.marker = true → b = a :=
      fun b hb => marker_exclusive m b a hb ha
    rw [find_unique _ a ha huniq order (h.mem_iff.mpr (mem_codeOrder a)),
      find_unique _ a ha huniq codeOrder (mem_codeOrder a)]
  · have hnone : ∀ b : Action, HasPrefix m b.marker = false := by
      intro b
      cases hb : HasPrefix m b.marker with
      | false => rfl
      | true => exact absurd ⟨b, hb⟩ hex
    rw [find_none _ hnone order, find_none _ hnone codeOrder]

theorem classify_eq_perform (r : Retriever W) (path n m : Str) (acc : Pending) :
    r.classify path n m acc = r.perform path n m acc (firstMatch codeOrder m) := by
  unfold Retriever.classify firstMatch codeOrder
  simp only [List.find?, Action.marker]
  cases HasPrefix m secretPrefix <;> cases HasPrefix m configMapPrefix <;>
    cases HasPrefix m volumeMountSecretPrefix <;> cases HasPrefix m attributePrefix <;> rfl

/-- C18: the four marker prefixes are pairwise exclusive, no string starts with two of them;
so the action that `read` takes on a marker is the same under every ordering of the four
prefix tests. -/
theorem marker_prefixes_exclusive (m : Str) :
    ¬ (HasPrefix m secretPrefix = true ∧ HasPrefix m configMapPrefix = true)
      ∧ ¬ (HasPrefix m secretPrefix = true ∧ HasPrefix m volumeMountSecretPrefix = true)
      ∧ ¬ (HasPrefix m secretPrefix = true ∧ HasPrefix m attributePrefix = true)
      ∧ ¬ (HasPrefix m configMapPrefix = true ∧ HasPrefix m volumeMountSecretPrefix = true)
      ∧ ¬ (HasPrefix m configMapPrefix = true ∧ HasPrefix m attributePrefix = true)
      ∧ ¬ (HasPrefix m volumeMountSecretPrefix = true ∧ HasPrefix m attributePrefix = true)
      ∧ ∀ (order : List Action), order.Perm codeOrder →
          ∀ (r : Retriever W) (path n : Str) (acc : Pending),
            r.perform path n m acc (firstMatch order m) = r.classify path n m acc := by
  refine ⟨?_, ?_, ?_, ?_, ?_, ?_, ?_⟩
  · rintro ⟨h1, h2⟩
    exact absurd (marker_exclusive m .secret .configMap h1 h2) (by decide)
  · rintro ⟨h1, h2⟩
    exact absurd (marker_exclusive m .secret .volumeMount h1 h2) (by decide)
  · rintro ⟨h1, h2⟩
    exact absurd (marker_exclusive m .secret .attribute h1 h2) (by decide)
  · rintro ⟨h1, h2⟩
    exact absurd (marker_exclusive m .configMap .volumeMount h1 h2) (by decide)
  · rintro ⟨h1, h2⟩
    exact absurd (marker_exclusive m .configMap .attribute h1 h2) (by decide)
  · rintro ⟨h1, h2⟩
    exact absurd (marker_exclusive m .volumeMount .attribute h1 h2) (by decide)
  · intro order hperm r path n acc
    rw [firstMatch_perm order hperm m, classify_eq_perform]

/-- Witness for C18: testing the prefixes in the reverse order chooses the same action for the
marker `binding:env:attribute`. -/
theorem marker_prefixes_exclusive_witness :
    (retrieverOfKind [] "Db".toList).perform "host".toList "db.local".toList
        "binding:env:attribute".toList ⟨[], []⟩
        (firstMatch [.attribute, .volumeMount, .configMap, .secret]
          "binding:env:attribute".toList)
      = (retrieverOfKind [] "Db".toList).classify "host".toList "db.local".toList
        "binding:env:attribute".toList ⟨[], []⟩ :=
  (marker_prefixes_exclusive "binding:env:attribute".toList).2.2.2.2.2.2
    [.attribute, .volumeMount, .configMap, .secret] (by decide)
    (retrieverOfKind [] "Db".toList) "host".toList "db.local".toList ⟨[], []⟩

/-! ## Item names -/

theorem replaceFrom_skip (old new : Str) :
    ∀ (xs s : Str), replaceFrom old new xs.length (xs ++ s) = replaceFrom old new 0 s := by
  intro xs
  induction xs with
  | nil => intro s; rfl
  | cons x xs ih =>
    intro s
    cases hs : xs ++ s with
    | nil =>
      have hxs : xs = [] := (List.append_eq_nil.mp hs).1
      have hs' : s = [] := (List.append_eq_nil.mp hs).2
      subst hxs
      subst hs'
      simp [replaceFrom]
    | cons y ys =>
      have := ih s
      simp only [List.length_cons, List.cons_append, replaceFrom]
      exact this

theorem replaceFrom_absent (old new : Str) :
    ∀ s : Str, Index s old = none → replaceFrom old new 0 s = s := by
  intro s
  induction s with
  | nil => intro _; rfl
  | cons c cs ih =>
    intro h
    by_cases hp : old.isPrefixOf (c :: cs) = true
    · simp [Index, hp] at h
    · have hp' : old.isPrefixOf (c :: cs) = false := by
        cases hb : old.isPrefixOf (c :: cs) with
        | false => rfl
        | true => exact absurd hb hp
      have hrest : Index cs old = none := by
        cases hi : Index cs old with
        | none => rfl
        | some i => simp [Index, hp', hi] at h
      simp [replaceFrom, hp', ih hrest]

/-- When the text after the prefix does not itself contain the prefix, `strings.ReplaceAll`
with an empty replacement strips exactly the prefix. -/
theorem ReplaceAll_strips (p s : Str) (hp : p ≠ []) (hs : Index s p = none) :
    ReplaceAll (p ++ s) p [] = s := by
  cases p with
  | nil => exact absurd rfl hp
  | cons c cs =>
    have hpre : (c :: cs).isPrefixOf (c :: (cs ++ s)) = true := by
      have : (c :: cs) <+: (c :: cs) ++ s := List.prefix_append _ _
      exact List.isPrefixOf_iff_prefix.mpr this
    have h1 : ReplaceAll ((c :: cs) ++ s) (c :: cs) []
        = replaceFrom (c :: cs) [] cs.length (cs ++ s) := by
      simp [ReplaceAll, replaceFrom, hpre]
    rw [h1, replaceFrom_skip, replaceFrom_absent _ _ s hs]

/-- For a suffix that does not contain the prefix again, the item name of a secret marker and
of a config map marker is the suffix. -/
theorem extractItemName_suffix (r : Retriever W) (s : Str) :
    (Index s (secretPrefix ++ ":".toList) = none →
        r.extractSecretItemName (secretPrefix ++ ":".toList ++ s) = s)
      ∧ (Index s (configMapPrefix ++ ":".toList) = none →
        r.extractConfigMapItemName (configMapPrefix ++ ":".toList ++ s) = s) :=
  ⟨fun h => ReplaceAll_strips _ s (by decide) h, fun h => ReplaceAll_strips _ s (by decide) h⟩

/-- C16 fails on the code: for the volume mount marker `binding:volumemount:secret:password`
the item name recorded in the secret accumulator is the whole marker, not the suffix
`password`, because `extractSecretItemName` only strips `binding:env:object:secret:`; and as
it strips every occurrence, the suffix `binding:env:object:secret:x` of a secret marker is
recorded as `x`. -/
theorem extractSecretItemName_volumeMount :
    (retrieverOfKind [] "Db".toList).extractSecretItemName
        "binding:volumemount:secret:password".toList
      = "binding:volumemount:secret:password".toList
    ∧ lookup "db-creds".toList
        ((retrieverOfKind [] "Db".toList).classify "credentials".toList "db-creds".toList
          "binding:volumemount:secret:password".toList ⟨[], []⟩).1.secrets
      = some ["binding:volumemount:secret:password".toList]
    ∧ (retrieverOfKind [] "Db".toList).extractSecretItemName
        ("binding:env:object:secret:".toList ++ "binding:env:object:secret:x".toList)
      = "x".toList := by
  decide

/-! ## Errors and panics of the reference reader -/

theorem readSecret_touched (r : Retriever W) (name : Str) (items : List Str)
    (hok : (r.readSecret name items).1 = .ok ()) :
    ∃ u, r.client.Get r.world .secrets r.plan.Ns name = .ok u
      ∧ (r.readSecret name items).2.objects = r.objects ++ [u] := by
  have hget0 : (r.record (.get .secrets r.plan.Ns name)).client.Get
      (r.record (.get .secrets r.plan.Ns name)).world .secrets
      (r.record (.get .secrets r.plan.Ns name)).plan.Ns name
      = r.client.Get r.world .secrets r.plan.Ns name := rfl
  simp only [Retriever.readSecret, hget0] at hok ⊢
  cases hg : r.client.Get r.world .secrets r.plan.Ns name with
  | error e => rw [hg] at hok; cases hok
  | ok u =>
    rw [hg] at hok
    simp only at hok ⊢
    refine ⟨u, rfl, ?_⟩
    cases hn : NestedMap u "data".toList with
    | error e => rw [hn] at hok; cases hok
    | ok found =>
      rw [hn] at hok
      cases found with
      | none => cases hok
      | some data =>
        simp only at hok ⊢
        have h1 := rangeSecretData_onlyData data (r.record (.get .secrets r.plan.Ns name))
        rcases hr : Retriever.rangeSecretData data (r.record (.get .secrets r.plan.Ns name))
          with ⟨o, r1⟩
        rw [hr] at hok h1
        cases o with
        | ok x =>
          cases x
          simp only
          rw [h1.2.2.2.2.2.1]
          rfl
        | error e => cases hok
        | panic p => cases hok

theorem readConfigMap_touched (r : Retriever W) (name : Str) (items : List Str)
    (hok : (r.readConfigMap name items).1 = .ok ()) :
    ∃ u, r.client.Get r.world .configmaps r.plan.Ns name = .ok u
      ∧ (r.readConfigMap name items).2.objects = r.objects ++ [u] := by
  have hget0 : (r.record (.get .configmaps r.plan.Ns name)).client.Get
      (r.record (.get .configmaps r.plan.Ns name)).world .configmaps
      (r.record (.get .configmaps r.plan.Ns name)).plan.Ns name
      = r.client.Get r.world .configmaps r.plan.Ns name := rfl
  simp only [Retriever.readConfigMap, hget0] at hok ⊢
  cases hg : r.client.Get r.world .configmaps r.plan.Ns name with
  | error e => rw [hg] at hok; cases hok
  | ok u =>
    rw [hg] at hok
    simp only at hok ⊢
    refine ⟨u, rfl, ?_⟩
    cases hn : NestedMap u "data".toList with
    | error e => rw [hn] at hok; cases hok
    | ok found =>
      rw [hn] at hok
      cases found with
      | none => cases hok
      | some data =>
        simp only at hok ⊢
        have h1 := rangeConfigMapData_onlyData data
          (r.record (.get .configmaps r.plan.Ns name))
        rcases hr : Retriever.rangeConfigMapData data
          (r.record (.get .configmaps r.plan.Ns name)) with ⟨o, r1⟩
        rw [hr] at hok h1
        cases o with
        | ok x =>
          cases x
          simp only
          rw [h1.2.2.2.2.2.1]
          rfl
        | error e => cases hok
        | panic p => cases hok

theorem readSecret_failed_objects (r : Retriever W) (name : Str) (items : List Str)
    (h : (r.readSecret name items).1 ≠ .ok ()) :
    (r.readSecret name items).2.objects = r.objects := by
  have hget0 : (r.record (.get .secrets r.plan.Ns name)).client.Get
      (r.record (.get .secrets r.plan.Ns name)).world .secrets
      (r.record (.get .secrets r.plan.Ns name)).plan.Ns name
      = r.client.Get r.world .secrets r.plan.Ns name := rfl
  simp only [Retriever.readSecret, hget0] at h ⊢
  cases hg : r.client.Get r.world .secrets r.plan.Ns name with
  | error e => rfl
  | ok u =>
    rw [hg] at h
    simp only at h ⊢
    cases hn : NestedMap u "data".toList with
    | error e => rfl
    | ok found =>
      rw [hn] at h
      cases found with
      | none => rfl
      | some data =>
        simp only at h ⊢
        have h1 := rangeSecretData_onlyData data (r.record (.get .secrets r.plan.Ns name))
        rcases hr : Retriever.rangeSecretData data (r.record (.get .secrets r.plan.Ns name))
          with ⟨o, r1⟩
        rw [hr] at h h1
        cases o with
        | ok x => cases x; exact absurd rfl h
        | error e => exact h1.2.2.2.2.2.1
        | panic p => exact h1.2.2.2.2.2.1

theorem readConfigMap_failed_objects (r : Retriever W) (name : Str) (items : List Str)
    (h : (r.readConfigMap name items).1 ≠ .ok ()) :
    (r.readConfigMap name items).2.objects = r.objects := by
  have hget0 : (r.record (.get .configmaps r.plan.Ns name)).client.Get
      (r.record (.get .configmaps r.plan.Ns name)).world .configmaps
      (r.record (.get .configmaps r.plan.Ns name)).plan.Ns name
      = r.client.Get r.world .configmaps r.plan.Ns name := rfl
  simp only [Retriever.readConfigMap, hget0] at h ⊢
  cases hg : r.client.Get r.world .configmaps r.plan.Ns name with
  | error e => rfl
  | ok u =>
    rw [hg] at h
    simp only at h ⊢
    cases hn : NestedMap u "data".toList with
    | error e => rfl
    | ok found =>
      rw [hn] at h
      cases found with
      | none => rfl
      | some data =>
        simp only at h ⊢
        have h1 := rangeConfigMapData_onlyData data (r.record (.get .configmaps r.plan.Ns name))
        rcases hr : Retriever.rangeConfigMapData data (r.record (.get .configmaps r.plan.Ns name))
          with ⟨o, r1⟩
        rw [hr] at h h1
        cases o with
        | ok x => cases x; exact absurd rfl h
        | error e => exact h1.2.2.2.2.2.1
        | panic p => exact h1.2.2.2.2.2.1

theorem readSecret_outcome (r : Retriever W) (name : Str) (items : List Str) (u : Object)
    (hget : r.client.Get r.world .secrets r.plan.Ns name = .ok u) :
    (r.readSecret name items).1
      = readerOutcome u
          (fun data => (Retriever.rangeSecretData data (r.record (.get .secrets r.plan.Ns name))).1) := by
  have hget0 : (r.record (.get .secrets r.plan.Ns name)).client.Get
      (r.record (.get .secrets r.plan.Ns name)).world .secrets
      (r.record (.get .secrets r.plan.Ns name)).plan.Ns name = .ok u := hget
  simp only [Retriever.readSecret, hget0, NestedMap, readerOutcome]
  cases hl : lookup "data".toList u with
  | none => rfl
  | some v =>
    cases v with
    | map data =>
      simp only
      rcases hr : Retriever.rangeSecretData data (r.record (.get .secrets r.plan.Ns name))
        with ⟨o, r1⟩
      cases o with
      | ok x => cases x; rfl
      | error e => rfl
      | panic p => rfl
    | _ => rfl

theorem readConfigMap_outcome (r : Retriever W) (name : Str) (items : List Str) (u : Object)
    (hget : r.client.Get r.world .configmaps r.plan.Ns name = .ok u) :
    (r.readConfigMap name items).1
      = readerOutcome u
          (fun data => (Retriever.rangeConfigMapData data (r.record (.get .configmaps r.plan.Ns name))).1) := by
  have hget0 : (r.record (.get .configmaps r.plan.Ns name)).client.Get
      (r.record (.get .configmaps r.plan.Ns name)).world .configmaps
      (r.record (.get .configmaps r.plan.Ns name)).plan.Ns name = .ok u := hget
  simp only [Retriever.readConfigMap, hget0, NestedMap, readerOutcome]
  cases hl : lookup "data".toList u with
  | none => rfl
  | some v =>
    cases v with
    | map data =>
      simp only
      rcases hr : Retriever.rangeConfigMapData data (r.record (.get .configmaps r.plan.Ns name))
        with ⟨o, r1⟩
      cases o with
      | ok x => cases x; rfl
      | error e => rfl
      | panic p => rfl
    | _ => rfl

theorem allText_tail {p : Str × Value} {data : GoMap Value} (h : allText (p :: data)) :
    allText data :=
  fun k v hm => h k v (List.mem_cons_of_mem _ hm)

/-- Over a mapping of text values the loop of `readSecret` ends normally when every value
decodes, and otherwise returns the decode error of an entry. -/
theorem secretLoop_text :
    ∀ (data : GoMap Value) (r : Retriever W), allText data →
      ((forEach Retriever.secretEntry data r).1 = .ok ()
          ∧ ∀ k s, (k, Value.str s) ∈ data → ∃ b, DecodeString s = .ok b)
        ∨ ∃ k s e, (k, Value.str s) ∈ data ∧ DecodeString s = .error e
            ∧ (forEach Retriever.secretEntry data r).1 = .error e := by
  intro data
  induction data with
  | nil => intro r _; exact Or.inl ⟨rfl, fun k s h => by cases h⟩
  | cons p rest ih =>
    intro r h
    obtain ⟨k0, v0⟩ := p
    obtain ⟨s0, hs0⟩ := h k0 v0 (List.mem_cons_self _ _)
    subst hs0
    cases hd : DecodeString s0 with
    | error e =>
      refine Or.inr ⟨k0, s0, e, List.mem_cons_self _ _, hd, ?_⟩
      simp [forEach, Retriever.secretEntry, hd]
    | ok b =>
      have hstep : forEach Retriever.secretEntry ((k0, Value.str s0) :: rest) r
          = forEach Retriever.secretEntry rest (r.store ("secret_".toList ++ k0) b) := by
        simp [forEach, Retriever.secretEntry, hd]
      rw [hstep]
      rcases ih (r.store ("secret_".toList ++ k0) b) (allText_tail h) with ⟨hok, hall⟩ | hbad
      · refine Or.inl ⟨hok, ?_⟩
        intro k s hm
        rcases List.mem_cons.mp hm with e | hin
        · cases e
          exact ⟨b, hd⟩
        · exact hall k s hin
      · obtain ⟨k, s, e, hm, hde, hout⟩ := hbad
        exact Or.inr ⟨k, s, e, List.mem_cons_of_mem _ hm, hde, hout⟩

/-- Over a mapping of text values the loop of `readConfigMap` ends normally. -/
theorem configMapLoop_text :
    ∀ (data : GoMap Value) (r : Retriever W), allText data →
      (forEach Retriever.configMapEntry data r).1 = .ok () := by
  intro data
  induction data with
  | nil => intro r _; rfl
  | cons p rest ih =>
    intro r h
    obtain ⟨k0, v0⟩ := p
    obtain ⟨s0, hs0⟩ := h k0 v0 (List.mem_cons_self _ _)
    subst hs0
    have hstep : forEach Retriever.configMapEntry ((k0, Value.str s0) :: rest) r
        = forEach Retriever.configMapEntry rest
            (r.store ("configMap_".toList ++ k0) (toBytes s0)) := by
      simp [forEach, Retriever.configMapEntry]
    rw [hstep]
    exact ih _ (allText_tail h)

/-- With a value that is not text in the mapping, the loop of `readConfigMap` panics. -/
theorem configMapLoop_wrong_shape :
    ∀ (data : GoMap Value) (r : Retriever W) (k : Str) (v : Value), (k, v) ∈ data →
      (∀ s, v ≠ .str s) →
      (forEach Retriever.configMapEntry data r).1 = .panic .typeAssertion := by
  intro data
  induction data with
  | nil => intro r k v h; cases h
  | cons p rest ih =>
    intro r k v hm hv
    obtain ⟨k0, v0⟩ := p
    cases v0 with
    | str s0 =>
      have hstep : forEach Retriever.configMapEntry ((k0, Value.str s0) :: rest) r
          = forEach Retriever.configMapEntry rest
              (r.store ("configMap_".toList ++ k0) (toBytes s0)) := by
        simp [forEach, Retriever.configMapEntry]
      rw [hstep]
      rcases List.mem_cons.mp hm with e | hin
      · cases e
        exact absurd rfl (hv s0)
      · exact ih _ k v hin hv
    | _ => simp [forEach, Retriever.configMapEntry]

/-- With a value that is not text in the mapping, the loop of `readSecret` panics, unless it
returns the decode error of a text value before. -/
theorem secretLoop_wrong_shape :
    ∀ (data : GoMap Value) (r : Retriever W) (k : Str) (v : Value), (k, v) ∈ data →
      (∀ s, v ≠ .str s) →
      (forEach Retriever.secretEntry data r).1 = .panic .typeAssertion
        ∨ ∃ k' s e, (k', Value.str s) ∈ data ∧ DecodeString s = .error e
            ∧ (forEach Retriever.secretEntry data r).1 = .error e := by
  intro data
  induction data with
  | nil => intro r k v h; cases h
  | cons p rest ih =>
    intro r k v hm hv
    obtain ⟨k0, v0⟩ := p
    cases v0 with
    | str s0 =>
      cases hd : DecodeString s0 with
      | error e =>
        refine Or.inr ⟨k0, s0, e, List.mem_cons_self _ _, hd, ?_⟩
        simp [forEach, Retriever.secretEntry, hd]
      | ok b =>
        have hstep : forEach Retriever.secretEntry ((k0, Value.str s0) :: rest) r
            = forEach Retriever.secretEntry rest (r.store ("secret_".toList ++ k0) b) := by
          simp [forEach, Retriever.secretEntry, hd]
        rw [hstep]
        rcases List.mem_cons.mp hm with e | hin
        · cases e
          exact absurd rfl (hv s0)
        · rcases ih (r.store ("secret_".toList ++ k0) b) k v hin hv with hp | hbad
          · exact Or.inl hp
          · obtain ⟨k', s, e, hm', hde, hout⟩ := hbad
            exact Or.inr ⟨k', s, e, List.mem_cons_of_mem _ hm', hde, hout⟩
    | _ => exact Or.inl (by simp [forEach, Retriever.secretEntry])

/-- C11: given a successful fetch of a resource whose `data` values, if any, are all text,
`readSecret` returns an error if and only if the resource has no `data` field, `data` is not a
key-value mapping, or some value is not valid standard base64; `readConfigMap` returns an
error if and only if the resource has no `data` field or `data` is not a key-value mapping;
and whenever either returns an error the fetched resource is not appended to the touched
objects. -/
theorem reader_error_iff (r : Retriever W) (name : Str) (items : List Str) (u : Object)
    (htext : ∀ data, lookup "data".toList u = some (.map data) → allText data) :
    (r.client.Get r.world .secrets r.plan.Ns name = .ok u →
        ((∃ e, (r.readSecret name items).1 = .error e) ↔
          (lookup "data".toList u = none
            ∨ (∃ v, lookup "data".toList u = some v ∧ v.isMap = false)
            ∨ ∃ data k s e, lookup "data".toList u = some (.map data)
                ∧ (k, Value.str s) ∈ data ∧ DecodeString s = .error e)))
      ∧ (r.client.Get r.world .configmaps r.plan.Ns name = .ok u →
        ((∃ e, (r.readConfigMap name items).1 = .error e) ↔
          (lookup "data".toList u = none
            ∨ ∃ v, lookup "data".toList u = some v ∧ v.isMap = false)))
      ∧ (∀ e, (r.readSecret name items).1 = .error e →
          (r.readSecret name items).2.objects = r.objects)
      ∧ (∀ e, (r.readConfigMap name items).1 = .error e →
          (r.readConfigMap name items).2.objects = r.objects) := by
  refine ⟨?_, ?_, ?_, ?_⟩
  · intro hget
    rw [readSecret_outcome r name items u hget]
    unfold readerOutcome
    cases hl : lookup "data".toList u with
    | none => exact ⟨fun _ => Or.inl rfl, fun _ => ⟨_, rfl⟩⟩
    | some v =>
      cases v with
      | map data =>
        simp only [Retriever.rangeSecretData]
        rcases secretLoop_text data (r.record (.get .secrets r.plan.Ns name))
          (htext data hl) with ⟨hok, hall⟩ | ⟨k, s, e, hm, hde, hout⟩
        · rw [hok]
          constructor
          · rintro ⟨e, he⟩
            cases he
          · rintro (h | ⟨v, hv, hmap⟩ | ⟨data', k, s, e, hd', hm, hde⟩)
            · cases h
            · cases hv
              cases hmap
            · cases hd'
              obtain ⟨b, hb⟩ := hall k s hm
              rw [hb] at hde
              cases hde
        · rw [hout]
          constructor
          · intro _
            exact Or.inr (Or.inr ⟨data, k, s, e, rfl, hm, hde⟩)
          · intro _
            exact ⟨e, rfl⟩
      | null => exact ⟨fun _ => Or.inr (Or.inl ⟨_, rfl, rfl⟩), fun _ => ⟨_, rfl⟩⟩
      | bool b => exact ⟨fun _ => Or.inr (Or.inl ⟨_, rfl, rfl⟩), fun _ => ⟨_, rfl⟩⟩
      | num n => exact ⟨fun _ => Or.inr (Or.inl ⟨_, rfl, rfl⟩), fun _ => ⟨_, rfl⟩⟩
      | str s => exact ⟨fun _ => Or.inr (Or.inl ⟨_, rfl, rfl⟩), fun _ => ⟨_, rfl⟩⟩
      | list xs => exact ⟨fun _ => Or.inr (Or.inl ⟨_, rfl, rfl⟩), fun _ => ⟨_, rfl⟩⟩
  · intro hget
    rw [readConfigMap_outcome r name items u hget]
    unfold readerOutcome
    cases hl : lookup "data".toList u with
    | none => exact ⟨fun _ => Or.inl rfl, fun _ => ⟨_, rfl⟩⟩
    | some v =>
      cases v with
      | map data =>
        simp only [Retriever.rangeConfigMapData]
        rw [configMapLoop_text data _ (htext data hl)]
        constructor
        · rintro ⟨e, he⟩
          cases he
        · rintro (h | ⟨v, hv, hmap⟩)
          · cases h
          · cases hv
            cases hmap
      | null => exact ⟨fun _ => Or.inr ⟨_, rfl, rfl⟩, fun _ => ⟨_, rfl⟩⟩
      | bool b => exact ⟨fun _ => Or.inr ⟨_, rfl, rfl⟩, fun _ => ⟨_, rfl⟩⟩
      | num n => exact ⟨fun _ => Or.inr ⟨_, rfl, rfl⟩, fun _ => ⟨_, rfl⟩⟩
      | str s => exact ⟨fun _ => Or.inr ⟨_, rfl, rfl⟩, fun _ => ⟨_, rfl⟩⟩
      | list xs => exact ⟨fun _ => Or.inr ⟨_, rfl, rfl⟩, fun _ => ⟨_, rfl⟩⟩
  · intro e he
    apply readSecret_failed_objects
    rw [he]
    intro h
    cases h
  · intro e he
    apply readConfigMap_failed_objects
    rw [he]
    intro h
    cases h

/-- Witness for C11 (scenario D): the secret `db-creds` is fetched but has no `data` field;
`readSecret` returns an error and no object is touched. -/
theorem reader_error_iff_witness :
    retrieverNoData.client.Get retrieverNoData.world .secrets retrieverNoData.plan.Ns
        "db-creds".toList = .ok [("kind".toList, .str "Secret".toList)]
      ∧ (∃ e, (retrieverNoData.readSecret "db-creds".toList []).1 = .error e)
      ∧ (retrieverNoData.readSecret "db-creds".toList []).2.objects = [] :=
  ⟨by decide,
    ((reader_error_iff retrieverNoData "db-creds".toList []
      [("kind".toList, .str "Secret".toList)] (fun data h => by
        have h' : (none : Option Value) = some (.map data) := h
        cases h')).1
        (by decide)).mpr (Or.inl (by decide)),
    (reader_error_iff retrieverNoData "db-creds".toList []
      [("kind".toList, .str "Secret".toList)] (fun data h => by
        have h' : (none : Option Value) = some (.map data) := h
        cases h')).2.2.1
        (.errorf "could not find 'data' in secret".toList) (by decide)⟩

theorem Retrieve_panics_of_readPhase (r : Retriever W) (p : GoPanic)
    (h : r.readPhase.1 = .panic p) :
    r.Retrieve.1 = .panic p ∧ r.Retrieve.2.world = r.world := by
  have hro := readPhase_readOnly r
  rw [Retrieve_eq_readPhase]
  rcases hphase : r.readPhase with ⟨o, r1⟩
  rw [hphase] at h hro
  simp only at h hro
  subst h
  exact ⟨rfl, hro.2.2.2.1⟩

/-- C12, as stated, fails: the secret `db-creds` holds the number 5432 under `port` and the
config map `db-config` holds a nested mapping under `pool`; `readSecret` and `readConfigMap`
panic on the type assertion instead of returning an error, and so does `Retrieve` for a plan
that reads the secret. -/
theorem reader_panics_on_wrong_shape :
    (retrieverWrongShape.readSecret "db-creds".toList []).1 = .panic .typeAssertion
      ∧ (retrieverWrongShape.readConfigMap "db-config".toList []).1 = .panic .typeAssertion
      ∧ retrieverWrongShape.Retrieve.1 = .panic .typeAssertion := by
  decide

/-- C12 (amended): for every fetched secret or config map whose `data` mapping contains a
value that is not text, `readConfigMap` panics on its unchecked type assertion, and
`readSecret` panics likewise unless it returns the decode error of a text value of `data`; in
neither case is the resource appended to the touched objects, and a panic in the read phase is
a panic of `Retrieve`, which leaves the cluster as it was. -/
theorem reader_wrong_shape (r : Retriever W) (name : Str) (items : List Str) (u data : Object)
    (k : Str) (v : Value) (hdata : lookup "data".toList u = some (.map data))
    (hm : (k, v) ∈ data) (hv : ∀ s, v ≠ .str s) :
    (r.client.Get r.world .secrets r.plan.Ns name = .ok u →
        ((r.readSecret name items).1 = .panic .typeAssertion
          ∨ ∃ k' s e, (k', Value.str s) ∈ data ∧ DecodeString s = .error e
              ∧ (r.readSecret name items).1 = .error e)
        ∧ (r.readSecret name items).2.objects = r.objects)
      ∧ (r.client.Get r.world .configmaps r.plan.Ns name = .ok u →
        (r.readConfigMap name items).1 = .panic .typeAssertion
          ∧ (r.readConfigMap name items).2.objects = r.objects)
      ∧ (∀ p, r.readPhase.1 = .panic p →
          r.Retrieve.1 = .panic p ∧ r.Retrieve.2.world = r.world) := by
  refine ⟨?_, ?_, Retrieve_panics_of_readPhase r⟩
  · intro hget
    have hout := readSecret_outcome r name items u hget
    simp only [readerOutcome, hdata, Retriever.rangeSecretData] at hout
    have hloop := secretLoop_wrong_shape data (r.record (.get .secrets r.plan.Ns name)) k v hm hv
    rw [← hout] at hloop
    refine ⟨hloop, ?_⟩
    apply readSecret_failed_objects
    rcases hloop with hp | ⟨_, _, e, _, _, he⟩
    · rw [hp]
      intro h
      cases h
    · rw [he]
      intro h
      cases h
  · intro hget
    have hout := readConfigMap_outcome r name items u hget
    simp only [readerOutcome, hdata, Retriever.rangeConfigMapData] at hout
    have hloop := configMapLoop_wrong_shape data
      (r.record (.get .configmaps r.plan.Ns name)) k v hm hv
    rw [← hout] at hloop
    refine ⟨hloop, ?_⟩
    apply readConfigMap_failed_objects
    rw [hloop]
    intro h
    cases h

/-- Witness for C12: on the config map `db-config`, whose `data` holds a nested mapping under
`pool`, `readConfigMap` panics and touches no object. -/
theorem reader_wrong_shape_witness :
    (retrieverWrongShape.readConfigMap "db-config".toList []).1 = .panic .typeAssertion
      ∧ (retrieverWrongShape.readConfigMap "db-config".toList []).2.objects = [] :=
  (reader_wrong_shape retrieverWrongShape "db-config".toList []
    [("data".toList, .map [("pool".toList, .map [("size".toList, .str "4".toList)])])]
    [("pool".toList, .map [("size".toList, .str "4".toList)])] "pool".toList
    (.map [("size".toList, .str "4".toList)]) (by decide) (by decide)
    (fun s h => by cases h)).2.1 (by decide)

/-! ## A missing path -/

theorem Retrieve_error_of_readPhase (r : Retriever W) (e : GoError)
    (h : r.readPhase.1 = .error e) :
    r.Retrieve.1 = .error e ∧ r.Retrieve.2.world = r.world
      ∧ ∃ l, r.Retrieve.2.requests = r.requests ++ l ∧ ∀ q ∈ l, q.isWrite = false := by
  have hro := readPhase_readOnly r
  rw [Retrieve_eq_readPhase]
  rcases hphase : r.readPhase with ⟨o, r1⟩
  rw [hphase] at h hro
  simp only at h hro
  subst h
  exact ⟨rfl, hro.2.2.2.1, hro.2.2.2.2⟩

theorem readPhase_of_readFails (r : Retriever W) (e : GoError)
    (h : readFails "spec".toList r.plan.CRDDescription.SpecDescriptors r e
      ∨ ((Retriever.readDescriptors "spec".toList r.plan.CRDDescription.SpecDescriptors r).1
            = .ok ()
          ∧ readFails "status".toList r.plan.CRDDescription.StatusDescriptors
              (Retriever.readDescriptors "spec".toList r.plan.CRDDescription.SpecDescriptors
                r).2 e)) :
    r.readPhase.1 = .error e := by
  have hspec := readDescriptors_readOnly "spec".toList r.plan.CRDDescription.SpecDescriptors r
  unfold Retriever.readPhase
  rcases h with h | ⟨hok, h⟩
  · have herr := readDescriptors_of_readFails _ _ _ _ h
    rcases hs : Retriever.readDescriptors "spec".toList r.plan.CRDDescription.SpecDescriptors r
      with ⟨o, r1⟩
    rw [hs] at herr
    simp only at herr
    subst herr
    rfl
  · have herr := readDescriptors_of_readFails _ _ _ _ h
    rcases hs : Retriever.readDescriptors "spec".toList r.plan.CRDDescription.SpecDescriptors r
      with ⟨o, r1⟩
    rw [hs] at herr hok hspec
    simp only at herr hok hspec
    subst hok
    simp only [hspec.1]
    exact herr

theorem getCRKey_missing (r : Retriever W) (place path : Str) (m : GoMap Value)
    (hsec : lookup place r.plan.CR = some (.map m))
    (hdot : Contains path ".".toList = false) (habs : lookup path m = none) :
    r.getCRKey place path
      = .error (.errorf ("Can't find key '".toList ++ path ++ "'".toList)) := by
  simp only [Retriever.getCRKey, hsec, getNestedValue, getNestedValueFuel, hdot, habs]
  rfl

theorem read_of_getCRKey_error (r : Retriever W) (place path : Str) (xs : List Str)
    (e : GoError) (hk : r.getCRKey place path = .error e) (hx : xs ≠ []) :
    r.read place path xs = (.error e, r) := by
  cases xs with
  | nil => exact absurd rfl hx
  | cons x rest => simp only [Retriever.read, Retriever.inspect, hk]

/-- C13: for every descriptor that carries at least one marker, of whatever kind, and whose
path is a single segment that the CR section does not hold, `read` fails with the error naming
that path and issues no request; and `Retrieve`, once the descriptors before it are read,
fails with that error, with no create or update issued and the cluster as it was. -/
theorem read_missing_path (r : Retriever W) (place path : Str) (xs : List Str)
    (m : GoMap Value) (hsec : lookup place r.plan.CR = some (.map m))
    (hdot : Contains path ".".toList = false) (habs : lookup path m = none) (hx : xs ≠ []) :
    r.read place path xs
        = (.error (.errorf ("Can't find key '".toList ++ path ++ "'".toList)), r)
      ∧ (r.read place path xs).2.requests = r.requests
      ∧ (∀ pre post, place = "spec".toList →
          r.plan.CRDDescription.SpecDescriptors = pre ++ ⟨path, xs⟩ :: post →
          (Retriever.readDescriptors "spec".toList pre r).1 = .ok () →
          r.Retrieve.1 = .error (.errorf ("Can't find key '".toList ++ path ++ "'".toList))
            ∧ r.Retrieve.2.world = r.world
            ∧ ∃ l, r.Retrieve.2.requests = r.requests ++ l ∧ ∀ q ∈ l, q.isWrite = false)
      ∧ (∀ pre post, place = "status".toList →
          (Retriever.readDescriptors "spec".toList r.plan.CRDDescription.SpecDescriptors r).1
            = .ok () →
          r.plan.CRDDescription.StatusDescriptors = pre ++ ⟨path, xs⟩ :: post →
          (Retriever.readDescriptors "status".toList pre
            (Retriever.readDescriptors "spec".toList r.plan.CRDDescription.SpecDescriptors
              r).2).1 = .ok () →
          r.Retrieve.1 = .error (.errorf ("Can't find key '".toList ++ path ++ "'".toList))
            ∧ r.Retrieve.2.world = r.world
            ∧ ∃ l, r.Retrieve.2.requests = r.requests ++ l ∧ ∀ q ∈ l, q.isWrite = false) := by
  have hread : ∀ r1 : Retriever W, r1.plan = r.plan →
      r1.read place path xs
        = (.error (.errorf ("Can't find key '".toList ++ path ++ "'".toList)), r1) := by
    intro r1 hp
    apply read_of_getCRKey_error r1 place path xs _ _ hx
    apply getCRKey_missing r1 place path m _ hdot habs
    rw [hp]
    exact hsec
  refine ⟨hread r rfl, ?_, ?_, ?_⟩
  · rw [hread r rfl]
  · intro pre post hplace hds hpre
    subst hplace
    apply Retrieve_error_of_readPhase
    apply readPhase_of_readFails
    refine Or.inl ⟨pre, ⟨path, xs⟩, post, hds, hpre, ?_⟩
    rw [hread _ (readDescriptors_readOnly "spec".toList pre r).1]
  · intro pre post hplace hspec hds hpre
    subst hplace
    apply Retrieve_error_of_readPhase
    apply readPhase_of_readFails
    refine Or.inr ⟨hspec, pre, ⟨path, xs⟩, post, hds, hpre, ?_⟩
    have hp1 := (readDescriptors_readOnly "spec".toList
      r.plan.CRDDescription.SpecDescriptors r).1
    have hp2 := (readDescriptors_readOnly "status".toList pre
      (Retriever.readDescriptors "spec".toList r.plan.CRDDescription.SpecDescriptors r).2).1
    rw [hread _ (hp2.trans hp1)]

/-- Witness for C13 (scenario C): the descriptor `missingField`, with one marker, comes after
the descriptor `host`; `Retrieve` fails with the error naming `missingField` and the cluster is
as it was. -/
theorem read_missing_path_witness :
    retrieverMissingField.Retrieve.1
        = .error (.errorf "Can't find key 'missingField'".toList)
      ∧ retrieverMissingField.Retrieve.2.world = retrieverMissingField.world :=
  have h := (read_missing_path retrieverMissingField "spec".toList "missingField".toList
    ["binding:env:object:secret:password".toList]
    [("host".toList, .str "db.local".toList)] (by decide) (by decide) (by decide)
    (by decide)).2.2.1
    [⟨"host".toList, ["binding:env:attribute".toList]⟩] [] rfl (by decide) (by decide)
  ⟨h.1, h.2.1⟩

/-! ## Touched objects -/

theorem forall₂_append {α β : Type} (R : α → β → Prop) :
    ∀ (l1 : List α) (l2 : List β) (l3 : List α) (l4 : List β),
      List.Forall₂ R l1 l2 → List.Forall₂ R l3 l4 → List.Forall₂ R (l1 ++ l3) (l2 ++ l4) := by
  intro l1 l2 l3 l4 h1 h2
  induction h1 with
  | nil => exact h2
  | cons hab _ ih => exact List.Forall₂.cons hab ih

theorem fetched_refl (r : Retriever W) : Fetched r r :=
  ⟨rfl, rfl, rfl, rfl, [], [], by simp, by simp, List.Forall₂.nil⟩

theorem fetched_trans {a b c : Retriever W} (h1 : Fetched a b) (h2 : Fetched b c) :
    Fetched a c := by
  obtain ⟨p1, p2, p3, p4, g1, o1, p5, p6, p7⟩ := h1
  obtain ⟨q1, q2, q3, q4, g2, o2, q5, q6, q7⟩ := h2
  refine ⟨q1.trans p1, q2.trans p2, q3.trans p3, q4.trans p4, g1 ++ g2, o1 ++ o2, ?_, ?_, ?_⟩
  · rw [q5, p5, List.append_assoc]
  · rw [q6, p6, List.append_assoc]
  · rw [p3, p4] at q7
    exact forall₂_append _ _ _ _ _ p7 q7

theorem quiet_fetched {a b : Retriever W} (h : Quiet a b) : Fetched a b := by
  obtain ⟨p1, p2, p3, p4, p5, p6⟩ := h
  exact ⟨p1, p2, p3, p4, [], [], by simp [p5], by simp [p6], List.Forall₂.nil⟩

theorem forEach_rel_ok {α : Type} (R : Retriever W → Retriever W → Prop)
    (hrefl : ∀ r, R r r) (htrans : ∀ a b c, R a b → R b c → R a c)
    (body : α → Retriever W → Outcome Unit × Retriever W)
    (hbody : ∀ x r, (body x r).1 = .ok () → R r (body x r).2) :
    ∀ (xs : List α) (r : Retriever W), (forEach body xs r).1 = .ok () →
      R r (forEach body xs r).2 := by
  intro xs
  induction xs with
  | nil => intro r _; exact hrefl r
  | cons x xs ih =>
    intro r h
    have hb := hbody x r
    rcases hx : body x r with ⟨o, r1⟩
    rw [hx] at hb
    cases o with
    | ok u =>
      cases u
      simp only [forEach, hx] at h ⊢
      exact htrans _ _ _ (hb rfl) (ih r1 h)
    | error e =>
      simp only [forEach, hx] at h
      cases h
    | panic p =>
      simp only [forEach, hx] at h
      cases h

theorem readSecret_fetched (r : Retriever W) (name : Str) (items : List Str)
    (h : (r.readSecret name items).1 = .ok ()) : Fetched r (r.readSecret name items).2 := by
  obtain ⟨p1, p2, p3, p4, _⟩ := readSecret_readOnly r name items
  obtain ⟨u, hget, hobj⟩ := readSecret_touched r name items h
  exact ⟨p1, p2, p3, p4, [.get .secrets r.plan.Ns name], [u], readSecret_requests r name items,
    hobj, List.Forall₂.cons ⟨_, _, _, rfl, hget⟩ List.Forall₂.nil⟩

theorem readConfigMap_fetched (r : Retriever W) (name : Str) (items : List Str)
    (h : (r.readConfigMap name items).1 = .ok ()) :
    Fetched r (r.readConfigMap name items).2 := by
  obtain ⟨p1, p2, p3, p4, _⟩ := readConfigMap_readOnly r name items
  obtain ⟨u, hget, hobj⟩ := readConfigMap_touched r name items h
  exact ⟨p1, p2, p3, p4, [.get .configmaps r.plan.Ns name], [u],
    readConfigMap_requests r name items, hobj,
    List.Forall₂.cons ⟨_, _, _, rfl, hget⟩ List.Forall₂.nil⟩

theorem read_fetched (r : Retriever W) (place path : Str) (xs : List Str)
    (h : (r.read place path xs).1 = .ok ()) : Fetched r (r.read place path xs).2 := by
  have hq := inspect_quiet place path xs ⟨[], []⟩ r
  simp only [Retriever.read] at h ⊢
  rcases hi : Retriever.inspect place path xs ⟨[], []⟩ r with ⟨o, r1⟩
  rw [hi] at h hq
  simp only at h hq ⊢
  cases o with
  | error e => cases h
  | panic p => cases h
  | ok acc =>
    simp only at h ⊢
    have hs : (Retriever.readSecrets acc.secrets r1).1 = .ok () →
        Fetched r1 (Retriever.readSecrets acc.secrets r1).2 :=
      forEach_rel_ok Fetched fetched_refl (fun _ _ _ => fetched_trans) _
        (fun entry r => readSecret_fetched r entry.1 entry.2) acc.secrets r1
    rcases hr : Retriever.readSecrets acc.secrets r1 with ⟨o2, r2⟩
    rw [hr] at h hs
    simp only at h hs
    cases o2 with
    | ok u =>
      cases u
      simp only at h ⊢
      have hc : Fetched r2 (Retriever.readConfigMaps acc.configMaps r2).2 :=
        forEach_rel_ok Fetched fetched_refl (fun _ _ _ => fetched_trans) _
          (fun entry r => readConfigMap_fetched r entry.1 entry.2) acc.configMaps r2 h
      exact fetched_trans (quiet_fetched hq) (fetched_trans (hs rfl) hc)
    | error e => cases h
    | panic p => cases h

theorem readDescriptors_fetched (place : Str) (ds : List Descriptor) (r : Retriever W)
    (h : (Retriever.readDescriptors place ds r).1 = .ok ()) :
    Fetched r (Retriever.readDescriptors place ds r).2 :=
  forEach_rel_ok Fetched fetched_refl (fun _ _ _ => fetched_trans) _
    (fun d r => read_fetched r place d.Path d.XDescriptors) ds r h

theorem saveDataOnSecret_ok (r : Retriever W) (h : r.saveDataOnSecret.1 = .ok ()) :
    r.saveDataOnSecret.2.objects
        = r.objects ++ [secretToUnstructured r.plan.Name r.plan.Ns r.data]
      ∧ r.saveDataOnSecret.2.requests = r.requests
          ++ [.create .secrets r.plan.Ns (secretToUnstructured r.plan.Name r.plan.Ns r.data),
              .update .secrets r.plan.Ns (secretToUnstructured r.plan.Name r.plan.Ns r.data)]
      ∧ r.saveDataOnSecret.2.data = r.data := by
  rcases hc : r.client.Create r.world .secrets r.plan.Ns
    (secretToUnstructured r.plan.Name r.plan.Ns r.data) with ⟨res, w1⟩
  rcases hu : r.client.Update w1 .secrets r.plan.Ns
    (secretToUnstructured r.plan.Name r.plan.Ns r.data) with ⟨res2, w2⟩
  have hres2 : ∀ (objs : List Object) (reqs : List Request),
      ((match res2 with
        | .error e =>
          ((Outcome.error e : Outcome Unit),
            ({ r with world := w2, requests := reqs } : Retriever W))
        | .ok _ =>
          (Outcome.ok (), { r with world := w2, requests := reqs, objects := objs })).1
        = .ok ()) →
      ∃ o, res2 = .ok o := by
    intro objs reqs hh
    cases res2 with
    | ok o => exact ⟨o, rfl⟩
    | error e => cases hh
  cases res with
  | ok a =>
    simp only [Retriever.saveDataOnSecret, Retriever.record, hc, hu] at h ⊢
    obtain ⟨o, ho⟩ := hres2 _ _ h
    subst ho
    exact ⟨rfl, by simp, rfl⟩
  | error e =>
    cases hb : IsAlreadyExists e with
    | false =>
      simp [Retriever.saveDataOnSecret, Retriever.record, hc, hb] at h
    | true =>
      simp only [Retriever.saveDataOnSecret, Retriever.record, hc, hu, hb] at h ⊢
      obtain ⟨o, ho⟩ := hres2 _ _ h
      subst ho
      exact ⟨rfl, by simp, rfl⟩

theorem Retrieve_touched (r : Retriever W) (objs : List Object)
    (h : r.Retrieve.1 = .ok objs) :
    ∃ specGets statusGets fetched,
      (Retriever.readDescriptors "spec".toList r.plan.CRDDescription.SpecDescriptors
          r).2.requests = r.requests ++ specGets
        ∧ r.Retrieve.2.requests = r.requests ++ (specGets ++ statusGets)
            ++ [.create .secrets r.plan.Ns
                  (secretToUnstructured r.plan.Name r.plan.Ns r.Retrieve.2.data),
                .update .secrets r.plan.Ns
                  (secretToUnstructured r.plan.Name r.plan.Ns r.Retrieve.2.data)]
        ∧ List.Forall₂ (answered r.client r.world) (specGets ++ statusGets) fetched
        ∧ objs = r.objects ++ fetched
            ++ [secretToUnstructured r.plan.Name r.plan.Ns r.Retrieve.2.data] := by
  have hspec := readDescriptors_fetched "spec".toList r.plan.CRDDescription.SpecDescriptors r
  unfold Retriever.Retrieve at h ⊢
  rcases hs : Retriever.readDescriptors "spec".toList r.plan.CRDDescription.SpecDescriptors r
    with ⟨o1, r1⟩
  rw [hs] at h hspec
  simp only at h hspec ⊢
  cases o1 with
  | error e => cases h
  | panic p => cases h
  | ok x =>
    cases x
    simp only at h ⊢
    obtain ⟨p1, p2, p3, p4, g1, f1, p5, p6, p7⟩ := hspec rfl
    have hstatus := readDescriptors_fetched "status".toList
      r1.plan.CRDDescription.StatusDescriptors r1
    rcases ht : Retriever.readDescriptors "status".toList
      r1.plan.CRDDescription.StatusDescriptors r1 with ⟨o2, r2⟩
    rw [ht] at h hstatus
    simp only at h hstatus ⊢
    cases o2 with
    | error e => cases h
    | panic p => cases h
    | ok y =>
      cases y
      simp only at h ⊢
      obtain ⟨q1, q2, q3, q4, g2, f2, q5, q6, q7⟩ := hstatus rfl
      have hsave := saveDataOnSecret_ok r2
      rcases hv : r2.saveDataOnSecret with ⟨o3, r3⟩
      rw [hv] at h hsave
      simp only at h hsave ⊢
      cases o3 with
      | error e => cases h
      | panic p => cases h
      | ok z =>
        cases z
        simp only at h ⊢
        obtain ⟨s1, s2, s3⟩ := hsave rfl
        refine ⟨g1, g2, f1 ++ f2, p5, ?_, ?_, ?_⟩
        · rw [s2, s3, q5, p5, q1, p1]
          simp
        · rw [p3, p4] at q7
          exact forall₂_append _ _ _ _ _ p7 q7
        · cases h
          rw [s1, s3, q6, p6, q1, p1]
          simp

/-- C14: for every plan and cluster state on which `Retrieve` succeeds, the returned
touched-objects sequence consists of the objects returned for the get requests of the run, one
per request and in the order of the requests (those of the spec descriptors before those of
the status descriptors), followed by the aggregate resource as its last element; so its length
is the number of fetches plus one. -/
theorem Retrieve_touched_objects (client : Client W) (world : W) (plan : Plan)
    (bindingPrefix : Str) (objs : List Object)
    (h : (NewRetriever client world plan bindingPrefix).Retrieve.1 = .ok objs) :
    ∃ specGets statusGets fetched,
      (Retriever.readDescriptors "spec".toList plan.CRDDescription.SpecDescriptors
          (NewRetriever client world plan bindingPrefix)).2.requests = specGets
        ∧ (NewRetriever client world plan bindingPrefix).Retrieve.2.requests
            = specGets ++ statusGets
              ++ [.create .secrets plan.Ns (secretToUnstructured plan.Name plan.Ns
                    (NewRetriever client world plan bindingPrefix).Retrieve.2.data),
                  .update .secrets plan.Ns (secretToUnstructured plan.Name plan.Ns
                    (NewRetriever client world plan bindingPrefix).Retrieve.2.data)]
        ∧ List.Forall₂ (answered client world) (specGets ++ statusGets) fetched
        ∧ objs = fetched ++ [secretToUnstructured plan.Name plan.Ns
            (NewRetriever client world plan bindingPrefix).Retrieve.2.data]
        ∧ objs.length = (specGets ++ statusGets).length + 1 := by
  obtain ⟨g1, g2, f, h1, h2, h3, h4⟩ :=
    Retrieve_touched (NewRetriever client world plan bindingPrefix) objs h
  refine ⟨g1, g2, f, ?_, ?_, h3, ?_, ?_⟩
  · rw [show (NewRetriever client world plan bindingPrefix).plan = plan from rfl] at h1
    rw [h1]
    simp [NewRetriever]
  · rw [h2]
    simp [NewRetriever]
  · rw [h4]
    simp [NewRetriever]
  · have hlen := h3.length_eq
    rw [h4]
    simp only [NewRetriever, List.nil_append, List.length_append, List.length_singleton]
    simp only [List.length_append] at hlen
    omega

/-- Witness for C14: the run that fetches `db-creds` once for each of two spec descriptors
returns three objects, the secret twice and then the aggregate. -/
theorem Retrieve_touched_objects_witness :
    retrieverTwoReferences.Retrieve.1 = .ok retrieverTwoReferences.Retrieve.2.objects
      ∧ ∃ specGets statusGets fetched,
        (Retriever.readDescriptors "spec".toList
            retrieverTwoReferences.plan.CRDDescription.SpecDescriptors
            retrieverTwoReferences).2.requests = specGets
          ∧ retrieverTwoReferences.Retrieve.2.requests
              = specGets ++ statusGets
                ++ [.create .secrets "ns".toList (secretToUnstructured "binding".toList
                      "ns".toList retrieverTwoReferences.Retrieve.2.data),
                    .update .secrets "ns".toList (secretToUnstructured "binding".toList
                      "ns".toList retrieverTwoReferences.Retrieve.2.data)]
          ∧ List.Forall₂ (answered kube retrieverTwoReferences.world)
              (specGets ++ statusGets) fetched
          ∧ retrieverTwoReferences.Retrieve.2.objects
              = fetched ++ [secretToUnstructured "binding".toList "ns".toList
                  retrieverTwoReferences.Retrieve.2.data]
          ∧ retrieverTwoReferences.Retrieve.2.objects.length
              = (specGets ++ statusGets).length + 1 :=
  ⟨by decide,
    Retrieve_touched_objects kube retrieverTwoReferences.world retrieverTwoReferences.plan []
      retrieverTwoReferences.Retrieve.2.objects (by decide)⟩

end servicebindingrequest
